import Mathlib

/-!
# pcrd-version-updater: resource version resolution

A shallow embedding of the Go sources of `SpeedxPz/pcrd-version-updater`
(`src/use_case`, `src/repository/pcrd_jp_repository`,
`src/repository/pcrd_th_repository`, `src/entity/...`) together with theorems
about the embedded functions.

Conventions.
* A Go `string` is a Lean `String`; `len(s)` is the byte length.
* A Go `error` is an `Option Err` (`none` is `nil`); a Go function returning
  `(T, error)` returns a pair `T × Option Err`.
* `int64` values are `Int`s, every arithmetic result is reduced by `wrapInt64`.
* Logging and tracing calls have no effect on results and are left out.
* Whatever lives outside the repository (HTTP server, msgpack, JSON, base64,
  SHA-1, MD5, the stores behind the use-case interfaces) is a parameter.
-/

/-! ## Go builtins and standard library -/

namespace golang

/-- Go `len(s)` of a string, the number of bytes of its UTF-8 encoding. -/
def len (s : String) : Nat := s.utf8ByteSize

/-- Two's complement reduction of an integer to the `int64` range. -/
def wrapInt64 (x : Int) : Int := (x + 2 ^ 63) % 2 ^ 64 - 2 ^ 63

/-- Go `fmt.Sprintf("%d", n)` on an integer: decimal digits, `-` in front of a
negative number. -/
def Sprintf_d (n : Int) : String :=
  if n < 0 then "-" ++ Nat.repr n.natAbs else Nat.repr n.toNat

/-- Go `fmt.Sprintf("%s", n)` on an `int32` operand. `%s` is not an integer
verb, so package `fmt` renders the operand as `%!s(int32=<decimal>)`. -/
def Sprintf_s_int32 (n : Int) : String :=
  "%!s(int32=" ++ Sprintf_d n ++ ")"

/-- Value of one decimal digit character. -/
def digitValue (c : Char) : Option Nat :=
  if '0' ≤ c ∧ c ≤ '9' then some (c.toNat - '0'.toNat) else none

/-- Left-to-right accumulation of decimal digits; `none` on a non-digit. -/
def digitsValue : List Char → Nat → Option Nat
  | [], acc => some acc
  | c :: cs, acc =>
    match digitValue c with
    | none => none
    | some d => digitsValue cs (acc * 10 + d)

/-- Unsigned part of `strconv.ParseInt(s, 10, 64)`: at least one character,
all of them decimal digits. -/
def parseDigits (cs : List Char) : Option Nat :=
  match cs with
  | [] => none
  | _ :: _ => digitsValue cs 0

/-- Go `strconv.ParseInt(s, 10, 64)`; `none` stands for a non-nil error
(`ErrSyntax` on an empty string, a lone sign or a non-digit, `ErrRange` when
the value does not fit `int64`). -/
def ParseInt (s : String) : Option Int :=
  match s.data with
  | [] => none
  | c :: cs =>
    let neg := decide (c = '-')
    let ds := if c = '+' ∨ c = '-' then cs else c :: cs
    match parseDigits ds with
    | none => none
    | some un =>
      if !neg ∧ un ≥ 2 ^ 63 then none
      else if neg ∧ un > 2 ^ 63 then none
      else some (if neg then -(un : Int) else (un : Int))

/-- Go error values: `errors.New(msg)` sentinels and `fmt.Errorf("..%w", e)`
wrappers, whose `text` is the rendered text around the wrapped error. -/
inductive Err where
  | sentinel (msg : String)
  | wrap (text : String) (inner : Err)
  deriving DecidableEq, Repr

/-- Go `errors.Is(err, target)`: walks the `Unwrap` chain of `err`. -/
def errorsIs : Err → Err → Bool
  | .sentinel m, target => decide (Err.sentinel m = target)
  | .wrap t e, target => decide (Err.wrap t e = target) || errorsIs e target

end golang

/-! ## `src/use_case/use_case.go`: errors -/

namespace use_case

open golang

def ErrPermissionDenied : Err := .sentinel "permission denied"
def ErrDataTransform : Err := .sentinel "data transformation error"
def ErrInvalidRequestParam : Err := .sentinel "invalid request parameter"
def ErrResVerNotAvailable : Err := .sentinel "resource version not available from remote"
def ErrRetrieveData : Err := .sentinel "data retrieve failed"
def ErrRetrivingSetting : Err := .sentinel "failed to retrieving setting data"
def ErrSettingNotExists : Err := .sentinel "setting not found"
def ErrMissingAppID : Err := .sentinel "app id is required"
def ErrRetrivingApplication : Err := .sentinel "failed to retrieving application data"
def ErrApplicationNotFound : Err := .sentinel "application not found"
def ErrRetrivingVersion : Err := .sentinel "failed to retrieving version data"
def ErrVersionNotFound : Err := .sentinel "version not found"
def ErrSavingVersion : Err := .sentinel "failed to save version"
def ErrVersionPublish : Err := .sentinel "cannot publish version"
def ErrSavingSetting : Err := .sentinel "failed to save setting"

end use_case

/-! ## `src/repository/pcrd_jp_repository/rest.go` -/

namespace pcrd_jp_repository

open golang use_case

/-- What the HTTP layer answers to a `GET` of an endpoint:
`http.NewRequestWithContext` fails, `client.Do` fails, or a response with a
status code arrives. -/
inductive HttpReply where
  | createRequestFailed
  | requestFailed
  | status (code : Nat)
  deriving DecidableEq, Repr

/-- The receiver `rest`; `client` answers a `GET` of the given endpoint. -/
structure rest where
  client : String → HttpReply
  baseURL : String
  locale : String

/-- `rest.call`: one existence check of the manifest of `version`. -/
def call (r : rest) (version : Int) : Bool × Option Err :=
  let endpoint := r.baseURL ++ "/dl/Resources/" ++ Sprintf_d version ++ "/" ++ r.locale ++
    "/AssetBundles/Android/manifest/manifest_assetmanifest"
  match r.client endpoint with
  | .createRequestFailed => (false, some (.wrap "create request failed: " ErrRetrieveData))
  | .requestFailed => (false, some (.wrap "request failed: " ErrRetrieveData))
  | .status code => if code ≠ 200 then (false, none) else (true, none)

/-- Observable steps of one probe run. -/
inductive Event where
  | check (version : Int)
  | sleep (seconds : Nat)
  deriving DecidableEq, Repr

/-- Loop-carried state of `GetResourceVersion`: the variable `newVersion` and
the steps performed so far. -/
structure LoopState where
  newVersion : String
  events : List Event
  deriving DecidableEq, Repr

/-- Body of `for i := 1; i < 20; i++` in `GetResourceVersion`. -/
def loopBody (r : rest) (version : Int) (st : LoopState) (i : Nat) : LoopState :=
  let guessNumber := wrapInt64 (version + wrapInt64 (wrapInt64 (i : Int) * wrapInt64 10))
  match call r guessNumber with
  | (_, some _) => { st with events := st.events ++ [.check guessNumber] }
  | (result, none) =>
    { newVersion := if result then Sprintf_d guessNumber else st.newVersion
      events := st.events ++ [.check guessNumber, .sleep 1] }

/-- Result of `GetResourceVersion`: the two Go return values and the steps
performed. -/
structure ProbeResult where
  value : String
  err : Option Err
  events : List Event
  deriving DecidableEq, Repr

/-- `rest.GetResourceVersion(ctx, startVersion)`. -/
def GetResourceVersion (r : rest) (startVersion : String) : ProbeResult :=
  match ParseInt startVersion with
  | none =>
    { value := ""
      err := some (.wrap ("invalid start version " ++ startVersion ++ ": ") ErrRetrieveData)
      events := [] }
  | some version =>
    let st := (List.range' 1 19).foldl (loopBody r version) { newVersion := "", events := [] }
    { value := if len st.newVersion ≤ 0 then startVersion else st.newVersion
      err := none
      events := st.events }

/-- State of the probe loop after its first `n` iterations. -/
def loopAfter (r : rest) (version : Int) (n : Nat) : LoopState :=
  (List.range' 1 n).foldl (loopBody r version) { newVersion := "", events := [] }

/-- The `i`-th candidate of a probe run started at `v0`, in `int64` arithmetic. -/
def candidate (v0 : Int) (i : Nat) : Int :=
  wrapInt64 (v0 + wrapInt64 (wrapInt64 (i : Int) * wrapInt64 10))

/-- A server on which exactly the listed versions exist. -/
def serverWith (versions : List Int) : rest :=
  { client := fun url =>
      if versions.any (fun v => url == "http://cdn/dl/Resources/" ++ Sprintf_d v ++
        "/Jpn/AssetBundles/Android/manifest/manifest_assetmanifest")
      then .status 200 else .status 404
    baseURL := "http://cdn"
    locale := "Jpn" }

end pcrd_jp_repository


/-! ## `src/entity/credential`, `src/entity/cryptography/cryptography.go` -/

namespace credential

/-- Modelled from the spec: the declaration of `credential.Credential` (package
`src/entity/credential`) is not among the sources. The spec gives
`Credential {deviceId: string, shortDeviceId: int32, viewerId: int32,
sessionId: string}`; the field names are the ones the repositories use, and
`setting_repository` fills `ShortUdid` and `ViewerID` from `int32` fields. -/
structure Credential where
  Udid : String
  ShortUdid : Int
  ViewerID : Int
  SessionID : String
  deriving DecidableEq, Repr

end credential

namespace cryptography

/-- Go `hex.EncodeToString`: two lowercase hexadecimal digits per byte. -/
def hexEncodeToString (bytes : List Nat) : String :=
  String.mk (bytes.flatMap fun b => [Nat.digitChar (b / 16 % 16), Nat.digitChar (b % 16)])

/-- `MakeMD5(input)`; `md5Sum` stands for `md5.Sum([]byte(input))`. -/
def MakeMD5 (md5Sum : String → List Nat) (input : String) : String :=
  let hash := md5Sum input
  hexEncodeToString hash

/-- `MakeSHA1(input)`; `sha1Sum` stands for `sha1.Sum([]byte(input))`. -/
def MakeSHA1 (sha1Sum : String → List Nat) (input : String) : String :=
  let hash := sha1Sum input
  hexEncodeToString hash

end cryptography

/-! ## `src/use_case/use_case.go`: protocol parameter -/

namespace use_case

structure PcrdVersion where
  AppVersion : String
  ResVersion : String
  deriving DecidableEq, Repr

end use_case

/-! ## `src/repository/pcrd_th_repository/rest.go` -/

namespace pcrd_th_repository

open golang use_case credential cryptography

structure restCheckGameStartParam where
  AppType : Int
  CampaignData : String
  CampaignSign : String
  CampaignUser : Int
  ViewerID : String
  deriving DecidableEq, Repr

/-- The header block of the response envelope. A field that is absent from the
JSON text (or is `null`) keeps Go's zero value after `json.Unmarshal`: the
empty string for `RequiredResVer`. -/
structure restDataHeader where
  ResultCode : Int
  RequiredResVer : String
  ShortUdid : Int
  ViewerID : Int
  SID : String
  ServerTime : Int
  deriving DecidableEq, Repr

/-- `restDataResp[restCheckGameStartResp]`; the `data` block is never read by
the code and is left out. -/
structure restDataResp where
  DataHeaders : restDataHeader
  deriving DecidableEq, Repr

/-- Library functions used by the TH repository: `msgpack.Marshal(&param)`,
`base64.StdEncoding.EncodeToString`, `sha1.Sum`, `md5.Sum`, `json.Marshal(param)`
and `json.Unmarshal` into the response envelope. `none` is a non-nil error. -/
structure Lib where
  msgpackMarshal : restCheckGameStartParam → Option (List Nat)
  base64Encode : List Nat → String
  sha1Sum : String → List Nat
  md5Sum : String → List Nat
  jsonMarshal : restCheckGameStartParam → Option String
  jsonUnmarshal : String → Option restDataResp

/-- A `POST` request as handed to the HTTP client. -/
structure Request where
  endpoint : String
  headers : List (String × String)
  body : String
  deriving DecidableEq, Repr

/-- What the HTTP layer answers to a request: `http.NewRequestWithContext`
fails, `client.Do` fails, reading the body fails, or a response with a status
code and a body arrives. -/
inductive HttpReply where
  | createRequestFailed
  | requestFailed
  | readFailed (status : Nat)
  | response (status : Nat) (body : String)
  deriving DecidableEq, Repr

/-- The receiver `rest`. -/
structure rest where
  client : Request → HttpReply
  baseURL : String
  salt : String

/-- Go `headers[k] = v` on a `map[string]string` kept as an association list. -/
def setHeader (headers : List (String × String)) (k v : String) : List (String × String) :=
  (k, v) :: headers.filter (fun p => p.1 != k)

/-- Go `headers[k]` (`none` when the key is absent). -/
def getHeader (headers : List (String × String)) (k : String) : Option String :=
  headers.lookup k

/-- `rest.defaultHeader`. -/
def defaultHeader : List (String × String) :=
  [ ("User-Agent", "Dalvik/2.1.0 (Linux; Android 5.1.1; SOV32 Build/32.0.D.0.282; wv)"),
    ("X-Unity-Version", "2018.4.22f1"),
    ("Content-Type", "application/x-www-form-urlencoded"),
    ("DEVICE", "2"),
    ("DEVICE-ID", "ad8a8ea1422cf6f46faa846cc2ecd220"),
    ("DEVICE-NAME", "Sony E6528"),
    ("GRAPHICS-DEVICE-NAME", "Mali-T820"),
    ("PLATFORM-OS-VERSION", "Android OS 5.1 / API-22 (29.1.A.0.101/418366884)"),
    ("CARRIER", "CARRIER"),
    ("PLATFORM", "2"),
    ("LOCALE", "Eng"),
    ("BATTLE-LOGIC-VERSION", "4"),
    ("KEYCHAIN", ""),
    ("BUNDLE-VER", "") ]

/-- `rest.generateParam`. The last operand of
`fmt.Sprintf("%s%s%s%s", c.Udid, pathname, sEnc, c.ViewerID)` is the `int32`
viewer id under the verb `%s`. -/
def generateParam (lib : Lib) (c : Credential) (function : String)
    (param : restCheckGameStartParam) : String × Option Err :=
  match lib.msgpackMarshal param with
  | none => ("", some (.wrap "error while mashal the request: " ErrDataTransform))
  | some bytes =>
    let sEnc := lib.base64Encode bytes
    let pathname := "/" ++ function
    let hash := MakeSHA1 lib.sha1Sum (c.Udid ++ pathname ++ sEnc ++ Sprintf_s_int32 c.ViewerID)
    (hash, none)

/-- First part of `rest.call` (up to the `SID` assignment): the header map
of the request, or the error of `generateParam` wrapped. -/
def callHeaders (lib : Lib) (r : rest) (c : Credential) (v : PcrdVersion) (function : String)
    (param : restCheckGameStartParam) : List (String × String) × Option Err :=
  let headers := defaultHeader
  let headers := setHeader headers "APP-VER" v.AppVersion
  let headers := setHeader headers "RES-VER" v.ResVersion
  let headers := setHeader headers "UDID" c.Udid
  let headers := setHeader headers "SHORT-UDID" (Sprintf_d c.ShortUdid)
  match generateParam lib c function param with
  | (_, some _) => ([], some (.wrap "generate hash param failed: " ErrInvalidRequestParam))
  | (hash, none) =>
    let headers := setHeader headers "PARAM" hash
    let headers :=
      if len c.SessionID > 0 then
        setHeader headers "SID" (MakeMD5 lib.md5Sum (c.SessionID ++ r.salt))
      else
        setHeader headers "SID"
          (MakeMD5 lib.md5Sum (Sprintf_s_int32 c.ViewerID ++ c.Udid ++ r.salt))
    (headers, none)

/-- `rest.call`: builds the request and returns the response body. The status
code of the response is not read. -/
def call (lib : Lib) (r : rest) (c : Credential) (v : PcrdVersion) (function : String)
    (param : restCheckGameStartParam) : String × Option Err :=
  let endpoint := r.baseURL ++ "/" ++ function ++ "?format=json"
  match callHeaders lib r c v function param with
  | (_, some err) => ("", some err)
  | (headers, none) =>
    match lib.jsonMarshal param with
    | none => ("", some (.wrap "error while mashal the request: " ErrDataTransform))
    | some json =>
      match r.client { endpoint := endpoint, headers := headers, body := json } with
      | .createRequestFailed => ("", some (.wrap "create request failed: " ErrRetrieveData))
      | .requestFailed => ("", some (.wrap "request failed: " ErrRetrieveData))
      | .readFailed _ => ("", some (.wrap "response read error: " ErrRetrieveData))
      | .response _ data => (data, none)

/-- The variable `param` of `GetResourceVersion`. -/
def gameStartParam (c : Credential) : restCheckGameStartParam :=
  { AppType := 0
    CampaignData := ""
    CampaignSign := "69fc9ddde974cc75a0756abb16b2ef35"
    CampaignUser := 157428
    ViewerID := Sprintf_d c.ViewerID }

/-- `rest.GetResourceVersion(ctx, c, v)`. -/
def GetResourceVersion (lib : Lib) (r : rest) (c : Credential) (v : PcrdVersion) :
    String × Option Err :=
  let param := gameStartParam c
  let function := "check/game_start"
  match call lib r c v function param with
  | (_, some err) => ("", some err)
  | (result, none) =>
    match lib.jsonUnmarshal result with
    | none => ("", some (.wrap "error while unmashal the response: " ErrDataTransform))
    | some o =>
      if len o.DataHeaders.RequiredResVer ≤ 0 then ("", some ErrResVerNotAvailable)
      else (o.DataHeaders.RequiredResVer, none)

/-- The request `call` hands to the HTTP client once headers and body are built. -/
def requestOf (r : rest) (function : String) (headers : List (String × String))
    (json : String) : Request :=
  { endpoint := r.baseURL ++ "/" ++ function ++ "?format=json", headers := headers, body := json }

/-- An HTTP reply with its status code replaced by 200. -/
def withStatusOK : HttpReply → HttpReply
  | .createRequestFailed => .createRequestFailed
  | .requestFailed => .requestFailed
  | .readFailed _ => .readFailed 200
  | .response _ body => .response 200 body

/-- Stand-ins for the library functions, for concrete runs: empty msgpack and
base64 output, digests that read off the length of the message, a fixed JSON
body, and a decoder knowing two response texts (an envelope with
`required_res_ver` "12345" and one without that field). -/
def demoLib : Lib :=
  { msgpackMarshal := fun _ => some []
    base64Encode := fun _ => ""
    sha1Sum := fun s => [s.length % 256]
    md5Sum := fun s => [s.length % 256]
    jsonMarshal := fun _ => some "\x7b\x7d"
    jsonUnmarshal := fun s =>
      if s = "\x7b\"data_headers\":\x7b\"required_res_ver\":\"12345\"\x7d\x7d" then
        some { DataHeaders := { ResultCode := 0, RequiredResVer := "12345", ShortUdid := 0,
                                ViewerID := 0, SID := "", ServerTime := 0 } }
      else if s = "\x7b\"data_headers\":\x7b\x7d\x7d" then
        some { DataHeaders := { ResultCode := 0, RequiredResVer := "", ShortUdid := 0,
                                ViewerID := 0, SID := "", ServerTime := 0 } }
      else none }

/-- A TH backend answering every request with the given reply. -/
def backendWith (reply : HttpReply) : rest :=
  { client := fun _ => reply, baseURL := "https://th", salt := "salt" }

end pcrd_th_repository

/-! ## `src/entity/setting/setting.go`, `src/entity/application/application.go` -/

namespace setting

open golang

def ErrInvalidServerCode : Err := .sentinel "unknow server code"

/-- `type ServerCode string`. -/
abbrev ServerCode := String

def ServerCodeNone : ServerCode := ""
def ServerCodeTH : ServerCode := "th"
def ServerCodeJP : ServerCode := "jp"

/-- `ParseServerCode(s)`: `s` itself when it is one of the three known codes. -/
def ParseServerCode (s : String) : ServerCode × Option Err :=
  let dataTypes := [ServerCodeNone, ServerCodeTH, ServerCodeJP]
  let dat : ServerCode := s
  if ¬ dat ∈ dataTypes then
    ("", some (.wrap ("cannot parse:[" ++ s ++ "] as servercode: ") ErrInvalidServerCode))
  else (dat, none)

structure Setting where
  ID : String
  ServerCode : ServerCode
  deriving DecidableEq, Repr

end setting

namespace application

/-- `application.Application`; the two `time.Time` fields are timestamps. -/
structure Application where
  AppID : String
  BundleID : String
  Name : String
  Version : String
  Author : String
  Icon : String
  CreateDateTime : Nat
  UpdateDateTime : Nat
  deriving DecidableEq, Repr

end application

/-! ## `src/use_case`: types, collaborators and `UpdateResourceVersion` -/

namespace use_case

open golang credential

structure PCRDSetting where
  Setting : setting.Setting
  Credential : Credential
  GuessStartVersion : String
  deriving DecidableEq, Repr

structure GameVersion where
  Setting : setting.Setting
  AppVersion : String
  ResVersion : String
  deriving DecidableEq, Repr

/-- One invocation of a collaborator during a run, with what it answered. -/
inductive Call where
  | GetSettingByID (ID : String) (result : PCRDSetting) (err : Option Err)
  | GetAndroidAppByID (appID : String) (result : application.Application) (err : Option Err)
  | VersionGetByID (appId : String) (result : GameVersion) (err : Option Err)
  | VersionCreate (version : GameVersion) (err : Option Err)
  | VersionUpdate (version : GameVersion) (err : Option Err)
  | HistoryCreate (version : GameVersion) (err : Option Err)
  | PublishVersion (version : GameVersion) (err : Option Err)
  | THGetResourceVersion (c : Credential) (v : PcrdVersion) (result : String) (err : Option Err)
  | JPGetResourceVersion (startVersion : String) (result : String) (err : Option Err)
  deriving DecidableEq, Repr

/-- The invocation is a version `Create`. -/
def Call.isVersionCreate : Call → Bool
  | .VersionCreate _ _ => true
  | _ => false

/-- The invocation is a version `Update`. -/
def Call.isVersionUpdate : Call → Bool
  | .VersionUpdate _ _ => true
  | _ => false

/-- The invocation is a history `Create`. -/
def Call.isHistoryCreate : Call → Bool
  | .HistoryCreate _ _ => true
  | _ => false

/-- The invocation is a `PublishVersion`. -/
def Call.isPublishVersion : Call → Bool
  | .PublishVersion _ _ => true
  | _ => false

/-- The invocation writes: version `Create` or `Update`, history `Create`,
or `PublishVersion`. -/
def Call.isWrite (c : Call) : Bool :=
  c.isVersionCreate || c.isVersionUpdate || c.isHistoryCreate || c.isPublishVersion

/-- The invocation is a failed call of one of the two strategies, with the
error it returned. -/
def Call.strategyError : Call → Option Err
  | .THGetResourceVersion _ _ _ err => err
  | .JPGetResourceVersion _ _ err => err
  | _ => none

/-! The collaborator interfaces. `W` is the state of everything outside the use
case (stores, queue, remote services); every operation may read and change it.
`HealthCheck` is not used by `UpdateResourceVersion` and is left out. -/

structure ApplicationRepository (W : Type) where
  GetAndroidAppByID : String → W → (application.Application × Option Err) × W

structure SettingRepository (W : Type) where
  GetSettingByID : String → W → (PCRDSetting × Option Err) × W

structure VersionRepository (W : Type) where
  GetByID : String → W → (GameVersion × Option Err) × W
  Create : GameVersion → W → Option Err × W
  Update : GameVersion → W → Option Err × W

structure HistoryRepository (W : Type) where
  Create : GameVersion → W → Option Err × W

structure PcrdTHRepository (W : Type) where
  GetResourceVersion : Credential → PcrdVersion → W → (String × Option Err) × W

structure PcrdJPRepository (W : Type) where
  GetResourceVersion : String → W → (String × Option Err) × W

structure VersionEventRepository (W : Type) where
  PublishVersion : GameVersion → W → Option Err × W

structure UseCase (W : Type) where
  applicationRepository : ApplicationRepository W
  settingRepository : SettingRepository W
  pcrdTHRepository : PcrdTHRepository W
  pcrdJPRepository : PcrdJPRepository W
  versionRepository : VersionRepository W
  historyRepository : HistoryRepository W
  versionEventRepository : VersionEventRepository W

/-- Outcome of one run: the returned error, the collaborator invocations in
order, and the outside state the run leaves behind. -/
structure Run (W : Type) where
  err : Option Err
  calls : List Call
  world : W

/-- `UpdateResourceVersion`, from the comparison `currentVersion.ResVersion ==
version` to the end. The value returned by `PublishVersion` is not assigned:
the `err` tested after it still holds the nil of `historyRepository.Create`. -/
def commitVersion {W : Type} (u : UseCase W) (application : application.Application)
    (currentVersion : GameVersion) (version : String) (calls : List Call) (w : W) : Run W :=
  if currentVersion.ResVersion = version then
    { err := none, calls := calls, world := w }
  else
    let currentVersion : GameVersion :=
      { currentVersion with ResVersion := version, AppVersion := application.Version }
    match u.versionRepository.Update currentVersion w with
    | (some err, w) =>
      { err := some err, calls := calls ++ [.VersionUpdate currentVersion (some err)], world := w }
    | (none, w) =>
      let calls := calls ++ [.VersionUpdate currentVersion none]
      match u.historyRepository.Create currentVersion w with
      | (some err, w) =>
        { err := some err, calls := calls ++ [.HistoryCreate currentVersion (some err)],
          world := w }
      | (none, w) =>
        let calls := calls ++ [.HistoryCreate currentVersion none]
        match u.versionEventRepository.PublishVersion currentVersion w with
        | (perr, w) =>
          { err := none, calls := calls ++ [.PublishVersion currentVersion perr], world := w }

/-- `UpdateResourceVersion`, from `var version string` on: the strategy chosen
by the server code, then `commitVersion`. -/
def discoverVersion {W : Type} (u : UseCase W) (appSetting : PCRDSetting)
    (application : application.Application) (currentVersion : GameVersion)
    (calls : List Call) (w : W) : Run W :=
  if appSetting.Setting.ServerCode = setting.ServerCodeTH then
    let v : PcrdVersion := { AppVersion := application.Version, ResVersion := "" }
    match u.pcrdTHRepository.GetResourceVersion appSetting.Credential v w with
    | ((result, some err), w) =>
      { err := some err
        calls := calls ++ [.THGetResourceVersion appSetting.Credential v result (some err)]
        world := w }
    | ((result, none), w) =>
      commitVersion u application currentVersion result
        (calls ++ [.THGetResourceVersion appSetting.Credential v result none]) w
  else
    let guessVersion :=
      if len currentVersion.ResVersion ≤ 0 then appSetting.GuessStartVersion
      else currentVersion.ResVersion
    match u.pcrdJPRepository.GetResourceVersion guessVersion w with
    | ((result, some err), w) =>
      { err := some err
        calls := calls ++ [.JPGetResourceVersion guessVersion result (some err)]
        world := w }
    | ((result, none), w) =>
      commitVersion u application currentVersion result
        (calls ++ [.JPGetResourceVersion guessVersion result none]) w

/-- `UseCase.UpdateResourceVersion(ctx, ID)`. -/
def UpdateResourceVersion {W : Type} (u : UseCase W) (ID : String) (w : W) : Run W :=
  match u.settingRepository.GetSettingByID ID w with
  | ((appSetting, some err), w) =>
    { err := some err, calls := [.GetSettingByID ID appSetting (some err)], world := w }
  | ((appSetting, none), w) =>
    let calls := [Call.GetSettingByID ID appSetting none]
    match u.applicationRepository.GetAndroidAppByID appSetting.Setting.ID w with
    | ((application, some err), w) =>
      { err := some err
        calls := calls ++ [.GetAndroidAppByID appSetting.Setting.ID application (some err)]
        world := w }
    | ((application, none), w) =>
      let calls := calls ++ [.GetAndroidAppByID appSetting.Setting.ID application none]
      match u.versionRepository.GetByID appSetting.Setting.ID w with
      | ((currentVersion, some err), w) =>
        let calls := calls ++ [.VersionGetByID appSetting.Setting.ID currentVersion (some err)]
        if errorsIs err ErrVersionNotFound then
          let gameVersion : GameVersion :=
            { Setting := appSetting.Setting, AppVersion := application.Version, ResVersion := "" }
          match u.versionRepository.Create gameVersion w with
          | (some err, w) =>
            { err := some err, calls := calls ++ [.VersionCreate gameVersion (some err)],
              world := w }
          | (none, w) =>
            discoverVersion u appSetting application gameVersion
              (calls ++ [.VersionCreate gameVersion none]) w
        else
          { err := some err, calls := calls, world := w }
      | ((currentVersion, none), w) =>
        discoverVersion u appSetting application currentVersion
          (calls ++ [.VersionGetByID appSetting.Setting.ID currentVersion none]) w

end use_case

/-! ## `src/repository/version_repository/mongodb.go` -/

namespace version_repository

open golang use_case

structure mongoDBVersion where
  ID : String
  ServerCode : String
  AppVersion : String
  ResVersion : String
  CreateDateTime : Nat
  UpdateDateTime : Nat
  deriving DecidableEq, Repr

/-- The collection behind `m.col`, as explicit state: its documents in
insertion order, and whether the driver currently fails every operation. -/
structure Collection where
  docs : List mongoDBVersion
  failing : Bool
  deriving DecidableEq, Repr

/-- `newMongoDBVersion(version)`; the two times are the zero `time.Time`. -/
def newMongoDBVersion (version : GameVersion) : mongoDBVersion :=
  { ID := version.Setting.ID
    ServerCode := version.Setting.ServerCode
    AppVersion := version.AppVersion
    ResVersion := version.ResVersion
    CreateDateTime := 0
    UpdateDateTime := 0 }

/-- The zero value `use_case.GameVersion{}`. -/
def zeroGameVersion : GameVersion :=
  { Setting := { ID := "", ServerCode := "" }, AppVersion := "", ResVersion := "" }

/-- `mongoDBVersion.ToUseCaseGameVersion`. -/
def ToUseCaseGameVersion (m : mongoDBVersion) : GameVersion × Option Err :=
  match setting.ParseServerCode m.ServerCode with
  | (_, some err) => (zeroGameVersion, some err)
  | (serverCode, none) =>
    ({ Setting := { ID := m.ID, ServerCode := serverCode }
       AppVersion := m.AppVersion
       ResVersion := m.ResVersion }, none)

/-- `mongoDB.GetByID(ctx, appId)`; `Find` with the filter `id = appId` yields the
matching documents in order. -/
def GetByID (col : Collection) (appId : String) : GameVersion × Option Err :=
  if len appId ≤ 0 then (zeroGameVersion, some (.wrap "" ErrMissingAppID))
  else if col.failing then
    (zeroGameVersion, some (.wrap "error while retrieving: " ErrRetrivingVersion))
  else
    let dbEntities := col.docs.filter (fun o => o.ID = appId)
    match dbEntities with
    | [] => (zeroGameVersion, some (.wrap (appId ++ ": ") ErrVersionNotFound))
    | first :: _ =>
      match ToUseCaseGameVersion first with
      | (_, some _) => (zeroGameVersion, some (.wrap "" ErrRetrivingVersion))
      | (result, none) => (result, none)

/-- `mongoDB.Create(ctx, version)` at time `now`: `InsertOne` appends the document. -/
def Create (col : Collection) (now : Nat) (version : GameVersion) : Option Err × Collection :=
  let doc := { newMongoDBVersion version with CreateDateTime := now, UpdateDateTime := now }
  if col.failing then (some (.wrap "" ErrSavingVersion), col)
  else (none, { col with docs := col.docs ++ [doc] })

/-- `UpdateOne` with the filter `id` and `$set` of the three fields: the first
matching document is changed. Returns the documents and `MatchedCount`. -/
def updateOne (docs : List mongoDBVersion) (id appVersion resVersion : String) (now : Nat) :
    List mongoDBVersion × Nat :=
  match docs with
  | [] => ([], 0)
  | d :: rest =>
    if d.ID = id then
      ({ d with AppVersion := appVersion, ResVersion := resVersion, UpdateDateTime := now } :: rest,
        1)
    else
      let (rest', n) := updateOne rest id appVersion resVersion now
      (d :: rest', n)

/-- Go `fmt.Sprintf("%s", version)` on a `GameVersion`: the fields in braces,
separated by blanks. -/
def Sprintf_s_GameVersion (version : GameVersion) : String :=
  "\x7b\x7b" ++ version.Setting.ID ++ " " ++ version.Setting.ServerCode ++ "\x7d " ++
    version.AppVersion ++ " " ++ version.ResVersion ++ "\x7d"

/-- `mongoDB.Update(ctx, version)` at time `now`. -/
def Update (col : Collection) (now : Nat) (version : GameVersion) : Option Err × Collection :=
  if col.failing then (some (.wrap "" ErrSavingVersion), col)
  else
    let res := updateOne col.docs version.Setting.ID version.AppVersion version.ResVersion now
    if res.2 = 0 then
      (some (.wrap ("update version: " ++ Sprintf_s_GameVersion version ++ " not found: ")
        ErrVersionNotFound), { col with docs := res.1 })
    else (none, { col with docs := res.1 })

end version_repository

/-! ## `src/repository/history_repository/mongodb.go` -/

namespace history_repository

open golang use_case

/-- `mongoDB.Create(ctx, version)` of the history repository at time `now`; the
document type has the fields of `version_repository.mongoDBVersion`. -/
def Create (col : version_repository.Collection) (now : Nat) (version : GameVersion) :
    Option Err × version_repository.Collection :=
  let doc := { version_repository.newMongoDBVersion version with
    CreateDateTime := now, UpdateDateTime := now }
  if col.failing then (some (.wrap "" ErrSavingVersion), col)
  else (none, { col with docs := col.docs ++ [doc] })

end history_repository

/-! ## `src/repository/version_event_repository/kafka.go` -/

namespace version_event_repository

open golang use_case

structure kafkaMQVersionEvent where
  ID : String
  ServerCode : String
  AppVersion : String
  ResVersion : String
  UpdateDateTime : Nat
  deriving DecidableEq, Repr

/-- The topic behind `k.client`: the messages written so far (key and value),
and whether `WriteMessages` currently fails. -/
structure Topic where
  messages : List (String × kafkaMQVersionEvent)
  failing : Bool
  deriving DecidableEq, Repr

/-- `kafkaMQ.PublishVersion(ctx, version)` at time `now`. `json.Marshal` of the
event (strings and a time) does not fail; the message value is kept decoded. -/
def PublishVersion (t : Topic) (now : Nat) (version : GameVersion) : Option Err × Topic :=
  let ver : kafkaMQVersionEvent :=
    { ID := version.Setting.ID
      ServerCode := version.Setting.ServerCode
      AppVersion := version.AppVersion
      ResVersion := version.ResVersion
      UpdateDateTime := now }
  if t.failing then (some (.wrap "error while saving data: " ErrVersionPublish), t)
  else (none, { t with messages := t.messages ++ [(ver.ID, ver)] })

end version_event_repository

/-! ## `src/repository/setting_repository/mongodb.go` -/

namespace setting_repository

open golang use_case credential

structure mongoDBCredential where
  UDID : String
  ShortUDID : Int
  ViewerID : Int
  deriving DecidableEq, Repr

structure mongoDBGuessConfig where
  StartVersion : String
  deriving DecidableEq, Repr

structure mongoDBSetting where
  ID : String
  ServerCode : String
  Credential : mongoDBCredential
  GuessConfig : mongoDBGuessConfig
  deriving DecidableEq, Repr

/-- The zero value `use_case.PCRDSetting{}`. -/
def zeroPCRDSetting : PCRDSetting :=
  { Setting := { ID := "", ServerCode := "" }
    Credential := { Udid := "", ShortUdid := 0, ViewerID := 0, SessionID := "" }
    GuessStartVersion := "" }

/-- `mongoDBSetting.toUsecasePCRDSetting`. -/
def toUsecasePCRDSetting (m : mongoDBSetting) : PCRDSetting × Option Err :=
  match setting.ParseServerCode m.ServerCode with
  | (_, some err) => (zeroPCRDSetting, some err)
  | (serverCode, none) =>
    ({ Setting := { ID := m.ID, ServerCode := serverCode }
       Credential :=
         { Udid := m.Credential.UDID
           ShortUdid := m.Credential.ShortUDID
           ViewerID := m.Credential.ViewerID
           SessionID := "" }
       GuessStartVersion := m.GuessConfig.StartVersion }, none)

/-- `mongoDB.GetSettingByID(ctx, ID)` over the documents of the `settings`
collection (`none`: the driver fails). -/
def GetSettingByID (col : Option (List mongoDBSetting)) (ID : String) :
    PCRDSetting × Option Err :=
  match col with
  | none => (zeroPCRDSetting, some (.wrap "error while retrieving: " ErrRetrivingSetting))
  | some docs =>
    let dbEntities := docs.filter (fun o => o.ID = ID)
    match dbEntities with
    | [] => (zeroPCRDSetting, some (.wrap (ID ++ ": ") ErrSettingNotExists))
    | first :: _ =>
      match toUsecasePCRDSetting first with
      | (_, some _) => (zeroPCRDSetting, some (.wrap "" ErrRetrivingSetting))
      | (result, none) => (result, none)

end setting_repository

/-! ## `src/main.go`: the repositories wired into the use case -/

namespace wiring

open golang use_case

/-- Everything outside the use case: the settings documents, the application
service (a lookup by bundle id), the `versions` and `histories` collections,
the event topic and the clock. -/
structure World where
  settings : Option (List setting_repository.mongoDBSetting)
  applications : String → application.Application × Option Err
  versions : version_repository.Collection
  histories : version_repository.Collection
  topic : version_event_repository.Topic
  now : Nat

/-- `use_case.New(...)` over the repositories of `initRepositories`, with the
two game backends `th` and `jp` and the library functions `lib`. -/
def newUseCase (lib : pcrd_th_repository.Lib) (th : pcrd_th_repository.rest)
    (jp : pcrd_jp_repository.rest) : UseCase World :=
  { applicationRepository := { GetAndroidAppByID := fun appID w => (w.applications appID, w) }
    settingRepository :=
      { GetSettingByID := fun ID w => (setting_repository.GetSettingByID w.settings ID, w) }
    pcrdTHRepository :=
      { GetResourceVersion := fun c v w => (pcrd_th_repository.GetResourceVersion lib th c v, w) }
    pcrdJPRepository :=
      { GetResourceVersion := fun startVersion w =>
          let res := pcrd_jp_repository.GetResourceVersion jp startVersion
          ((res.value, res.err), w) }
    versionRepository :=
      { GetByID := fun appId w => (version_repository.GetByID w.versions appId, w)
        Create := fun version w =>
          let res := version_repository.Create w.versions w.now version
          (res.1, { w with versions := res.2 })
        Update := fun version w =>
          let res := version_repository.Update w.versions w.now version
          (res.1, { w with versions := res.2 }) }
    historyRepository :=
      { Create := fun version w =>
          let res := history_repository.Create w.histories w.now version
          (res.1, { w with histories := res.2 }) }
    versionEventRepository :=
      { PublishVersion := fun version w =>
          let res := version_event_repository.PublishVersion w.topic w.now version
          (res.1, { w with topic := res.2 }) } }

/-- A world with one setting "s1" on TH (viewer id 7), an application service
that knows version "3.4.0" for every id, and empty collections and topic. -/
def freshWorld : World :=
  { settings := some [{ ID := "s1", ServerCode := "th"
                        Credential := { UDID := "dev", ShortUDID := 1, ViewerID := 7 }
                        GuessConfig := { StartVersion := "10000000" } }]
    applications := fun appID =>
      ({ AppID := appID, BundleID := appID, Name := "game", Version := "3.4.0", Author := "",
         Icon := "", CreateDateTime := 0, UpdateDateTime := 0 }, none)
    versions := { docs := [], failing := false }
    histories := { docs := [], failing := false }
    topic := { messages := [], failing := false }
    now := 1 }

end wiring

/-! ## Reading the step log of a probe run -/

namespace pcrd_jp_repository

open golang

/-- The versions of the `check` steps of a log, in order. -/
def checkedVersions : List Event → List Int
  | [] => []
  | .check version :: es => version :: checkedVersions es
  | .sleep _ :: es => checkedVersions es

/-- The number of `sleep` steps of a log. -/
def sleepCount : List Event → Nat
  | [] => 0
  | .check _ :: es => sleepCount es
  | .sleep _ :: es => sleepCount es + 1

/-- The steps of the `i`-th iteration of the probe loop started at `version`:
the check, and the one-second sleep unless `call` returned an error. -/
def iterationEvents (r : rest) (version : Int) (i : Nat) : List Event :=
  if (call r (candidate version i)).2 = none then
    [.check (candidate version i), .sleep 1]
  else [.check (candidate version i)]

end pcrd_jp_repository

/-! ## Reading the invocation log of a run -/

namespace use_case

open golang

/-- The invocation is one of the three steps that persist and announce a
change: version `Update`, history `Create`, `PublishVersion`. -/
def Call.isCommit (c : Call) : Bool :=
  c.isVersionUpdate || c.isHistoryCreate || c.isPublishVersion

/-- The invocation is a call of one of the two strategies. -/
def Call.isStrategy : Call → Bool
  | .THGetResourceVersion _ _ _ _ => true
  | .JPGetResourceVersion _ _ _ => true
  | _ => false

/-- The version returned by a strategy invocation that returned a nil error. -/
def Call.strategyResult : Call → Option String
  | .THGetResourceVersion _ _ result none => some result
  | .JPGetResourceVersion _ result none => some result
  | _ => none

/-- The `GameVersion` handed to `Update`, history `Create` and `PublishVersion`:
`currentVersion` after the two assignments of `UpdateResourceVersion`. -/
def changedVersion (currentVersion : GameVersion) (application : application.Application)
    (version : String) : GameVersion :=
  { currentVersion with ResVersion := version, AppVersion := application.Version }

/-- The `GameVersion` synthesised for a missing row. -/
def firstVersion (appSetting : PCRDSetting) (application : application.Application) :
    GameVersion :=
  { Setting := appSetting.Setting, AppVersion := application.Version, ResVersion := "" }

/-- The start version handed to the JP probe. -/
def guessVersionOf (appSetting : PCRDSetting) (currentVersion : GameVersion) : String :=
  if len currentVersion.ResVersion ≤ 0 then appSetting.GuessStartVersion
  else currentVersion.ResVersion

end use_case

namespace use_case

open golang

/-- The strategy selected by the server code of `appSetting` (the TH call for
`th`, the JP probe otherwise), invoked in state `w` with the arguments
`UpdateResourceVersion` passes, returns `(result, err)` and leaves state `w1`. -/
def strategyAnswers {W : Type} (u : UseCase W) (appSetting : PCRDSetting)
    (application : application.Application) (currentVersion : GameVersion) (w : W)
    (result : String) (err : Option Err) (w1 : W) : Prop :=
  (appSetting.Setting.ServerCode = setting.ServerCodeTH ∧
      u.pcrdTHRepository.GetResourceVersion appSetting.Credential
        { AppVersion := application.Version, ResVersion := "" } w = ((result, err), w1)) ∨
    (appSetting.Setting.ServerCode ≠ setting.ServerCodeTH ∧
      u.pcrdJPRepository.GetResourceVersion (guessVersionOf appSetting currentVersion) w =
        ((result, err), w1))

/-- In state `w` the current version of the setting is obtained as
`currentVersion`, leaving state `w1`: either the lookup returns it, or the
lookup reports `ErrVersionNotFound` and the synthesised first version is
created without error. -/
def currentVersionObtained {W : Type} (u : UseCase W) (appSetting : PCRDSetting)
    (application : application.Application) (w : W) (currentVersion : GameVersion) (w1 : W) :
    Prop :=
  u.versionRepository.GetByID appSetting.Setting.ID w = ((currentVersion, none), w1) ∨
    ∃ g e w0, u.versionRepository.GetByID appSetting.Setting.ID w = ((g, some e), w0) ∧
      errorsIs e ErrVersionNotFound = true ∧
      currentVersion = firstVersion appSetting application ∧
      u.versionRepository.Create currentVersion w0 = (none, w1)

end use_case

namespace wiring

open golang use_case

/-- A TH backend answering every request with status 200 and an envelope whose
`required_res_ver` is "12345". -/
def thAnswering12345 : pcrd_th_repository.rest :=
  pcrd_th_repository.backendWith
    (.response 200 "\x7b\"data_headers\":\x7b\"required_res_ver\":\"12345\"\x7d\x7d")

/-- The world `freshWorld` once the row of "s1" holds `resVersion` "12345". -/
def settledWorld : World :=
  { freshWorld with
    versions := { docs := [⟨"s1", "th", "3.4.0", "12345", 1, 1⟩], failing := false } }

end wiring

namespace use_case

open golang

/-- The two strategies of `u` are the ones of this repository: every answer of
its TH strategy is computed by `pcrd_th_repository.GetResourceVersion` for
some library functions and backend, every answer of its JP strategy by
`pcrd_jp_repository.GetResourceVersion` for some server. -/
def wiredStrategies {W : Type} (u : UseCase W) : Prop :=
  (∀ c v w, ∃ lib th w1, u.pcrdTHRepository.GetResourceVersion c v w =
      (pcrd_th_repository.GetResourceVersion lib th c v, w1)) ∧
    (∀ startVersion w, ∃ jp w1, u.pcrdJPRepository.GetResourceVersion startVersion w =
      (((pcrd_jp_repository.GetResourceVersion jp startVersion).value,
        (pcrd_jp_repository.GetResourceVersion jp startVersion).err), w1))

end use_case

namespace wiring

open golang use_case

/-- A world with one setting "s2" on JP whose guess-start version is
"10000000", an application service that knows version "3.4.0" for every id,
and empty collections and topic. -/
def freshWorldJP : World :=
  { freshWorld with
    settings := some [{ ID := "s2", ServerCode := "jp"
                        Credential := { UDID := "dev", ShortUDID := 1, ViewerID := 7 }
                        GuessConfig := { StartVersion := "10000000" } }] }

end wiring

namespace use_case

open golang

/-- The outside state after `n` successive runs of `UpdateResourceVersion` for
`ID`, each run starting in the state the previous one left. -/
def stateAfterRuns {W : Type} (u : UseCase W) (ID : String) : Nat → W → W
  | 0, w => w
  | n + 1, w => stateAfterRuns u ID n (UpdateResourceVersion u ID w).world

end use_case

/-! ## Lemmas on the Go builtins -/

namespace golang

theorem len_le_zero_iff (s : String) : len s ≤ 0 ↔ s = "" := by
  rcases s with ⟨cs⟩
  cases cs with
  | nil => simp [len, String.utf8ByteSize, String.utf8ByteSize.go]
  | cons c cs =>
    have hc := Char.utf8Size_pos c
    have hne : (String.mk (c :: cs)) ≠ "" := by
      intro h
      have := congrArg String.data h
      simp at this
    simp only [len, String.utf8ByteSize, String.utf8ByteSize.go, hne, iff_false]
    omega

theorem digitValue_digitChar (k : Nat) (hk : k < 10) :
    digitValue (Nat.digitChar k) = some k := by
  interval_cases k <;> rfl

theorem digitsValue_toDigitsCore (n : Nat) :
    ∀ (fuel : Nat) (ds : List Char), n < fuel →
      digitsValue (Nat.toDigitsCore 10 fuel n ds) 0 = digitsValue ds n := by
  induction n using Nat.strong_induction_on with
  | _ n ih =>
    intro fuel ds hfuel
    cases fuel with
    | zero => omega
    | succ fuel =>
      have hd : digitValue (Nat.digitChar (n % 10)) = some (n % 10) :=
        digitValue_digitChar _ (Nat.mod_lt _ (by decide))
      rw [Nat.toDigitsCore]
      by_cases h0 : n / 10 = 0
      · have hn : n % 10 = n := Nat.mod_eq_of_lt (by omega)
        rw [hn] at hd
        simp [h0, digitsValue, hd, hn]
      · have hlt : n / 10 < n := by omega
        simp only [h0, if_false]
        rw [ih (n / 10) hlt fuel _ (by omega)]
        simp only [digitsValue, hd]
        congr 1
        omega

theorem toDigitsCore_length_le (fuel n : Nat) (ds : List Char) :
    ds.length ≤ (Nat.toDigitsCore 10 fuel n ds).length := by
  induction fuel generalizing n ds with
  | zero => simp [Nat.toDigitsCore]
  | succ fuel ih =>
    rw [Nat.toDigitsCore]
    by_cases h0 : n / 10 = 0
    · simp [h0]
    · simp only [h0, if_false]
      exact le_trans (by simp) (ih (n / 10) _)

theorem toDigits_ne_nil (n : Nat) : Nat.toDigits 10 n ≠ [] := by
  intro h
  have hlen := toDigitsCore_length_le n (n / 10) [Nat.digitChar (n % 10)]
  unfold Nat.toDigits at h
  rw [Nat.toDigitsCore] at h
  by_cases h0 : n / 10 = 0
  · simp [h0] at h
  · simp only [h0, if_false] at h
    rw [h] at hlen
    simp at hlen

theorem parseDigits_toDigits (n : Nat) : parseDigits (Nat.toDigits 10 n) = some n := by
  have hv : digitsValue (Nat.toDigits 10 n) 0 = some n := by
    unfold Nat.toDigits
    rw [digitsValue_toDigitsCore n (n + 1) [] (by omega)]
    rfl
  cases hds : Nat.toDigits 10 n with
  | nil => exact absurd hds (toDigits_ne_nil n)
  | cons c cs => rw [hds] at hv; simpa [parseDigits] using hv

theorem digitValue_sign (c : Char) (h : c = '+' ∨ c = '-') : digitValue c = none := by
  rcases h with h | h <;> subst h <;> rfl

theorem ParseInt_range (s : String) (v : Int) (h : ParseInt s = some v) :
    -(2 ^ 63 : Int) ≤ v ∧ v < 2 ^ 63 := by
  unfold ParseInt at h
  split at h
  · exact absurd h (by simp)
  · rename_i c cs _
    simp only at h
    split at h
    · exact absurd h (by simp)
    · rename_i un _
      split at h
      · exact absurd h (by simp)
      · split at h
        · exact absurd h (by simp)
        · rename_i h1 h2
          simp only [Option.some.injEq] at h
          by_cases hneg : c = '-'
          · simp only [hneg, decide_True, if_true] at h
            simp [hneg] at h2
            omega
          · simp only [hneg, decide_False] at h
            simp [hneg] at h1
            simp at h
            omega

theorem ParseInt_Sprintf_d (n : Int) (hlo : -(2 ^ 63 : Int) ≤ n) (hhi : n < 2 ^ 63) :
    ParseInt (Sprintf_d n) = some n := by
  unfold Sprintf_d
  by_cases hn : n < 0
  · have hdata : ("-" ++ Nat.repr n.natAbs).data = '-' :: Nat.toDigits 10 n.natAbs := by
      simp [Nat.repr, List.asString]
    simp only [hn, if_true]
    unfold ParseInt
    rw [hdata]
    simp only [parseDigits_toDigits, or_true, if_true, decide_True]
    have hle : ¬ (n.natAbs > 2 ^ 63) := by omega
    have habs : -((n.natAbs : Nat) : Int) = n := by omega
    simp only [hle, and_false, if_false, Bool.not_true, Bool.false_eq_true, false_and, habs]
  · have hdata : (Nat.repr n.toNat).data = Nat.toDigits 10 n.toNat := by
      simp [Nat.repr, List.asString]
    simp only [hn, if_false]
    unfold ParseInt
    rw [hdata]
    have hp := parseDigits_toDigits n.toNat
    cases hds : Nat.toDigits 10 n.toNat with
    | nil => exact absurd hds (toDigits_ne_nil _)
    | cons c cs =>
      rw [hds] at hp
      have hsign : ¬ (c = '+' ∨ c = '-') := by
        intro hc
        have := digitValue_sign c hc
        simp [parseDigits, digitsValue, this] at hp
      have hminus : ¬ c = '-' := fun h => hsign (Or.inr h)
      have hplus : ¬ c = '+' := fun h => hsign (Or.inl h)
      have hlt : ¬ (n.toNat ≥ 2 ^ 63) := by omega
      have hto : ((n.toNat : Nat) : Int) = n := by omega
      simp only [hplus, hminus, or_self, if_false, hp, decide_False, hlt, and_false,
        Bool.false_eq_true, false_and, hto]

theorem Sprintf_d_ne_empty (n : Int) : Sprintf_d n ≠ "" := by
  intro h
  have hd := congrArg String.data h
  unfold Sprintf_d at hd
  by_cases hn : n < 0
  · simp [hn] at hd
  · simp only [hn, if_false] at hd
    exact toDigits_ne_nil n.toNat (by simpa [Nat.repr, List.asString] using hd)

theorem wrapInt64_of_range (x : Int) (hlo : -(2 ^ 63 : Int) ≤ x) (hhi : x < 2 ^ 63) :
    wrapInt64 x = x := by
  unfold wrapInt64
  omega

theorem wrapInt64_range (x : Int) : -(2 ^ 63 : Int) ≤ wrapInt64 x ∧ wrapInt64 x < 2 ^ 63 := by
  unfold wrapInt64
  omega

end golang

/-! ## The JP probe -/

namespace pcrd_jp_repository

open golang use_case

theorem loopAfter_succ (r : rest) (version : Int) (n : Nat) :
    loopAfter r version (n + 1) = loopBody r version (loopAfter r version n) (n + 1) := by
  simp [loopAfter, List.range'_concat, List.foldl_append, Nat.add_comm]

theorem loopBody_newVersion_exists (r : rest) (version : Int) (st : LoopState) (i : Nat)
    (h : call r (candidate version i) = (true, none)) :
    (loopBody r version st i).newVersion = Sprintf_d (candidate version i) := by
  unfold loopBody
  change call r (wrapInt64 (version + wrapInt64 (wrapInt64 (i : Int) * wrapInt64 10))) = _ at h
  simp [h, candidate]

theorem loopBody_newVersion_other (r : rest) (version : Int) (st : LoopState) (i : Nat)
    (h : call r (candidate version i) ≠ (true, none)) :
    (loopBody r version st i).newVersion = st.newVersion := by
  unfold loopBody
  change call r (wrapInt64 (version + wrapInt64 (wrapInt64 (i : Int) * wrapInt64 10))) ≠ _ at h
  rcases hc : call r (wrapInt64 (version + wrapInt64 (wrapInt64 (i : Int) * wrapInt64 10)))
    with ⟨b, e⟩
  cases e with
  | some e => simp [hc]
  | none =>
    cases b with
    | false => simp [hc]
    | true => exact absurd hc h

/-- After `n` iterations `newVersion` is still empty when no candidate so far
exists, and is the rendering of the largest existing candidate otherwise. -/
theorem loopAfter_newVersion (r : rest) (version : Int) (n : Nat) :
    ((∀ j, 1 ≤ j → j ≤ n → call r (candidate version j) ≠ (true, none)) ∧
        (loopAfter r version n).newVersion = "") ∨
    (∃ i, 1 ≤ i ∧ i ≤ n ∧ call r (candidate version i) = (true, none) ∧
        (∀ j, i < j → j ≤ n → call r (candidate version j) ≠ (true, none)) ∧
        (loopAfter r version n).newVersion = Sprintf_d (candidate version i)) := by
  induction n with
  | zero =>
    left
    exact ⟨fun j h1 h0 => by omega, rfl⟩
  | succ n ih =>
    rw [loopAfter_succ]
    by_cases hc : call r (candidate version (n + 1)) = (true, none)
    · right
      exact ⟨n + 1, by omega, le_refl _, hc, fun j h1 h2 => by omega,
        loopBody_newVersion_exists r version _ _ hc⟩
    · rw [loopBody_newVersion_other r version _ _ hc]
      rcases ih with ⟨hnone, hnv⟩ | ⟨i, hi1, hin, hex, hlast, hnv⟩
      · left
        refine ⟨fun j h1 h2 => ?_, hnv⟩
        by_cases hj : j = n + 1
        · subst hj; exact hc
        · exact hnone j h1 (by omega)
      · right
        refine ⟨i, hi1, by omega, hex, fun j h1 h2 => ?_, hnv⟩
        by_cases hj : j = n + 1
        · subst hj; exact hc
        · exact hlast j h1 (by omega)

theorem GetResourceVersion_parsed (r : rest) (startVersion : String) (v0 : Int)
    (hparse : ParseInt startVersion = some v0) :
    GetResourceVersion r startVersion =
      { value := if len (loopAfter r v0 19).newVersion ≤ 0 then startVersion
          else (loopAfter r v0 19).newVersion
        err := none
        events := (loopAfter r v0 19).events } := by
  simp [GetResourceVersion, hparse, loopAfter]

theorem candidate_of_fit (v0 : Int) (i : Nat) (hlo : -(2 ^ 63 : Int) ≤ v0) (hi : i ≤ 19)
    (hfit : v0 + 10 * (i : Int) < 2 ^ 63) : candidate v0 i = v0 + 10 * (i : Int) := by
  unfold candidate
  have h10 : wrapInt64 10 = 10 := by decide
  have hi' : wrapInt64 (i : Int) = (i : Int) := wrapInt64_of_range _ (by omega) (by omega)
  rw [h10, hi', wrapInt64_of_range ((i : Int) * 10) (by omega) (by omega)]
  rw [wrapInt64_of_range _ (by omega) (by omega)]
  omega

end pcrd_jp_repository

/-! ## Claims on the JP probe -/

namespace pcrd_jp_repository

open golang use_case

/-- When `startVersion` parses to `v0` and at least one of the 19 existence
checks reports "exists", `GetResourceVersion` returns, with a nil error, the
decimal rendering of the program's `int64` candidate of the largest `i` in
`1..19` whose check reported "exists". -/
theorem GetResourceVersion_largest_existing (r : rest) (startVersion : String) (v0 : Int)
    (hparse : ParseInt startVersion = some v0)
    (hsome : ∃ i, 1 ≤ i ∧ i ≤ 19 ∧ call r (candidate v0 i) = (true, none)) :
    ∃ i, 1 ≤ i ∧ i ≤ 19 ∧ call r (candidate v0 i) = (true, none) ∧
      (∀ j, i < j → j ≤ 19 → call r (candidate v0 j) ≠ (true, none)) ∧
      (GetResourceVersion r startVersion).value = Sprintf_d (candidate v0 i) ∧
      (GetResourceVersion r startVersion).err = none := by
  rw [GetResourceVersion_parsed r startVersion v0 hparse]
  rcases loopAfter_newVersion r v0 19 with ⟨hnone, _⟩ | ⟨i, hi1, hi19, hex, hlast, hnv⟩
  · obtain ⟨i, hi1, hi19, hex⟩ := hsome
    exact absurd hex (hnone i hi1 hi19)
  · refine ⟨i, hi1, hi19, hex, hlast, ?_, rfl⟩
    have hne : ¬ len (Sprintf_d (candidate v0 i)) ≤ 0 := by
      rw [len_le_zero_iff]
      exact Sprintf_d_ne_empty _
    simp only [hnv, hne, if_false]

set_option maxRecDepth 1000000 in
/-- C1 counterexample: start "9223372036854775807" (the largest `int64`) on a
server answering 200 to everything. Every check reports "exists", so the
largest existing index is 19 and the decimal string of `v0 + 10*19` is
"9223372036854775997"; the probe returns "-9223372036854775619" instead,
because the candidate is computed in unchecked `int64` arithmetic. -/
theorem jp_probe_overflow_not_largest_sum :
    ParseInt "9223372036854775807" = some 9223372036854775807 ∧
      (∀ i, 1 ≤ i → i ≤ 19 →
        call { client := fun _ => HttpReply.status 200, baseURL := "http://cdn", locale := "Jpn" }
          (candidate 9223372036854775807 i) = (true, none)) ∧
      Sprintf_d (9223372036854775807 + 10 * ((19 : Nat) : Int)) = "9223372036854775997" ∧
      (GetResourceVersion
        { client := fun _ => HttpReply.status 200, baseURL := "http://cdn", locale := "Jpn" }
        "9223372036854775807").value = "-9223372036854775619" ∧
      (GetResourceVersion
        { client := fun _ => HttpReply.status 200, baseURL := "http://cdn", locale := "Jpn" }
        "9223372036854775807").value ≠ Sprintf_d (9223372036854775807 + 10 * ((19 : Nat) : Int)) := by
  refine ⟨by decide, fun i _ _ => by simp [call], by decide, by decide, by decide⟩

/-- C1 (amended): when `startVersion` parses to `v0`, at least one of the 19
existence checks reports "exists", and no candidate whose check reports
"exists" leaves the `int64` range (`v0 + 10*i < 2^63`), `GetResourceVersion`
returns, with a nil error, the decimal string of the integer `v0 + 10*i` for
the largest `i` in `1..19` whose check reported "exists". -/
theorem jp_probe_returns_largest_existing (r : rest) (startVersion : String) (v0 : Int)
    (hparse : ParseInt startVersion = some v0)
    (hsome : ∃ i, 1 ≤ i ∧ i ≤ 19 ∧ call r (candidate v0 i) = (true, none))
    (hfit : ∀ i, 1 ≤ i → i ≤ 19 → call r (candidate v0 i) = (true, none) →
      v0 + 10 * (i : Int) < 2 ^ 63) :
    ∃ i, 1 ≤ i ∧ i ≤ 19 ∧ call r (candidate v0 i) = (true, none) ∧
      candidate v0 i = v0 + 10 * (i : Int) ∧
      (∀ j, i < j → j ≤ 19 → call r (candidate v0 j) ≠ (true, none)) ∧
      (GetResourceVersion r startVersion).value = Sprintf_d (v0 + 10 * (i : Int)) ∧
      (GetResourceVersion r startVersion).err = none := by
  obtain ⟨i, hi1, hi19, hex, hlast, hval, herr⟩ :=
    GetResourceVersion_largest_existing r startVersion v0 hparse hsome
  have hc : candidate v0 i = v0 + 10 * (i : Int) :=
    candidate_of_fit v0 i (ParseInt_range startVersion v0 hparse).1 hi19 (hfit i hi1 hi19 hex)
  exact ⟨i, hi1, hi19, hex, hc, hlast, hc ▸ hval, herr⟩

set_option maxRecDepth 1000000 in
/-- C1 witness: start "1000" with only 1050 and 1070 existing returns "1070". -/
theorem jp_probe_returns_largest_existing_witness :
    (GetResourceVersion (serverWith [1050, 1070]) "1000").value = "1070" ∧
      (GetResourceVersion (serverWith [1050, 1070]) "1000").err = none := by
  obtain ⟨i, hi1, hi19, hex, _, hlast, hval, herr⟩ :=
    jp_probe_returns_largest_existing (serverWith [1050, 1070]) "1000" 1000 (by decide)
      ⟨5, by decide, by decide, by decide⟩
      (fun i _ hi19 _ => by
        have : (i : Int) ≤ 19 := by exact_mod_cast hi19
        omega)
  have h7 : call (serverWith [1050, 1070]) (candidate 1000 7) = (true, none) := by decide
  have hi : i = 7 := by
    by_contra hne
    by_cases hlt : i < 7
    · exact hlast 7 hlt (by decide) h7
    · have hgt : 7 < i := by omega
      revert hex
      interval_cases i <;> decide
  subst hi
  refine ⟨?_, herr⟩
  rw [hval]
  decide

/-- C2: when `startVersion` parses and no existence check reports "exists"
(each one is not-exists or a transport error), `GetResourceVersion` returns the
very string `startVersion` and a nil error. -/
theorem jp_probe_nothing_found_returns_start (r : rest) (startVersion : String) (v0 : Int)
    (hparse : ParseInt startVersion = some v0)
    (hnone : ∀ i, 1 ≤ i → i ≤ 19 → call r (candidate v0 i) ≠ (true, none)) :
    (GetResourceVersion r startVersion).value = startVersion ∧
      (GetResourceVersion r startVersion).err = none := by
  rw [GetResourceVersion_parsed r startVersion v0 hparse]
  rcases loopAfter_newVersion r v0 19 with ⟨_, hnv⟩ | ⟨i, hi1, hi19, hex, _, _⟩
  · refine ⟨?_, rfl⟩
    have hle : len (loopAfter r v0 19).newVersion ≤ 0 := by
      rw [len_le_zero_iff, hnv]
    simp only [hle, if_true]
  · exact absurd hex (hnone i hi1 hi19)

/-- C2 witness: every check fails in transport; the start "+0100" (value 100)
comes back character for character. -/
theorem jp_probe_nothing_found_returns_start_witness :
    ParseInt "+0100" = some 100 ∧
      (GetResourceVersion
        { client := fun _ => HttpReply.requestFailed, baseURL := "http://cdn", locale := "Jpn" }
        "+0100").value = "+0100" :=
  ⟨by decide,
    (jp_probe_nothing_found_returns_start
      { client := fun _ => HttpReply.requestFailed, baseURL := "http://cdn", locale := "Jpn" }
      "+0100" 100 (by decide) (fun i _ _ => by simp [call])).1⟩

/-- C4: when `startVersion` does not parse as a base-10 `int64`,
`GetResourceVersion` returns the empty string with an error wrapping
`ErrRetrieveData`, and performs no existence check (no step at all). -/
theorem jp_probe_unparsable_start (r : rest) (startVersion : String)
    (hparse : ParseInt startVersion = none) :
    (GetResourceVersion r startVersion).value = "" ∧
      (∃ e, (GetResourceVersion r startVersion).err = some e ∧
        errorsIs e ErrRetrieveData = true) ∧
      (GetResourceVersion r startVersion).events = [] := by
  simp [GetResourceVersion, hparse, errorsIs, ErrRetrieveData]

/-- C4 witness: the empty string, a string with a non-digit and a value beyond
the `int64` range. -/
theorem jp_probe_unparsable_start_witness :
    (GetResourceVersion (serverWith [20]) "").events = [] ∧
      (GetResourceVersion (serverWith [20]) "12a").value = "" ∧
      (GetResourceVersion (serverWith [20]) "9223372036854775808").events = [] :=
  ⟨(jp_probe_unparsable_start (serverWith [20]) "" (by decide)).2.2,
    (jp_probe_unparsable_start (serverWith [20]) "12a" (by decide)).1,
    (jp_probe_unparsable_start (serverWith [20]) "9223372036854775808" (by decide)).2.2⟩

set_option maxRecDepth 1000000 in
/-- C3 counterexample: start "9223372036854775807" (the largest `int64`) on a
server answering 200 to everything. The 19th candidate wraps to
-9223372036854775619, which is returned and is lower than the input. -/
theorem jp_probe_overflow_returns_lower :
    ParseInt "9223372036854775807" = some 9223372036854775807 ∧
      (GetResourceVersion
        { client := fun _ => HttpReply.status 200, baseURL := "http://cdn", locale := "Jpn" }
        "9223372036854775807").value = "-9223372036854775619" ∧
      (GetResourceVersion
        { client := fun _ => HttpReply.status 200, baseURL := "http://cdn", locale := "Jpn" }
        "9223372036854775807").err = none ∧
      ParseInt "-9223372036854775619" = some (-9223372036854775619) ∧
      (-9223372036854775619 : Int) < 9223372036854775807 := by
  refine ⟨by decide, by decide, by decide, by decide, by decide⟩

/-- C3 (amended): when `startVersion` parses to `v0` and no candidate whose
check reports "exists" leaves the `int64` range (`v0 + 10*i < 2^63`), the
string returned by `GetResourceVersion` parses to an integer that is at least
`v0`. -/
theorem jp_probe_not_lower_without_overflow (r : rest) (startVersion : String) (v0 : Int)
    (hparse : ParseInt startVersion = some v0)
    (hfit : ∀ i, 1 ≤ i → i ≤ 19 → call r (candidate v0 i) = (true, none) →
      v0 + 10 * (i : Int) < 2 ^ 63) :
    ∃ v, ParseInt (GetResourceVersion r startVersion).value = some v ∧ v0 ≤ v := by
  by_cases hsome : ∃ i, 1 ≤ i ∧ i ≤ 19 ∧ call r (candidate v0 i) = (true, none)
  · rw [GetResourceVersion_parsed r startVersion v0 hparse]
    rcases loopAfter_newVersion r v0 19 with ⟨hnone, _⟩ | ⟨i, hi1, hi19, hex, _, hnv⟩
    · obtain ⟨i, hi1, hi19, hex⟩ := hsome
      exact absurd hex (hnone i hi1 hi19)
    · have hne : ¬ len (Sprintf_d (candidate v0 i)) ≤ 0 := by
        rw [len_le_zero_iff]
        exact Sprintf_d_ne_empty _
      have hc := candidate_of_fit v0 i (ParseInt_range startVersion v0 hparse).1 hi19
        (hfit i hi1 hi19 hex)
      refine ⟨candidate v0 i, ?_, by omega⟩
      simp only [hnv, hne, if_false]
      exact ParseInt_Sprintf_d _ (wrapInt64_range _).1 (wrapInt64_range _).2
  · rw [GetResourceVersion_parsed r startVersion v0 hparse]
    rcases loopAfter_newVersion r v0 19 with ⟨_, hnv⟩ | ⟨i, hi1, hi19, hex, _, _⟩
    · have hle : len (loopAfter r v0 19).newVersion ≤ 0 := by
        rw [len_le_zero_iff, hnv]
      exact ⟨v0, by simp only [hle, if_true, hparse], le_refl _⟩
    · exact absurd ⟨i, hi1, hi19, hex⟩ hsome

set_option maxRecDepth 1000000 in
/-- C3 witness: start "1000" with only 1050 and 1070 existing. -/
theorem jp_probe_not_lower_without_overflow_witness :
    ∃ v, ParseInt (GetResourceVersion (serverWith [1050, 1070]) "1000").value = some v ∧
      (1000 : Int) ≤ v :=
  jp_probe_not_lower_without_overflow (serverWith [1050, 1070]) "1000" 1000 (by decide)
    (fun i _ hi19 _ => by
      have : (i : Int) ≤ 19 := by exact_mod_cast hi19
      omega)

end pcrd_jp_repository

/-! ## Claims on the TH request builder and response handling -/

namespace pcrd_th_repository

open golang use_case credential cryptography

theorem getHeader_setHeader (headers : List (String × String)) (k v : String) :
    getHeader (setHeader headers k v) k = some v := by
  simp [getHeader, setHeader, List.lookup]

theorem bad_verb_text_ne (pre post d : String) :
    pre ++ ("%!s(int32=" ++ d ++ ")") ++ post ≠ pre ++ d ++ post := by
  intro h
  have hlen := congrArg String.length h
  simp only [String.length_append] at hlen
  have h1 : ("%!s(int32=" : String).length = 10 := by decide
  have h2 : (")" : String).length = 1 := by decide
  omega

/-- C5 (what the code does): when the msgpack serialization of the parameter
succeeds with `bytes`, `generateParam` returns, with a nil error, the lowercase
hex of the SHA-1 of `deviceId ++ "/" ++ function ++ base64(bytes) ++ t`, where
`t` is the text `%!s(int32=<viewer id in decimal>)` and not the decimal viewer
id itself: the hashed message differs from the one of the claim. -/
theorem th_param_hashes_bad_verb_text (lib : Lib) (c : Credential) (function : String)
    (param : restCheckGameStartParam) (bytes : List Nat)
    (hpack : lib.msgpackMarshal param = some bytes) :
    generateParam lib c function param =
        (hexEncodeToString (lib.sha1Sum
          (c.Udid ++ "/" ++ function ++ lib.base64Encode bytes ++
            ("%!s(int32=" ++ Sprintf_d c.ViewerID ++ ")"))), none) ∧
      c.Udid ++ "/" ++ function ++ lib.base64Encode bytes ++
          ("%!s(int32=" ++ Sprintf_d c.ViewerID ++ ")") ≠
        c.Udid ++ "/" ++ function ++ lib.base64Encode bytes ++ Sprintf_d c.ViewerID := by
  constructor
  · simp [generateParam, hpack, MakeSHA1, Sprintf_s_int32, String.append_assoc]
  · have h := bad_verb_text_ne (c.Udid ++ "/" ++ function ++ lib.base64Encode bytes) ""
      (Sprintf_d c.ViewerID)
    simpa using h

/-- C5 at a concrete input: device id "dev", viewer id 7, function
"check/game_start". The hashed message is "dev/check/game_start%!s(int32=7)";
the claim has "dev/check/game_start7". -/
theorem th_param_hashes_bad_verb_text_witness :
    generateParam demoLib ⟨"dev", 1, 7, ""⟩ "check/game_start" (gameStartParam ⟨"dev", 1, 7, ""⟩) =
        (hexEncodeToString (demoLib.sha1Sum "dev/check/game_start%!s(int32=7)"), none) ∧
      (gameStartParam ⟨"dev", 1, 7, ""⟩).ViewerID = "7" :=
  ⟨(th_param_hashes_bad_verb_text demoLib ⟨"dev", 1, 7, ""⟩ "check/game_start"
      (gameStartParam ⟨"dev", 1, 7, ""⟩) [] rfl).1, by decide⟩

/-- C6 (what the code does): when the header map is built, its `SID` entry is
hex(MD5(sessionId ++ salt)) for a non-empty session id; for an empty session
id it is hex(MD5(t ++ deviceId ++ salt)) where `t` is the text
`%!s(int32=<viewer id in decimal>)` and not the decimal viewer id, so the
hashed message differs from the one of the claim. -/
theorem th_sid_header_value (lib : Lib) (r : rest) (c : Credential) (v : PcrdVersion)
    (function : String) (param : restCheckGameStartParam) (headers : List (String × String))
    (hbuilt : callHeaders lib r c v function param = (headers, none)) :
    (c.SessionID ≠ "" →
        getHeader headers "SID" = some (hexEncodeToString (lib.md5Sum (c.SessionID ++ r.salt)))) ∧
      (c.SessionID = "" →
        getHeader headers "SID" = some (hexEncodeToString (lib.md5Sum
          ("%!s(int32=" ++ Sprintf_d c.ViewerID ++ ")" ++ c.Udid ++ r.salt))) ∧
        "%!s(int32=" ++ Sprintf_d c.ViewerID ++ ")" ++ c.Udid ++ r.salt ≠
          Sprintf_d c.ViewerID ++ c.Udid ++ r.salt) := by
  simp only [callHeaders] at hbuilt
  rcases hg : generateParam lib c function param with ⟨hash, _ | e⟩
  · rw [hg] at hbuilt
    simp only [Prod.mk.injEq, and_true] at hbuilt
    constructor
    · intro hs
      have hlen : len c.SessionID > 0 := by
        have := (len_le_zero_iff c.SessionID).not.mpr hs
        omega
      rw [← hbuilt]
      simp only [hlen, if_true]
      exact getHeader_setHeader _ _ _
    · intro hs
      have hlen : ¬ len c.SessionID > 0 := by
        have := (len_le_zero_iff c.SessionID).mpr hs
        omega
      refine ⟨?_, ?_⟩
      · rw [← hbuilt]
        simp only [hlen, if_false, Sprintf_s_int32, MakeMD5]
        exact getHeader_setHeader _ _ _
      · have h := bad_verb_text_ne "" (c.Udid ++ r.salt) (Sprintf_d c.ViewerID)
        simpa [String.append_assoc] using h
  · rw [hg] at hbuilt
    simp at hbuilt

/-- C6 at a concrete input: empty session id, viewer id 7, device id "dev",
salt "salt". The hashed message is "%!s(int32=7)devsalt"; the claim has
"7devsalt". -/
theorem th_sid_header_value_witness :
    getHeader
        (callHeaders demoLib (backendWith .requestFailed) ⟨"dev", 1, 7, ""⟩ ⟨"3.4.0", ""⟩
          "check/game_start" (gameStartParam ⟨"dev", 1, 7, ""⟩)).1 "SID" =
      some (hexEncodeToString (demoLib.md5Sum "%!s(int32=7)devsalt")) :=
  ((th_sid_header_value demoLib (backendWith .requestFailed) ⟨"dev", 1, 7, ""⟩ ⟨"3.4.0", ""⟩
    "check/game_start" (gameStartParam ⟨"dev", 1, 7, ""⟩) _ rfl).2 rfl).1

/-- C7: when the backend call returned a body and the body decodes to the
envelope `o`: an empty `required_res_ver` (the zero value an absent field
keeps) makes `GetResourceVersion` return the empty string with exactly
`ErrResVerNotAvailable`, which is neither `ErrRetrieveData` nor
`ErrDataTransform`; any other value is returned as is with a nil error. -/
theorem th_version_from_envelope (lib : Lib) (r : rest) (c : Credential) (v : PcrdVersion)
    (body : String) (o : restDataResp)
    (hcall : call lib r c v "check/game_start" (gameStartParam c) = (body, none))
    (hdecode : lib.jsonUnmarshal body = some o) :
    (o.DataHeaders.RequiredResVer = "" →
        GetResourceVersion lib r c v = ("", some ErrResVerNotAvailable)) ∧
      (o.DataHeaders.RequiredResVer ≠ "" →
        GetResourceVersion lib r c v = (o.DataHeaders.RequiredResVer, none)) ∧
      errorsIs ErrResVerNotAvailable ErrRetrieveData = false ∧
      errorsIs ErrResVerNotAvailable ErrDataTransform = false ∧
      errorsIs ErrRetrieveData ErrResVerNotAvailable = false ∧
      errorsIs ErrDataTransform ErrResVerNotAvailable = false := by
  refine ⟨fun h => ?_, fun h => ?_, by decide, by decide, by decide, by decide⟩
  · have hlen : len o.DataHeaders.RequiredResVer ≤ 0 := (len_le_zero_iff _).mpr h
    simp only [GetResourceVersion, hcall, hdecode, hlen, if_true]
  · have hlen : ¬ len o.DataHeaders.RequiredResVer ≤ 0 := (len_le_zero_iff _).not.mpr h
    simp only [GetResourceVersion, hcall, hdecode, hlen, if_false]

set_option maxRecDepth 1000000 in
/-- C7 witness: a body with `required_res_ver` "12345" gives "12345"; a body
whose header block lacks the field gives `ErrResVerNotAvailable`. -/
theorem th_version_from_envelope_witness :
    GetResourceVersion demoLib
        (backendWith (.response 200
          "\x7b\"data_headers\":\x7b\"required_res_ver\":\"12345\"\x7d\x7d"))
        ⟨"dev", 1, 7, ""⟩ ⟨"3.4.0", ""⟩ = ("12345", none) ∧
      GetResourceVersion demoLib (backendWith (.response 200 "\x7b\"data_headers\":\x7b\x7d\x7d"))
        ⟨"dev", 1, 7, ""⟩ ⟨"3.4.0", ""⟩ = ("", some ErrResVerNotAvailable) :=
  ⟨(th_version_from_envelope demoLib
      (backendWith (.response 200
        "\x7b\"data_headers\":\x7b\"required_res_ver\":\"12345\"\x7d\x7d"))
      ⟨"dev", 1, 7, ""⟩ ⟨"3.4.0", ""⟩
      "\x7b\"data_headers\":\x7b\"required_res_ver\":\"12345\"\x7d\x7d"
      { DataHeaders := { ResultCode := 0, RequiredResVer := "12345", ShortUdid := 0,
                         ViewerID := 0, SID := "", ServerTime := 0 } }
      (by decide) (by decide)).2.1 (by decide),
    (th_version_from_envelope demoLib
      (backendWith (.response 200 "\x7b\"data_headers\":\x7b\x7d\x7d"))
      ⟨"dev", 1, 7, ""⟩ ⟨"3.4.0", ""⟩ "\x7b\"data_headers\":\x7b\x7d\x7d"
      { DataHeaders := { ResultCode := 0, RequiredResVer := "", ShortUdid := 0,
                         ViewerID := 0, SID := "", ServerTime := 0 } }
      (by decide) (by decide)).1 rfl⟩

set_option maxRecDepth 1000000 in
/-- C8 counterexample: the backend answers with status 500 and a body holding
`required_res_ver` "12345"; `GetResourceVersion` returns "12345" and a nil
error. -/
theorem th_non_2xx_returns_version :
    GetResourceVersion demoLib
        (backendWith (.response 500
          "\x7b\"data_headers\":\x7b\"required_res_ver\":\"12345\"\x7d\x7d"))
        ⟨"dev", 1, 7, ""⟩ ⟨"3.4.0", ""⟩ = ("12345", none) := by
  decide

/-- C8 (amended): when the request is built (headers and JSON body) and the
HTTP layer gives no response body (the request cannot be created, sending
fails, or reading the body fails), `GetResourceVersion` returns the empty
string and an error wrapping `ErrRetrieveData`. The status code is not read:
replacing the status of every reply by 200 never changes the result. -/
theorem th_transport_failure_is_retrieve_data (lib : Lib) (r : rest) (c : Credential)
    (v : PcrdVersion) (headers : List (String × String)) (json : String)
    (hheaders : callHeaders lib r c v "check/game_start" (gameStartParam c) = (headers, none))
    (hjson : lib.jsonMarshal (gameStartParam c) = some json)
    (hfail : ∀ status body,
      r.client (requestOf r "check/game_start" headers json) ≠ .response status body) :
    (GetResourceVersion lib r c v).1 = "" ∧
      (∃ e, (GetResourceVersion lib r c v).2 = some e ∧ errorsIs e ErrRetrieveData = true) ∧
      ∀ r' : rest, GetResourceVersion lib { r' with client := fun q => withStatusOK (r'.client q) }
        c v = GetResourceVersion lib r' c v := by
  have hcall : call lib r c v "check/game_start" (gameStartParam c) =
      match r.client (requestOf r "check/game_start" headers json) with
      | .createRequestFailed => ("", some (.wrap "create request failed: " ErrRetrieveData))
      | .requestFailed => ("", some (.wrap "request failed: " ErrRetrieveData))
      | .readFailed _ => ("", some (.wrap "response read error: " ErrRetrieveData))
      | .response _ data => (data, none) := by
    simp only [call, hheaders, hjson, requestOf]
  refine ⟨?_, ?_, ?_⟩
  · simp only [GetResourceVersion, hcall]
    cases hr : r.client (requestOf r "check/game_start" headers json) with
    | createRequestFailed => rfl
    | requestFailed => rfl
    | readFailed s => rfl
    | response s b => exact absurd hr (hfail s b)
  · simp only [GetResourceVersion, hcall]
    cases hr : r.client (requestOf r "check/game_start" headers json) with
    | createRequestFailed => exact ⟨_, rfl, by decide⟩
    | requestFailed => exact ⟨_, rfl, by decide⟩
    | readFailed s => exact ⟨_, rfl, by decide⟩
    | response s b => exact absurd hr (hfail s b)
  · intro r'
    have hcall : ∀ p, call lib { r' with client := fun q => withStatusOK (r'.client q) } c v
        "check/game_start" p = call lib r' c v "check/game_start" p := by
      intro p
      simp only [call, callHeaders]
      rcases generateParam lib c "check/game_start" p with ⟨hash, _ | e⟩
      · simp only []
        rcases lib.jsonMarshal p with _ | j
        · rfl
        · simp only []
          rcases r'.client _ with _ | _ | s | ⟨s, b⟩ <;> rfl
      · rfl
    simp only [GetResourceVersion, hcall]

/-- C8 witness: sending fails. -/
theorem th_transport_failure_is_retrieve_data_witness :
    (GetResourceVersion demoLib (backendWith .requestFailed) ⟨"dev", 1, 7, ""⟩ ⟨"3.4.0", ""⟩).1 =
      "" :=
  (th_transport_failure_is_retrieve_data demoLib (backendWith .requestFailed) ⟨"dev", 1, 7, ""⟩
    ⟨"3.4.0", ""⟩ _ "\x7b\x7d" rfl rfl (fun _ _ => by simp [backendWith])).1

end pcrd_th_repository
/-! ## Lemmas on `UpdateResourceVersion` -/

namespace use_case

open golang

end use_case

/-! ## Claims on `UpdateResourceVersion` -/

namespace use_case

open golang

/-- C9: when the settings lookup fails, `UpdateResourceVersion` returns that
error and the settings lookup is the only collaborator invocation of the run;
when the settings lookup succeeds and the application lookup fails, it returns
the application error and these two lookups are the only invocations. In both
cases no invocation of the run is a version `Create` or `Update`, a history
`Create` or a `PublishVersion`. -/
theorem update_aborts_on_failed_lookup {W : Type} (u : UseCase W) (ID : String) (w : W) :
    (∀ s err w1, u.settingRepository.GetSettingByID ID w = ((s, some err), w1) →
        (UpdateResourceVersion u ID w).err = some err ∧
        (UpdateResourceVersion u ID w).calls = [.GetSettingByID ID s (some err)] ∧
        (UpdateResourceVersion u ID w).world = w1 ∧
        ∀ c ∈ (UpdateResourceVersion u ID w).calls, c.isWrite = false) ∧
      (∀ s w1 a err w2, u.settingRepository.GetSettingByID ID w = ((s, none), w1) →
        u.applicationRepository.GetAndroidAppByID s.Setting.ID w1 = ((a, some err), w2) →
        (UpdateResourceVersion u ID w).err = some err ∧
        (UpdateResourceVersion u ID w).calls =
          [.GetSettingByID ID s none, .GetAndroidAppByID s.Setting.ID a (some err)] ∧
        (UpdateResourceVersion u ID w).world = w2 ∧
        ∀ c ∈ (UpdateResourceVersion u ID w).calls, c.isWrite = false) := by
  constructor
  · intro s err w1 hs
    have hrun : UpdateResourceVersion u ID w =
        { err := some err, calls := [.GetSettingByID ID s (some err)], world := w1 } := by
      simp only [UpdateResourceVersion, hs]
    rw [hrun]
    refine ⟨rfl, rfl, rfl, ?_⟩
    intro c hc
    simp only [List.mem_singleton] at hc
    subst hc
    rfl
  · intro s w1 a err w2 hs ha
    have hrun : UpdateResourceVersion u ID w =
        { err := some err
          calls := [.GetSettingByID ID s none, .GetAndroidAppByID s.Setting.ID a (some err)]
          world := w2 } := by
      simp only [UpdateResourceVersion, hs, ha, List.singleton_append]
    rw [hrun]
    refine ⟨rfl, rfl, rfl, ?_⟩
    intro c hc
    simp only [List.mem_cons, List.mem_singleton, List.not_mem_nil, or_false] at hc
    rcases hc with hc | hc <;> subst hc <;> rfl

set_option maxRecDepth 1000000 in
/-- C9 witness: the id "nope" matches no settings document, so the run ends
with an error wrapping `ErrSettingNotExists` after the settings lookup; with
the setting "s1" and an application service answering
`ErrApplicationNotFound`, the run ends with that error after two lookups. -/
theorem update_aborts_on_failed_lookup_witness :
    (UpdateResourceVersion
        (wiring.newUseCase pcrd_th_repository.demoLib
          (pcrd_th_repository.backendWith .requestFailed) (pcrd_jp_repository.serverWith []))
        "nope" wiring.freshWorld).err = some (.wrap "nope: " ErrSettingNotExists) ∧
      (UpdateResourceVersion
        (wiring.newUseCase pcrd_th_repository.demoLib
          (pcrd_th_repository.backendWith .requestFailed) (pcrd_jp_repository.serverWith []))
        "s1" { wiring.freshWorld with
          applications := fun appID =>
            (⟨"", "", "", "", "", "", 0, 0⟩, some (.wrap (appID ++ ": ") ErrApplicationNotFound)) }
        ).calls.length = 2 := by
  constructor
  · exact ((update_aborts_on_failed_lookup
      (wiring.newUseCase pcrd_th_repository.demoLib
        (pcrd_th_repository.backendWith .requestFailed) (pcrd_jp_repository.serverWith []))
      "nope" wiring.freshWorld).1 setting_repository.zeroPCRDSetting
      (.wrap "nope: " ErrSettingNotExists) wiring.freshWorld rfl).1
  · have h := ((update_aborts_on_failed_lookup
      (wiring.newUseCase pcrd_th_repository.demoLib
        (pcrd_th_repository.backendWith .requestFailed) (pcrd_jp_repository.serverWith []))
      "s1" { wiring.freshWorld with
          applications := fun appID =>
            (⟨"", "", "", "", "", "", 0, 0⟩, some (.wrap (appID ++ ": ") ErrApplicationNotFound)) }
      ).2 _ _ ⟨"", "", "", "", "", "", 0, 0⟩ (.wrap ("s1" ++ ": ") ErrApplicationNotFound) _
        rfl rfl).2.1
    rw [h]
    rfl

end use_case

/-! ## Claims on the step log of the JP probe -/

namespace pcrd_jp_repository

open golang use_case

theorem loopBody_events (r : rest) (version : Int) (st : LoopState) (i : Nat) :
    (loopBody r version st i).events = st.events ++ iterationEvents r version i := by
  unfold loopBody iterationEvents
  change _ = st.events ++
    if (call r (wrapInt64 (version + wrapInt64 (wrapInt64 (i : Int) * wrapInt64 10)))).2 = none
    then [Event.check (wrapInt64 (version + wrapInt64 (wrapInt64 (i : Int) * wrapInt64 10))),
      Event.sleep 1]
    else [Event.check (wrapInt64 (version + wrapInt64 (wrapInt64 (i : Int) * wrapInt64 10)))]
  rcases hc : call r (wrapInt64 (version + wrapInt64 (wrapInt64 (i : Int) * wrapInt64 10)))
    with ⟨b, _ | e⟩ <;> simp [hc]

theorem loopAfter_events (r : rest) (version : Int) (n : Nat) :
    (loopAfter r version n).events = (List.range' 1 n).flatMap (iterationEvents r version) := by
  induction n with
  | zero => rfl
  | succ n ih =>
    rw [loopAfter_succ, loopBody_events, ih, List.range'_concat]
    simp [List.flatMap_append, Nat.add_comm]

theorem checkedVersions_append (es fs : List Event) :
    checkedVersions (es ++ fs) = checkedVersions es ++ checkedVersions fs := by
  induction es with
  | nil => rfl
  | cons e es ih => cases e <;> simp [checkedVersions, ih]

theorem sleepCount_append (es fs : List Event) :
    sleepCount (es ++ fs) = sleepCount es + sleepCount fs := by
  induction es with
  | nil => simp [sleepCount]
  | cons e es ih =>
    cases e with
    | check v => simpa [sleepCount] using ih
    | sleep n =>
      change sleepCount (es ++ fs) + 1 = sleepCount es + 1 + sleepCount fs
      omega

theorem checkedVersions_iterationEvents (r : rest) (version : Int) (i : Nat) :
    checkedVersions (iterationEvents r version i) = [candidate version i] := by
  unfold iterationEvents
  split <;> rfl

theorem checkedVersions_flatMap (r : rest) (version : Int) (l : List Nat) :
    checkedVersions (l.flatMap (iterationEvents r version)) = l.map (candidate version) := by
  induction l with
  | nil => rfl
  | cons i l ih =>
    simp only [List.flatMap_cons, checkedVersions_append, checkedVersions_iterationEvents, ih,
      List.map_cons, List.singleton_append]

theorem sleepCount_flatMap (r : rest) (version : Int) (l : List Nat) :
    sleepCount (l.flatMap (iterationEvents r version)) =
      (l.filter (fun i => decide ((call r (candidate version i)).2 = none))).length := by
  induction l with
  | nil => rfl
  | cons i l ih =>
    simp only [List.flatMap_cons, sleepCount_append, ih, List.filter_cons]
    by_cases h : (call r (candidate version i)).2 = none
    · simp [iterationEvents, h, sleepCount]; omega
    · simp [iterationEvents, h, sleepCount]

/-- When `startVersion` parses to `v0`, the checks of one probe run are, in this
order, the 19 `int64` candidates of `i = 1..19`, whatever the server answers. -/
theorem checkedVersions_GetResourceVersion (r : rest) (startVersion : String) (v0 : Int)
    (hparse : ParseInt startVersion = some v0) :
    checkedVersions (GetResourceVersion r startVersion).events =
      (List.range' 1 19).map (candidate v0) := by
  rw [GetResourceVersion_parsed r startVersion v0 hparse]
  simp only [loopAfter_events, checkedVersions_flatMap]

set_option maxRecDepth 1000000 in
/-- C18 counterexample: start "9223372036854775707" on a server where nothing
exists. The run issues 19 checks, but from the 11th on the candidate has
wrapped in `int64`: the checked versions are not the integers
`v0+10, ..., v0+190`, and they are not in ascending order (the 11th,
-9223372036854775799, is lower than the 10th, 9223372036854775807). -/
theorem jp_probe_overflow_checks_not_ascending :
    ParseInt "9223372036854775707" = some 9223372036854775707 ∧
      checkedVersions (GetResourceVersion (serverWith []) "9223372036854775707").events =
        [9223372036854775717, 9223372036854775727, 9223372036854775737, 9223372036854775747,
          9223372036854775757, 9223372036854775767, 9223372036854775777, 9223372036854775787,
          9223372036854775797, 9223372036854775807, -9223372036854775799,
          -9223372036854775789, -9223372036854775779, -9223372036854775769,
          -9223372036854775759, -9223372036854775749, -9223372036854775739,
          -9223372036854775729, -9223372036854775719] ∧
      checkedVersions (GetResourceVersion (serverWith []) "9223372036854775707").events ≠
        (List.range' 1 19).map (fun (i : Nat) => 9223372036854775707 + 10 * (i : Int)) ∧
      ¬ List.Pairwise (fun a b => a < b)
        (checkedVersions (GetResourceVersion (serverWith []) "9223372036854775707").events) := by
  refine ⟨by decide, by decide, by decide, by decide⟩

/-- C18 (amended): when `startVersion` parses to `v0` and the last candidate
fits `int64` (`v0 + 190 < 2^63`), one probe run issues exactly 19 existence
checks, on the integers `v0+10, v0+20, ..., v0+190` in that order, which is
strictly ascending, whatever the server answers: every server gets the same
sequence. -/
theorem jp_probe_checks_nineteen_candidates (r : rest) (startVersion : String) (v0 : Int)
    (hparse : ParseInt startVersion = some v0) (hfit : v0 + 190 < 2 ^ 63) :
    checkedVersions (GetResourceVersion r startVersion).events =
        (List.range' 1 19).map (fun (i : Nat) => v0 + 10 * (i : Int)) ∧
      (checkedVersions (GetResourceVersion r startVersion).events).length = 19 ∧
      List.Pairwise (fun a b => a < b)
        (checkedVersions (GetResourceVersion r startVersion).events) ∧
      (∀ r2 : rest, checkedVersions (GetResourceVersion r2 startVersion).events =
        checkedVersions (GetResourceVersion r startVersion).events) := by
  have hall : ∀ r1 : rest, checkedVersions (GetResourceVersion r1 startVersion).events =
      (List.range' 1 19).map (fun (i : Nat) => v0 + 10 * (i : Int)) := by
    intro r1
    rw [checkedVersions_GetResourceVersion r1 startVersion v0 hparse]
    apply List.map_congr_left
    intro i hi
    have hi19 : i ≤ 19 := by
      have := (List.mem_range'_1.mp hi).2
      omega
    have : (i : Int) ≤ 19 := by exact_mod_cast hi19
    exact candidate_of_fit v0 i (ParseInt_range startVersion v0 hparse).1 hi19 (by omega)
  refine ⟨hall r, ?_, ?_, fun r2 => ?_⟩
  · rw [hall r]; simp
  · rw [hall r, List.pairwise_map]
    refine List.Pairwise.imp ?_ (List.pairwise_lt_range' 1 19)
    intro a b hab
    have : (a : Int) < (b : Int) := by exact_mod_cast hab
    omega
  · rw [hall r, hall r2]

set_option maxRecDepth 1000000 in
/-- C18 witness: start "1000" probes 1010, 1020, ..., 1190. -/
theorem jp_probe_checks_nineteen_candidates_witness :
    checkedVersions (GetResourceVersion (serverWith [1050, 1070]) "1000").events =
      [1010, 1020, 1030, 1040, 1050, 1060, 1070, 1080, 1090, 1100, 1110, 1120, 1130, 1140,
        1150, 1160, 1170, 1180, 1190] := by
  rw [(jp_probe_checks_nineteen_candidates (serverWith [1050, 1070]) "1000" 1000 (by decide)
    (by decide)).1]
  decide

/-- C19 (what the code does): when `startVersion` parses to `v0`, the step log
of a probe run is, iteration by iteration, the check followed by a one-second
sleep when `call` returned no error (exists or not-exists), and the check alone
when `call` returned a transport error: the number of sleeps is the number of
checks that did not fail in transport. -/
theorem jp_probe_sleeps_only_without_error (r : rest) (startVersion : String) (v0 : Int)
    (hparse : ParseInt startVersion = some v0) :
    (GetResourceVersion r startVersion).events =
        (List.range' 1 19).flatMap (fun i =>
          if (call r (candidate v0 i)).2 = none then
            [Event.check (candidate v0 i), Event.sleep 1]
          else [Event.check (candidate v0 i)]) ∧
      sleepCount (GetResourceVersion r startVersion).events =
        ((List.range' 1 19).filter
          (fun i => decide ((call r (candidate v0 i)).2 = none))).length := by
  rw [GetResourceVersion_parsed r startVersion v0 hparse]
  simp only [loopAfter_events, sleepCount_flatMap]
  exact ⟨rfl, trivial⟩

set_option maxRecDepth 1000000 in
/-- C19 at a concrete input: start "1000" against a server whose every request
fails in transport. The run makes its 19 checks and never sleeps. -/
theorem jp_probe_sleeps_only_without_error_witness :
    ParseInt "1000" = some 1000 ∧
      (GetResourceVersion
        { client := fun _ => HttpReply.requestFailed, baseURL := "http://cdn", locale := "Jpn" }
        "1000").events =
        [.check 1010, .check 1020, .check 1030, .check 1040, .check 1050, .check 1060,
          .check 1070, .check 1080, .check 1090, .check 1100, .check 1110, .check 1120,
          .check 1130, .check 1140, .check 1150, .check 1160, .check 1170, .check 1180,
          .check 1190] ∧
      sleepCount (GetResourceVersion
        { client := fun _ => HttpReply.requestFailed, baseURL := "http://cdn", locale := "Jpn" }
        "1000").events = 0 := by
  refine ⟨by decide, ?_, ?_⟩
  · rw [(jp_probe_sleeps_only_without_error
      { client := fun _ => HttpReply.requestFailed, baseURL := "http://cdn", locale := "Jpn" }
      "1000" 1000 (by decide)).1]
    decide
  · rw [(jp_probe_sleeps_only_without_error
      { client := fun _ => HttpReply.requestFailed, baseURL := "http://cdn", locale := "Jpn" }
      "1000" 1000 (by decide)).2]
    decide

end pcrd_jp_repository

/-! ## The paths of `UpdateResourceVersion` -/

namespace use_case

open golang

/-- The four ways `commitVersion` can end. -/
theorem commitVersion_cases {W : Type} (u : UseCase W) (application : application.Application)
    (currentVersion : GameVersion) (version : String) (calls : List Call) (w : W) :
    (currentVersion.ResVersion = version ∧
        commitVersion u application currentVersion version calls w =
          { err := none, calls := calls, world := w }) ∨
      (currentVersion.ResVersion ≠ version ∧ ∃ e w1,
        u.versionRepository.Update (changedVersion currentVersion application version) w =
          (some e, w1) ∧
        commitVersion u application currentVersion version calls w =
          { err := some e
            calls := calls ++
              [.VersionUpdate (changedVersion currentVersion application version) (some e)]
            world := w1 }) ∨
      (currentVersion.ResVersion ≠ version ∧ ∃ e w1 w2,
        u.versionRepository.Update (changedVersion currentVersion application version) w =
          (none, w1) ∧
        u.historyRepository.Create (changedVersion currentVersion application version) w1 =
          (some e, w2) ∧
        commitVersion u application currentVersion version calls w =
          { err := some e
            calls := calls ++
              [.VersionUpdate (changedVersion currentVersion application version) none,
               .HistoryCreate (changedVersion currentVersion application version) (some e)]
            world := w2 }) ∨
      (currentVersion.ResVersion ≠ version ∧ ∃ pe w1 w2 w3,
        u.versionRepository.Update (changedVersion currentVersion application version) w =
          (none, w1) ∧
        u.historyRepository.Create (changedVersion currentVersion application version) w1 =
          (none, w2) ∧
        u.versionEventRepository.PublishVersion
          (changedVersion currentVersion application version) w2 = (pe, w3) ∧
        commitVersion u application currentVersion version calls w =
          { err := none
            calls := calls ++
              [.VersionUpdate (changedVersion currentVersion application version) none,
               .HistoryCreate (changedVersion currentVersion application version) none,
               .PublishVersion (changedVersion currentVersion application version) pe]
            world := w3 }) := by
  by_cases heq : currentVersion.ResVersion = version
  · left
    exact ⟨heq, by simp only [commitVersion, heq, if_true]⟩
  · right
    rcases hu : u.versionRepository.Update (changedVersion currentVersion application version) w
      with ⟨_ | e, w1⟩
    · right
      rcases hh : u.historyRepository.Create
        (changedVersion currentVersion application version) w1 with ⟨_ | e, w2⟩
      · right
        rcases hp : u.versionEventRepository.PublishVersion
          (changedVersion currentVersion application version) w2 with ⟨pe, w3⟩
        refine ⟨heq, pe, w1, w2, w3, rfl, hh, hp, ?_⟩
        simp only [changedVersion] at hu hh hp
        simp only [commitVersion, heq, if_false, hu, hh, hp, changedVersion, List.append_assoc,
          List.singleton_append, List.cons_append, List.nil_append]
      · left
        refine ⟨heq, e, w1, w2, rfl, hh, ?_⟩
        simp only [changedVersion] at hu hh
        simp only [commitVersion, heq, if_false, hu, hh, changedVersion, List.append_assoc,
          List.singleton_append, List.cons_append, List.nil_append]
    · left
      refine ⟨heq, e, w1, rfl, ?_⟩
      simp only [changedVersion] at hu
      simp only [commitVersion, heq, if_false, hu, changedVersion]

/-- The strategy invocation of `discoverVersion` and how the run goes on. -/
theorem discoverVersion_cases {W : Type} (u : UseCase W) (appSetting : PCRDSetting)
    (application : application.Application) (currentVersion : GameVersion)
    (calls : List Call) (w : W) :
    ∃ sc res e w1,
      ((appSetting.Setting.ServerCode = setting.ServerCodeTH ∧
          u.pcrdTHRepository.GetResourceVersion appSetting.Credential
            { AppVersion := application.Version, ResVersion := "" } w = ((res, e), w1) ∧
          sc = .THGetResourceVersion appSetting.Credential
            { AppVersion := application.Version, ResVersion := "" } res e) ∨
        (appSetting.Setting.ServerCode ≠ setting.ServerCodeTH ∧
          u.pcrdJPRepository.GetResourceVersion (guessVersionOf appSetting currentVersion) w =
            ((res, e), w1) ∧
          sc = .JPGetResourceVersion (guessVersionOf appSetting currentVersion) res e)) ∧
      ((∃ err, e = some err ∧
          discoverVersion u appSetting application currentVersion calls w =
            { err := some err, calls := calls ++ [sc], world := w1 }) ∨
        (e = none ∧
          discoverVersion u appSetting application currentVersion calls w =
            commitVersion u application currentVersion res (calls ++ [sc]) w1)) := by
  by_cases hth : appSetting.Setting.ServerCode = setting.ServerCodeTH
  · rcases hr : u.pcrdTHRepository.GetResourceVersion appSetting.Credential
      { AppVersion := application.Version, ResVersion := "" } w with ⟨⟨res, _ | e⟩, w1⟩
    · exact ⟨_, res, none, w1, Or.inl ⟨hth, rfl, rfl⟩, Or.inr ⟨rfl, by
        simp only [discoverVersion, hth, if_true, hr]⟩⟩
    · exact ⟨_, res, some e, w1, Or.inl ⟨hth, rfl, rfl⟩, Or.inl ⟨e, rfl, by
        simp only [discoverVersion, hth, if_true, hr]⟩⟩
  · rcases hr : u.pcrdJPRepository.GetResourceVersion (guessVersionOf appSetting currentVersion) w
      with ⟨⟨res, _ | e⟩, w1⟩
    · refine ⟨_, res, none, w1, Or.inr ⟨hth, rfl, rfl⟩, Or.inr ⟨rfl, ?_⟩⟩
      simp only [guessVersionOf] at hr
      simp only [discoverVersion, hth, if_false, hr, guessVersionOf]
    · refine ⟨_, res, some e, w1, Or.inr ⟨hth, rfl, rfl⟩, Or.inl ⟨e, rfl, ?_⟩⟩
      simp only [guessVersionOf] at hr
      simp only [discoverVersion, hth, if_false, hr, guessVersionOf]

/-- The six ways `UpdateResourceVersion` can go up to the strategy. -/
theorem UpdateResourceVersion_cases {W : Type} (u : UseCase W) (ID : String) (w : W) :
    (∃ s e w1, u.settingRepository.GetSettingByID ID w = ((s, some e), w1) ∧
        UpdateResourceVersion u ID w =
          { err := some e, calls := [.GetSettingByID ID s (some e)], world := w1 }) ∨
      (∃ s w1 a e w2, u.settingRepository.GetSettingByID ID w = ((s, none), w1) ∧
        u.applicationRepository.GetAndroidAppByID s.Setting.ID w1 = ((a, some e), w2) ∧
        UpdateResourceVersion u ID w =
          { err := some e
            calls := [.GetSettingByID ID s none, .GetAndroidAppByID s.Setting.ID a (some e)]
            world := w2 }) ∨
      (∃ s w1 a w2 g e w3, u.settingRepository.GetSettingByID ID w = ((s, none), w1) ∧
        u.applicationRepository.GetAndroidAppByID s.Setting.ID w1 = ((a, none), w2) ∧
        u.versionRepository.GetByID s.Setting.ID w2 = ((g, some e), w3) ∧
        errorsIs e ErrVersionNotFound = false ∧
        UpdateResourceVersion u ID w =
          { err := some e
            calls := [.GetSettingByID ID s none, .GetAndroidAppByID s.Setting.ID a none,
              .VersionGetByID s.Setting.ID g (some e)]
            world := w3 }) ∨
      (∃ s w1 a w2 g e w3 e2 w4, u.settingRepository.GetSettingByID ID w = ((s, none), w1) ∧
        u.applicationRepository.GetAndroidAppByID s.Setting.ID w1 = ((a, none), w2) ∧
        u.versionRepository.GetByID s.Setting.ID w2 = ((g, some e), w3) ∧
        errorsIs e ErrVersionNotFound = true ∧
        u.versionRepository.Create (firstVersion s a) w3 = (some e2, w4) ∧
        UpdateResourceVersion u ID w =
          { err := some e2
            calls := [.GetSettingByID ID s none, .GetAndroidAppByID s.Setting.ID a none,
              .VersionGetByID s.Setting.ID g (some e), .VersionCreate (firstVersion s a) (some e2)]
            world := w4 }) ∨
      (∃ s w1 a w2 g e w3 w4, u.settingRepository.GetSettingByID ID w = ((s, none), w1) ∧
        u.applicationRepository.GetAndroidAppByID s.Setting.ID w1 = ((a, none), w2) ∧
        u.versionRepository.GetByID s.Setting.ID w2 = ((g, some e), w3) ∧
        errorsIs e ErrVersionNotFound = true ∧
        u.versionRepository.Create (firstVersion s a) w3 = (none, w4) ∧
        UpdateResourceVersion u ID w =
          discoverVersion u s a (firstVersion s a)
            [.GetSettingByID ID s none, .GetAndroidAppByID s.Setting.ID a none,
              .VersionGetByID s.Setting.ID g (some e), .VersionCreate (firstVersion s a) none]
            w4) ∨
      (∃ s w1 a w2 cur w3, u.settingRepository.GetSettingByID ID w = ((s, none), w1) ∧
        u.applicationRepository.GetAndroidAppByID s.Setting.ID w1 = ((a, none), w2) ∧
        u.versionRepository.GetByID s.Setting.ID w2 = ((cur, none), w3) ∧
        UpdateResourceVersion u ID w =
          discoverVersion u s a cur
            [.GetSettingByID ID s none, .GetAndroidAppByID s.Setting.ID a none,
              .VersionGetByID s.Setting.ID cur none]
            w3) := by
  rcases hs : u.settingRepository.GetSettingByID ID w with ⟨⟨s, _ | e⟩, w1⟩
  · rcases ha : u.applicationRepository.GetAndroidAppByID s.Setting.ID w1 with ⟨⟨a, _ | e⟩, w2⟩
    · rcases hv : u.versionRepository.GetByID s.Setting.ID w2 with ⟨⟨cur, _ | e⟩, w3⟩
      · right; right; right; right; right
        exact ⟨s, w1, a, w2, cur, w3, rfl, ha, hv, by
          simp only [UpdateResourceVersion, hs, ha, hv, List.singleton_append, List.cons_append,
            List.nil_append]⟩
      · by_cases hnf : errorsIs e ErrVersionNotFound = true
        · rcases hcr : u.versionRepository.Create (firstVersion s a) w3 with ⟨_ | e2, w4⟩
          · right; right; right; right; left
            refine ⟨s, w1, a, w2, cur, e, w3, w4, rfl, ha, hv, hnf, hcr, ?_⟩
            simp only [firstVersion] at hcr
            simp only [UpdateResourceVersion, hs, ha, hv, hnf, if_true, hcr, firstVersion,
              List.singleton_append, List.cons_append, List.nil_append]
          · right; right; right; left
            refine ⟨s, w1, a, w2, cur, e, w3, e2, w4, rfl, ha, hv, hnf, hcr, ?_⟩
            simp only [firstVersion] at hcr
            simp only [UpdateResourceVersion, hs, ha, hv, hnf, if_true, hcr, firstVersion,
              List.singleton_append, List.cons_append, List.nil_append]
        · right; right; left
          have hnf2 : errorsIs e ErrVersionNotFound = false := by
            cases h : errorsIs e ErrVersionNotFound
            · rfl
            · exact absurd h hnf
          refine ⟨s, w1, a, w2, cur, e, w3, rfl, ha, hv, hnf2, ?_⟩
          simp only [UpdateResourceVersion, hs, ha, hv, hnf2, List.singleton_append,
            List.cons_append, List.nil_append]
          rfl
    · right; left
      exact ⟨s, w1, a, e, w2, rfl, ha, by
        simp only [UpdateResourceVersion, hs, ha, List.singleton_append]⟩
  · left
    exact ⟨s, e, w1, rfl, by simp only [UpdateResourceVersion, hs]⟩

end use_case

/-! ## Claims on the paths of `UpdateResourceVersion` -/

namespace use_case

open golang

/-- A run whose strategy answers `result` without error continues in
`commitVersion`, after one strategy invocation. -/
theorem discoverVersion_of_answer {W : Type} (u : UseCase W) (appSetting : PCRDSetting)
    (application : application.Application) (currentVersion : GameVersion)
    (calls : List Call) (w w1 : W) (result : String)
    (h : strategyAnswers u appSetting application currentVersion w result none w1) :
    ∃ sc, sc.isWrite = false ∧ sc.isCommit = false ∧ sc.strategyResult = some result ∧
      discoverVersion u appSetting application currentVersion calls w =
        commitVersion u application currentVersion result (calls ++ [sc]) w1 := by
  rcases h with ⟨hth, hr⟩ | ⟨hth, hr⟩
  · exact ⟨.THGetResourceVersion appSetting.Credential
      { AppVersion := application.Version, ResVersion := "" } result none, rfl, rfl, rfl, by
      simp only [discoverVersion, hth, if_true, hr]⟩
  · refine ⟨.JPGetResourceVersion (guessVersionOf appSetting currentVersion) result none,
      rfl, rfl, rfl, ?_⟩
    simp only [guessVersionOf] at hr
    simp only [discoverVersion, hth, if_false, hr, guessVersionOf]

/-- A run whose current version is obtained as `currentVersion` continues in
`discoverVersion`, after lookups (and possibly a `Create`) that are no commit
steps. -/
theorem UpdateResourceVersion_of_obtained {W : Type} (u : UseCase W) (ID : String)
    (w w1 w2 w3 : W) (s : PCRDSetting) (a : application.Application) (cur : GameVersion)
    (hs : u.settingRepository.GetSettingByID ID w = ((s, none), w1))
    (ha : u.applicationRepository.GetAndroidAppByID s.Setting.ID w1 = ((a, none), w2))
    (hload : currentVersionObtained u s a w2 cur w3) :
    ∃ pre, (∀ c ∈ pre, c.isCommit = false ∧ c.strategyResult = none) ∧
      UpdateResourceVersion u ID w = discoverVersion u s a cur pre w3 := by
  rcases hload with hv | ⟨g, e, w0, hv, hnf, hcur, hcr⟩
  · refine ⟨_, ?_, by
      simp only [UpdateResourceVersion, hs, ha, hv, List.singleton_append, List.cons_append,
        List.nil_append]; rfl⟩
    intro c hc
    simp only [List.mem_cons, List.mem_singleton, List.not_mem_nil, or_false] at hc
    rcases hc with hc | hc | hc <;> subst hc <;> exact ⟨rfl, rfl⟩
  · subst hcur
    simp only [firstVersion] at hcr
    refine ⟨_, ?_, by
      simp only [UpdateResourceVersion, hs, ha, hv, hnf, if_true, hcr, firstVersion,
        List.singleton_append, List.cons_append, List.nil_append]; rfl⟩
    intro c hc
    simp only [List.mem_cons, List.mem_singleton, List.not_mem_nil, or_false] at hc
    rcases hc with hc | hc | hc | hc <;> subst hc <;> exact ⟨rfl, rfl⟩

/-- The path of a changed version: whatever `PublishVersion` answers, the run
returns nil after `Update`, history `Create` and `PublishVersion`, in this
order and with the same `GameVersion`. -/
theorem UpdateResourceVersion_changed_path {W : Type} (u : UseCase W) (ID : String)
    (w w1 w2 w3 w4 w5 w6 w7 : W) (s : PCRDSetting) (a : application.Application)
    (cur : GameVersion) (V : String) (pe : Option Err)
    (hs : u.settingRepository.GetSettingByID ID w = ((s, none), w1))
    (ha : u.applicationRepository.GetAndroidAppByID s.Setting.ID w1 = ((a, none), w2))
    (hload : currentVersionObtained u s a w2 cur w3)
    (hstrat : strategyAnswers u s a cur w3 V none w4)
    (hne : cur.ResVersion ≠ V)
    (hupd : u.versionRepository.Update (changedVersion cur a V) w4 = (none, w5))
    (hhist : u.historyRepository.Create (changedVersion cur a V) w5 = (none, w6))
    (hpub : u.versionEventRepository.PublishVersion (changedVersion cur a V) w6 = (pe, w7)) :
    (UpdateResourceVersion u ID w).err = none ∧
      (UpdateResourceVersion u ID w).world = w7 ∧
      (UpdateResourceVersion u ID w).calls.filter Call.isCommit =
        [.VersionUpdate (changedVersion cur a V) none,
         .HistoryCreate (changedVersion cur a V) none,
         .PublishVersion (changedVersion cur a V) pe] := by
  obtain ⟨pre, hpre, hrun⟩ := UpdateResourceVersion_of_obtained u ID w w1 w2 w3 s a cur hs ha hload
  obtain ⟨sc, _, hsc, _, hdisc⟩ := discoverVersion_of_answer u s a cur pre w3 w4 V hstrat
  rw [hrun, hdisc]
  rcases commitVersion_cases u a cur V (pre ++ [sc]) w4 with
    ⟨heq, _⟩ | ⟨_, e, v1, hu, _⟩ | ⟨_, e, v1, v2, hu, hh, _⟩ | ⟨_, pe2, v1, v2, v3, hu, hh, hp, hc⟩
  · exact absurd heq hne
  · rw [hupd] at hu; simp at hu
  · rw [hupd] at hu
    simp only [Prod.mk.injEq, true_and] at hu
    subst hu
    rw [hhist] at hh; simp at hh
  · rw [hupd] at hu
    simp only [Prod.mk.injEq, true_and] at hu
    subst hu
    rw [hhist] at hh
    simp only [Prod.mk.injEq, true_and] at hh
    subst hh
    rw [hpub] at hp
    simp only [Prod.mk.injEq] at hp
    obtain ⟨hp1, hp2⟩ := hp
    subst hp1 hp2
    rw [hc]
    refine ⟨rfl, rfl, ?_⟩
    have hfpre : (pre ++ [sc]).filter Call.isCommit = [] := by
      rw [List.filter_eq_nil_iff]
      intro c hc
      simp only [List.mem_append, List.mem_singleton] at hc
      rcases hc with hc | hc
      · simp [(hpre c hc).1]
      · subst hc; simp [hsc]
    simp only [List.filter_append, hfpre, List.nil_append]
    rfl

/-- C11: when setting, application info and current version load and the
selected strategy returns, without error, a version equal to the `resVersion`
of the loaded row, the run returns nil after these four invocations and none
of them is a write (no version `Create` or `Update`, no history `Create`, no
`PublishVersion`). -/
theorem update_unchanged_is_noop {W : Type} (u : UseCase W) (ID : String)
    (w w1 w2 w3 w4 : W) (s : PCRDSetting) (a : application.Application) (cur : GameVersion)
    (hs : u.settingRepository.GetSettingByID ID w = ((s, none), w1))
    (ha : u.applicationRepository.GetAndroidAppByID s.Setting.ID w1 = ((a, none), w2))
    (hv : u.versionRepository.GetByID s.Setting.ID w2 = ((cur, none), w3))
    (hstrat : strategyAnswers u s a cur w3 cur.ResVersion none w4) :
    (UpdateResourceVersion u ID w).err = none ∧
      (UpdateResourceVersion u ID w).world = w4 ∧
      (UpdateResourceVersion u ID w).calls.length = 4 ∧
      ∀ c ∈ (UpdateResourceVersion u ID w).calls, c.isWrite = false := by
  obtain ⟨sc, hsc, _, _, hdisc⟩ := discoverVersion_of_answer u s a cur
    [.GetSettingByID ID s none, .GetAndroidAppByID s.Setting.ID a none,
      .VersionGetByID s.Setting.ID cur none] w3 w4 cur.ResVersion hstrat
  have hrun : UpdateResourceVersion u ID w =
      { err := none
        calls := [.GetSettingByID ID s none, .GetAndroidAppByID s.Setting.ID a none,
          .VersionGetByID s.Setting.ID cur none, sc]
        world := w4 } := by
    simp only [UpdateResourceVersion, hs, ha, hv, List.singleton_append, List.cons_append,
      List.nil_append]
    rw [hdisc]
    simp only [commitVersion, if_true, List.cons_append, List.nil_append]
  rw [hrun]
  refine ⟨rfl, rfl, rfl, ?_⟩
  intro c hc
  simp only [List.mem_cons, List.mem_singleton, List.not_mem_nil, or_false] at hc
  rcases hc with hc | hc | hc | hc <;> subst hc
  · rfl
  · rfl
  · rfl
  · exact hsc

end use_case

namespace use_case

open golang

set_option maxRecDepth 1000000 in
/-- C11 witness: the row of "s1" holds "12345" and the TH backend answers
"12345". -/
theorem update_unchanged_is_noop_witness :
    (UpdateResourceVersion
        (wiring.newUseCase pcrd_th_repository.demoLib wiring.thAnswering12345
          (pcrd_jp_repository.serverWith []))
        "s1" wiring.settledWorld).err = none ∧
      (UpdateResourceVersion
        (wiring.newUseCase pcrd_th_repository.demoLib wiring.thAnswering12345
          (pcrd_jp_repository.serverWith []))
        "s1" wiring.settledWorld).calls.length = 4 :=
  have h := update_unchanged_is_noop
    (wiring.newUseCase pcrd_th_repository.demoLib wiring.thAnswering12345
      (pcrd_jp_repository.serverWith []))
    "s1" wiring.settledWorld wiring.settledWorld wiring.settledWorld wiring.settledWorld
    wiring.settledWorld
    ⟨⟨"s1", "th"⟩, ⟨"dev", 1, 7, ""⟩, "10000000"⟩
    ⟨"s1", "s1", "game", "3.4.0", "", "", 0, 0⟩
    ⟨⟨"s1", "th"⟩, "3.4.0", "12345"⟩
    rfl rfl rfl (Or.inl ⟨rfl, rfl⟩)
  ⟨h.1, h.2.2.1⟩

/-- C13: when setting and application info load, the current version is
obtained (loaded, or created for a missing row), the selected strategy returns
without error a version `V` different from the current `resVersion`, and
`Update`, history `Create` and `PublishVersion` succeed, the run returns nil
and its commit steps are exactly one `Update`, then one history `Create`, then
one `PublishVersion`, all three with the same `GameVersion`, whose `resVersion`
is `V`, whose `appVersion` is the application's version and whose setting is
the current one. -/
theorem update_changed_commits_in_order {W : Type} (u : UseCase W) (ID : String)
    (w w1 w2 w3 w4 w5 w6 w7 : W) (s : PCRDSetting) (a : application.Application)
    (cur : GameVersion) (V : String)
    (hs : u.settingRepository.GetSettingByID ID w = ((s, none), w1))
    (ha : u.applicationRepository.GetAndroidAppByID s.Setting.ID w1 = ((a, none), w2))
    (hload : currentVersionObtained u s a w2 cur w3)
    (hstrat : strategyAnswers u s a cur w3 V none w4)
    (hne : cur.ResVersion ≠ V)
    (hupd : u.versionRepository.Update (changedVersion cur a V) w4 = (none, w5))
    (hhist : u.historyRepository.Create (changedVersion cur a V) w5 = (none, w6))
    (hpub : u.versionEventRepository.PublishVersion (changedVersion cur a V) w6 = (none, w7)) :
    (UpdateResourceVersion u ID w).err = none ∧
      (UpdateResourceVersion u ID w).world = w7 ∧
      (UpdateResourceVersion u ID w).calls.filter Call.isCommit =
        [.VersionUpdate (changedVersion cur a V) none,
         .HistoryCreate (changedVersion cur a V) none,
         .PublishVersion (changedVersion cur a V) none] ∧
      (changedVersion cur a V).ResVersion = V ∧
      (changedVersion cur a V).AppVersion = a.Version ∧
      (changedVersion cur a V).Setting = cur.Setting := by
  obtain ⟨h1, h2, h3⟩ := UpdateResourceVersion_changed_path u ID w w1 w2 w3 w4 w5 w6 w7 s a cur V
    none hs ha hload hstrat hne hupd hhist hpub
  exact ⟨h1, h2, h3, rfl, rfl, rfl⟩

set_option maxRecDepth 1000000 in
/-- C13 witness (scenario A): setting "s1" on TH, no row yet, backend answer
"12345". The run creates the row with an empty `resVersion`, updates it to
"12345", writes one history row and publishes one event with "12345". -/
theorem update_changed_commits_in_order_witness :
    (UpdateResourceVersion
        (wiring.newUseCase pcrd_th_repository.demoLib wiring.thAnswering12345
          (pcrd_jp_repository.serverWith []))
        "s1" wiring.freshWorld).calls.filter Call.isCommit =
        [.VersionUpdate ⟨⟨"s1", "th"⟩, "3.4.0", "12345"⟩ none,
         .HistoryCreate ⟨⟨"s1", "th"⟩, "3.4.0", "12345"⟩ none,
         .PublishVersion ⟨⟨"s1", "th"⟩, "3.4.0", "12345"⟩ none] ∧
      (UpdateResourceVersion
        (wiring.newUseCase pcrd_th_repository.demoLib wiring.thAnswering12345
          (pcrd_jp_repository.serverWith []))
        "s1" wiring.freshWorld).calls.filter Call.isVersionCreate =
        [.VersionCreate ⟨⟨"s1", "th"⟩, "3.4.0", ""⟩ none] ∧
      (UpdateResourceVersion
        (wiring.newUseCase pcrd_th_repository.demoLib wiring.thAnswering12345
          (pcrd_jp_repository.serverWith []))
        "s1" wiring.freshWorld).world.versions.docs = [⟨"s1", "th", "3.4.0", "12345", 1, 1⟩] ∧
      (UpdateResourceVersion
        (wiring.newUseCase pcrd_th_repository.demoLib wiring.thAnswering12345
          (pcrd_jp_repository.serverWith []))
        "s1" wiring.freshWorld).world.histories.docs =
        [⟨"s1", "th", "3.4.0", "12345", 1, 1⟩] ∧
      (UpdateResourceVersion
        (wiring.newUseCase pcrd_th_repository.demoLib wiring.thAnswering12345
          (pcrd_jp_repository.serverWith []))
        "s1" wiring.freshWorld).world.topic.messages =
        [("s1", ⟨"s1", "th", "3.4.0", "12345", 1⟩)] := by
  refine ⟨?_, by decide, by decide, by decide, by decide⟩
  exact (update_changed_commits_in_order
    (wiring.newUseCase pcrd_th_repository.demoLib wiring.thAnswering12345
      (pcrd_jp_repository.serverWith []))
    "s1" wiring.freshWorld _ _ _ _ _ _ _
    ⟨⟨"s1", "th"⟩, ⟨"dev", 1, 7, ""⟩, "10000000"⟩
    ⟨"s1", "s1", "game", "3.4.0", "", "", 0, 0⟩
    ⟨⟨"s1", "th"⟩, "3.4.0", ""⟩ "12345"
    rfl rfl (Or.inr ⟨_, _, _, rfl, by decide, rfl, rfl⟩) (Or.inl ⟨rfl, rfl⟩) (by decide)
    rfl rfl rfl).2.2.1

/-- C14 (what the code does): on the path of C13, when `PublishVersion` fails
with `perr` after `Update` and history `Create` succeeded, the run still
returns nil: the value returned by `PublishVersion` is not assigned, and the
`err` tested afterwards is the nil of the history `Create`. The update and the
history record stay (nothing is invoked after `PublishVersion`). -/
theorem update_publish_failure_not_reported {W : Type} (u : UseCase W) (ID : String)
    (w w1 w2 w3 w4 w5 w6 w7 : W) (s : PCRDSetting) (a : application.Application)
    (cur : GameVersion) (V : String) (perr : Err)
    (hs : u.settingRepository.GetSettingByID ID w = ((s, none), w1))
    (ha : u.applicationRepository.GetAndroidAppByID s.Setting.ID w1 = ((a, none), w2))
    (hload : currentVersionObtained u s a w2 cur w3)
    (hstrat : strategyAnswers u s a cur w3 V none w4)
    (hne : cur.ResVersion ≠ V)
    (hupd : u.versionRepository.Update (changedVersion cur a V) w4 = (none, w5))
    (hhist : u.historyRepository.Create (changedVersion cur a V) w5 = (none, w6))
    (hpub : u.versionEventRepository.PublishVersion (changedVersion cur a V) w6 =
      (some perr, w7)) :
    (UpdateResourceVersion u ID w).err = none ∧
      (UpdateResourceVersion u ID w).world = w7 ∧
      (UpdateResourceVersion u ID w).calls.filter Call.isCommit =
        [.VersionUpdate (changedVersion cur a V) none,
         .HistoryCreate (changedVersion cur a V) none,
         .PublishVersion (changedVersion cur a V) (some perr)] :=
  UpdateResourceVersion_changed_path u ID w w1 w2 w3 w4 w5 w6 w7 s a cur V (some perr)
    hs ha hload hstrat hne hupd hhist hpub

set_option maxRecDepth 1000000 in
/-- C14 at a concrete input: setting "s1" on TH, no row yet, backend answer
"12345", and a topic on which `WriteMessages` fails. `PublishVersion` returns
an error wrapping `ErrVersionPublish`, the run returns nil; the row and the
history record hold "12345" and no message is on the topic. -/
theorem update_publish_failure_not_reported_witness :
    (UpdateResourceVersion
        (wiring.newUseCase pcrd_th_repository.demoLib wiring.thAnswering12345
          (pcrd_jp_repository.serverWith []))
        "s1" { wiring.freshWorld with topic := { messages := [], failing := true } }).err =
        none ∧
      (UpdateResourceVersion
        (wiring.newUseCase pcrd_th_repository.demoLib wiring.thAnswering12345
          (pcrd_jp_repository.serverWith []))
        "s1" { wiring.freshWorld with topic := { messages := [], failing := true } }
        ).calls.getLast? =
        some (.PublishVersion ⟨⟨"s1", "th"⟩, "3.4.0", "12345"⟩
          (some (.wrap "error while saving data: " ErrVersionPublish))) ∧
      (UpdateResourceVersion
        (wiring.newUseCase pcrd_th_repository.demoLib wiring.thAnswering12345
          (pcrd_jp_repository.serverWith []))
        "s1" { wiring.freshWorld with topic := { messages := [], failing := true } }
        ).world.versions.docs = [⟨"s1", "th", "3.4.0", "12345", 1, 1⟩] ∧
      (UpdateResourceVersion
        (wiring.newUseCase pcrd_th_repository.demoLib wiring.thAnswering12345
          (pcrd_jp_repository.serverWith []))
        "s1" { wiring.freshWorld with topic := { messages := [], failing := true } }
        ).world.histories.docs = [⟨"s1", "th", "3.4.0", "12345", 1, 1⟩] ∧
      (UpdateResourceVersion
        (wiring.newUseCase pcrd_th_repository.demoLib wiring.thAnswering12345
          (pcrd_jp_repository.serverWith []))
        "s1" { wiring.freshWorld with topic := { messages := [], failing := true } }
        ).world.topic.messages = [] := by
  refine ⟨?_, by decide, by decide, by decide, by decide⟩
  exact (update_publish_failure_not_reported
    (wiring.newUseCase pcrd_th_repository.demoLib wiring.thAnswering12345
      (pcrd_jp_repository.serverWith []))
    "s1" { wiring.freshWorld with topic := { messages := [], failing := true } } _ _ _ _ _ _ _
    ⟨⟨"s1", "th"⟩, ⟨"dev", 1, 7, ""⟩, "10000000"⟩
    ⟨"s1", "s1", "game", "3.4.0", "", "", 0, 0⟩
    ⟨⟨"s1", "th"⟩, "3.4.0", ""⟩ "12345" (.wrap "error while saving data: " ErrVersionPublish)
    rfl rfl (Or.inr ⟨_, _, _, rfl, by decide, rfl, rfl⟩) (Or.inl ⟨rfl, rfl⟩) (by decide)
    rfl rfl rfl).1

end use_case

/-! ## The invocation log after the current version is obtained -/

namespace use_case

open golang

/-- The five ways a run can end once the current version is obtained, with the
invocation log of each. -/
theorem discoverVersion_log {W : Type} (u : UseCase W) (s : PCRDSetting)
    (a : application.Application) (cur : GameVersion) (pre : List Call) (w : W) :
    ∃ sc res e w1, sc.isStrategy = true ∧ sc.strategyError = e ∧
      strategyAnswers u s a cur w res e w1 ∧
      ((∃ err, e = some err ∧
          (discoverVersion u s a cur pre w).err = some err ∧
          (discoverVersion u s a cur pre w).calls = pre ++ [sc]) ∨
        (e = none ∧ sc.strategyResult = some res ∧ cur.ResVersion = res ∧
          (discoverVersion u s a cur pre w).err = none ∧
          (discoverVersion u s a cur pre w).calls = pre ++ [sc]) ∨
        (e = none ∧ sc.strategyResult = some res ∧ cur.ResVersion ≠ res ∧ ∃ ue,
          (discoverVersion u s a cur pre w).err = some ue ∧
          (discoverVersion u s a cur pre w).calls =
            pre ++ [sc, .VersionUpdate (changedVersion cur a res) (some ue)]) ∨
        (e = none ∧ sc.strategyResult = some res ∧ cur.ResVersion ≠ res ∧ ∃ he,
          (discoverVersion u s a cur pre w).err = some he ∧
          (discoverVersion u s a cur pre w).calls =
            pre ++ [sc, .VersionUpdate (changedVersion cur a res) none,
              .HistoryCreate (changedVersion cur a res) (some he)]) ∨
        (e = none ∧ sc.strategyResult = some res ∧ cur.ResVersion ≠ res ∧ ∃ pe,
          (discoverVersion u s a cur pre w).err = none ∧
          (discoverVersion u s a cur pre w).calls =
            pre ++ [sc, .VersionUpdate (changedVersion cur a res) none,
              .HistoryCreate (changedVersion cur a res) none,
              .PublishVersion (changedVersion cur a res) pe])) := by
  obtain ⟨sc, res, e, w1, hsc, hrun⟩ := discoverVersion_cases u s a cur pre w
  have hstrat : sc.isStrategy = true ∧ sc.strategyError = e ∧
      (e = none → sc.strategyResult = some res) ∧ strategyAnswers u s a cur w res e w1 := by
    rcases hsc with ⟨hth, hr, hsc⟩ | ⟨hth, hr, hsc⟩
    · subst hsc
      exact ⟨rfl, rfl, fun h => by subst h; rfl, Or.inl ⟨hth, hr⟩⟩
    · subst hsc
      exact ⟨rfl, rfl, fun h => by subst h; rfl, Or.inr ⟨hth, hr⟩⟩
  refine ⟨sc, res, e, w1, hstrat.1, hstrat.2.1, hstrat.2.2.2, ?_⟩
  rcases hrun with ⟨err, he, hrun⟩ | ⟨he, hrun⟩
  · left
    exact ⟨err, he, by rw [hrun], by rw [hrun]⟩
  · right
    have hres := hstrat.2.2.1 he
    rcases commitVersion_cases u a cur res (pre ++ [sc]) w1 with
      ⟨heq, hc⟩ | ⟨hne, ue, v1, _, hc⟩ | ⟨hne, he2, v1, v2, _, _, hc⟩ |
      ⟨hne, pe, v1, v2, v3, _, _, _, hc⟩
    · left
      exact ⟨he, hres, heq, by rw [hrun, hc], by rw [hrun, hc]⟩
    · right; left
      exact ⟨he, hres, hne, ue, by rw [hrun, hc], by rw [hrun, hc]; simp⟩
    · right; right; left
      exact ⟨he, hres, hne, he2, by rw [hrun, hc], by rw [hrun, hc]; simp⟩
    · right; right; right
      exact ⟨he, hres, hne, pe, by rw [hrun, hc], by rw [hrun, hc]; simp⟩

/-- A strategy invocation is no lookup and no write. -/
theorem Call.of_isStrategy (c : Call) (h : c.isStrategy = true) :
    c.isVersionCreate = false ∧ c.isVersionUpdate = false ∧ c.isHistoryCreate = false ∧
      c.isPublishVersion = false := by
  cases c <;> simp [Call.isStrategy] at h <;> exact ⟨rfl, rfl, rfl, rfl⟩

/-- The calls `discoverVersion` adds to the log hold no version `Create`. -/
theorem discoverVersion_no_create {W : Type} (u : UseCase W) (s : PCRDSetting)
    (a : application.Application) (cur : GameVersion) (pre : List Call) (w : W) :
    (discoverVersion u s a cur pre w).calls.filter Call.isVersionCreate =
      pre.filter Call.isVersionCreate := by
  obtain ⟨sc, res, e, w1, hsc, _, _, h⟩ := discoverVersion_log u s a cur pre w
  have hsc2 := (Call.of_isStrategy sc hsc).1
  have h1 : ∀ g e, Call.isVersionCreate (.VersionUpdate g e) = false := fun _ _ => rfl
  have h2 : ∀ g e, Call.isVersionCreate (.HistoryCreate g e) = false := fun _ _ => rfl
  have h3 : ∀ g e, Call.isVersionCreate (.PublishVersion g e) = false := fun _ _ => rfl
  rcases h with ⟨_, _, _, hc⟩ | ⟨_, _, _, _, hc⟩ | ⟨_, _, _, _, _, hc⟩ | ⟨_, _, _, _, _, hc⟩ |
    ⟨_, _, _, _, _, hc⟩ <;>
  · rw [hc]
    simp [List.filter_append, List.filter_cons, hsc2, h1, h2, h3]

end use_case

namespace use_case

open golang

/-- A run either ends before the current version is obtained, with a log of
lookups and at most a failed `Create`, or goes on in `discoverVersion` with
the current version that the log shows as loaded or created. -/
theorem UpdateResourceVersion_log {W : Type} (u : UseCase W) (ID : String) (w : W) :
    ((∀ c ∈ (UpdateResourceVersion u ID w).calls, c.isStrategy = false ∧ c.isCommit = false) ∧
        ∃ err, (UpdateResourceVersion u ID w).err = some err) ∨
      ∃ s a cur pre w3,
        UpdateResourceVersion u ID w = discoverVersion u s a cur pre w3 ∧
        (∀ c ∈ pre, c.isStrategy = false ∧ c.isCommit = false) ∧
        (∀ id c2, Call.VersionGetByID id c2 none ∈ pre → c2 = cur) ∧
        (∀ c2, Call.VersionCreate c2 none ∈ pre → c2 = cur) := by
  rcases UpdateResourceVersion_cases u ID w with
    ⟨s, e, w1, _, hrun⟩ | ⟨s, w1, a, e, w2, _, _, hrun⟩ |
    ⟨s, w1, a, w2, g, e, w3, _, _, _, _, hrun⟩ |
    ⟨s, w1, a, w2, g, e, w3, e2, w4, _, _, _, _, _, hrun⟩ |
    ⟨s, w1, a, w2, g, e, w3, w4, _, _, _, _, _, hrun⟩ |
    ⟨s, w1, a, w2, cur, w3, _, _, _, hrun⟩
  · left
    rw [hrun]
    refine ⟨?_, e, rfl⟩
    intro c hc
    simp only [List.mem_singleton] at hc
    subst hc
    exact ⟨rfl, rfl⟩
  · left
    rw [hrun]
    refine ⟨?_, e, rfl⟩
    intro c hc
    simp only [List.mem_cons, List.mem_singleton, List.not_mem_nil, or_false] at hc
    rcases hc with hc | hc <;> subst hc <;> exact ⟨rfl, rfl⟩
  · left
    rw [hrun]
    refine ⟨?_, e, rfl⟩
    intro c hc
    simp only [List.mem_cons, List.mem_singleton, List.not_mem_nil, or_false] at hc
    rcases hc with hc | hc | hc <;> subst hc <;> exact ⟨rfl, rfl⟩
  · left
    rw [hrun]
    refine ⟨?_, e2, rfl⟩
    intro c hc
    simp only [List.mem_cons, List.mem_singleton, List.not_mem_nil, or_false] at hc
    rcases hc with hc | hc | hc | hc <;> subst hc <;> exact ⟨rfl, rfl⟩
  · right
    refine ⟨s, a, firstVersion s a, _, w4, hrun, ?_, ?_, ?_⟩
    · intro c hc
      simp only [List.mem_cons, List.mem_singleton, List.not_mem_nil, or_false] at hc
      rcases hc with hc | hc | hc | hc <;> subst hc <;> exact ⟨rfl, rfl⟩
    · intro id c2 hc
      simp at hc
    · intro c2 hc
      simp at hc
      exact hc
  · right
    refine ⟨s, a, cur, _, w3, hrun, ?_, ?_, ?_⟩
    · intro c hc
      simp only [List.mem_cons, List.mem_singleton, List.not_mem_nil, or_false] at hc
      rcases hc with hc | hc | hc <;> subst hc <;> exact ⟨rfl, rfl⟩
    · intro id c2 hc
      simp at hc
      exact hc.2
    · intro c2 hc
      simp at hc

/-- When a version `Update` of a run failed, the run returns its error, the
`Update` is the last invocation, and the log holds no history `Create` and no
`PublishVersion`. -/
theorem UpdateResourceVersion_update_failed {W : Type} (u : UseCase W) (ID : String) (w : W)
    (gv : GameVersion) (err : Err)
    (hc : Call.VersionUpdate gv (some err) ∈ (UpdateResourceVersion u ID w).calls) :
    (UpdateResourceVersion u ID w).err = some err ∧
      (UpdateResourceVersion u ID w).calls.getLast? = some (.VersionUpdate gv (some err)) ∧
      ∀ c ∈ (UpdateResourceVersion u ID w).calls,
        c.isHistoryCreate = false ∧ c.isPublishVersion = false := by
  rcases UpdateResourceVersion_log u ID w with ⟨hno, _⟩ | ⟨s, a, cur, pre, w3, hrun, hpre, _, _⟩
  · have := (hno _ hc).2
    simp [Call.isCommit, Call.isVersionUpdate] at this
  · rw [hrun] at hc ⊢
    have hpre2 : ∀ c ∈ pre, c.isHistoryCreate = false ∧ c.isPublishVersion = false := by
      intro c hcp
      have := (hpre c hcp).2
      simp only [Call.isCommit, Bool.or_eq_false_iff] at this
      exact ⟨this.1.2, this.2⟩
    have hnotpre : Call.VersionUpdate gv (some err) ∉ pre := by
      intro hcp
      have := (hpre _ hcp).2
      simp [Call.isCommit, Call.isVersionUpdate] at this
    obtain ⟨sc, res, e, w1, hsc, _, _, h⟩ := discoverVersion_log u s a cur pre w3
    have hsc2 := Call.of_isStrategy sc hsc
    have hnotsc : Call.VersionUpdate gv (some err) ≠ sc := by
      intro h2
      subst h2
      simp [Call.isStrategy] at hsc
    rcases h with ⟨_, _, _, hcalls⟩ | ⟨_, _, _, _, hcalls⟩ | ⟨_, _, _, ue, herr, hcalls⟩ |
      ⟨_, _, _, he, _, hcalls⟩ | ⟨_, _, _, pe, _, hcalls⟩
    · rw [hcalls] at hc
      simp only [List.mem_append, List.mem_singleton] at hc
      rcases hc with hc | hc
      · exact absurd hc hnotpre
      · exact absurd hc hnotsc
    · rw [hcalls] at hc
      simp only [List.mem_append, List.mem_singleton] at hc
      rcases hc with hc | hc
      · exact absurd hc hnotpre
      · exact absurd hc hnotsc
    · rw [hcalls] at hc ⊢
      simp only [List.mem_append, List.mem_cons, List.mem_singleton, List.not_mem_nil,
        or_false] at hc
      rcases hc with hc | hc | hc
      · exact absurd hc hnotpre
      · exact absurd hc hnotsc
      · simp only [Call.VersionUpdate.injEq, Option.some.injEq] at hc
        obtain ⟨hgv, hue⟩ := hc
        subst hgv hue
        refine ⟨herr, by simp, ?_⟩
        intro c hcc
        simp only [List.mem_append, List.mem_cons, List.mem_singleton, List.not_mem_nil,
          or_false] at hcc
        rcases hcc with hcc | hcc | hcc
        · exact hpre2 c hcc
        · subst hcc; exact ⟨hsc2.2.2.1, hsc2.2.2.2⟩
        · subst hcc; exact ⟨rfl, rfl⟩
    · rw [hcalls] at hc
      simp only [List.mem_append, List.mem_cons, List.mem_singleton, List.not_mem_nil,
        or_false] at hc
      rcases hc with hc | hc | hc | hc
      · exact absurd hc hnotpre
      · exact absurd hc hnotsc
      · simp at hc
      · simp at hc
    · rw [hcalls] at hc
      simp only [List.mem_append, List.mem_cons, List.mem_singleton, List.not_mem_nil,
        or_false] at hc
      rcases hc with hc | hc | hc | hc | hc
      · exact absurd hc hnotpre
      · exact absurd hc hnotsc
      · simp at hc
      · simp at hc
      · simp at hc

/-- C20: when setting and application info load and the version lookup fails
with `e`: if `e` is `ErrVersionNotFound`, the run invokes version `Create`
exactly once, with the setting of the loaded setting, the application's
version and an empty `resVersion`; when that `Create` succeeds the run goes on
with this value as the current version, and when it fails the run returns the
`Create` error with the `Create` as last invocation (no strategy, no further
write). If `e` is any other error the run returns `e` right after the lookup
(no `Create`, no strategy, no write). -/
theorem update_creates_missing_row {W : Type} (u : UseCase W) (ID : String)
    (w w1 w2 w3 w4 : W) (s : PCRDSetting) (a : application.Application) (g : GameVersion)
    (e : Err) (cerr : Option Err)
    (hs : u.settingRepository.GetSettingByID ID w = ((s, none), w1))
    (ha : u.applicationRepository.GetAndroidAppByID s.Setting.ID w1 = ((a, none), w2))
    (hv : u.versionRepository.GetByID s.Setting.ID w2 = ((g, some e), w3))
    (hcreate : u.versionRepository.Create (firstVersion s a) w3 = (cerr, w4)) :
    firstVersion s a = { Setting := s.Setting, AppVersion := a.Version, ResVersion := "" } ∧
      (errorsIs e ErrVersionNotFound = true →
        (UpdateResourceVersion u ID w).calls.filter Call.isVersionCreate =
          [.VersionCreate (firstVersion s a) cerr] ∧
        (cerr = none →
          UpdateResourceVersion u ID w =
            discoverVersion u s a (firstVersion s a)
              [.GetSettingByID ID s none, .GetAndroidAppByID s.Setting.ID a none,
                .VersionGetByID s.Setting.ID g (some e), .VersionCreate (firstVersion s a) none]
              w4) ∧
        (∀ e2, cerr = some e2 →
          (UpdateResourceVersion u ID w).err = some e2 ∧
          (UpdateResourceVersion u ID w).world = w4 ∧
          (UpdateResourceVersion u ID w).calls =
            [.GetSettingByID ID s none, .GetAndroidAppByID s.Setting.ID a none,
              .VersionGetByID s.Setting.ID g (some e),
              .VersionCreate (firstVersion s a) (some e2)])) ∧
      (errorsIs e ErrVersionNotFound = false →
        (UpdateResourceVersion u ID w).err = some e ∧
        (UpdateResourceVersion u ID w).world = w3 ∧
        (UpdateResourceVersion u ID w).calls =
          [.GetSettingByID ID s none, .GetAndroidAppByID s.Setting.ID a none,
            .VersionGetByID s.Setting.ID g (some e)]) := by
  have hcreate2 := hcreate
  simp only [firstVersion] at hcreate2
  refine ⟨rfl, fun hnf => ?_, fun hnf => ?_⟩
  · cases cerr with
    | none =>
      have hrun : UpdateResourceVersion u ID w =
          discoverVersion u s a (firstVersion s a)
            [.GetSettingByID ID s none, .GetAndroidAppByID s.Setting.ID a none,
              .VersionGetByID s.Setting.ID g (some e), .VersionCreate (firstVersion s a) none]
            w4 := by
        simp only [UpdateResourceVersion, hs, ha, hv, hnf, if_true, hcreate2, firstVersion,
          List.singleton_append, List.cons_append, List.nil_append]
      refine ⟨?_, fun _ => hrun, fun e2 h => by simp at h⟩
      rw [hrun, discoverVersion_no_create]
      rfl
    | some e2 =>
      have hrun : UpdateResourceVersion u ID w =
          { err := some e2
            calls := [.GetSettingByID ID s none, .GetAndroidAppByID s.Setting.ID a none,
              .VersionGetByID s.Setting.ID g (some e),
              .VersionCreate (firstVersion s a) (some e2)]
            world := w4 } := by
        simp only [UpdateResourceVersion, hs, ha, hv, hnf, if_true, hcreate2, firstVersion,
          List.singleton_append, List.cons_append, List.nil_append]
      refine ⟨by rw [hrun]; rfl, fun h => by simp at h, fun e3 h => ?_⟩
      simp only [Option.some.injEq] at h
      subst h
      rw [hrun]
      exact ⟨rfl, rfl, rfl⟩
  · have hrun : UpdateResourceVersion u ID w =
        { err := some e
          calls := [.GetSettingByID ID s none, .GetAndroidAppByID s.Setting.ID a none,
            .VersionGetByID s.Setting.ID g (some e)]
          world := w3 } := by
      simp only [UpdateResourceVersion, hs, ha, hv, hnf, List.singleton_append, List.cons_append,
        List.nil_append]
      rfl
    rw [hrun]
    exact ⟨rfl, rfl, rfl⟩

set_option maxRecDepth 1000000 in
/-- C20 witness: setting "s1" with no row and a TH backend answering "12345":
one `Create` with an empty `resVersion`; and a stopped version collection,
whose lookup error is not `ErrVersionNotFound`: no `Create` at all. -/
theorem update_creates_missing_row_witness :
    (UpdateResourceVersion
        (wiring.newUseCase pcrd_th_repository.demoLib wiring.thAnswering12345
          (pcrd_jp_repository.serverWith []))
        "s1" wiring.freshWorld).calls.filter Call.isVersionCreate =
        [.VersionCreate ⟨⟨"s1", "th"⟩, "3.4.0", ""⟩ none] ∧
      (UpdateResourceVersion
        (wiring.newUseCase pcrd_th_repository.demoLib wiring.thAnswering12345
          (pcrd_jp_repository.serverWith []))
        "s1" { wiring.freshWorld with versions := { docs := [], failing := true } }).err =
        some (.wrap "error while retrieving: " ErrRetrivingVersion) :=
  ⟨((update_creates_missing_row
      (wiring.newUseCase pcrd_th_repository.demoLib wiring.thAnswering12345
        (pcrd_jp_repository.serverWith []))
      "s1" wiring.freshWorld _ _ _ _
      ⟨⟨"s1", "th"⟩, ⟨"dev", 1, 7, ""⟩, "10000000"⟩
      ⟨"s1", "s1", "game", "3.4.0", "", "", 0, 0⟩ _ _ _ rfl rfl rfl rfl).2.1 (by decide)).1,
    ((update_creates_missing_row
      (wiring.newUseCase pcrd_th_repository.demoLib wiring.thAnswering12345
        (pcrd_jp_repository.serverWith []))
      "s1" { wiring.freshWorld with versions := { docs := [], failing := true } } _ _ _ _
      ⟨⟨"s1", "th"⟩, ⟨"dev", 1, 7, ""⟩, "10000000"⟩
      ⟨"s1", "s1", "game", "3.4.0", "", "", 0, 0⟩ _ _ _ rfl rfl rfl rfl).2.2 (by decide)).1⟩

end use_case

/-! ## Lemmas on the version store -/

namespace version_repository

open golang use_case

theorem updateOne_no_match (docs : List mongoDBVersion) (id av rv : String) (now : Nat)
    (h : ∀ d ∈ docs, d.ID ≠ id) : updateOne docs id av rv now = (docs, 0) := by
  induction docs with
  | nil => rfl
  | cons d rest ih =>
    have hd : d.ID ≠ id := h d (List.mem_cons_self _ _)
    have hrest := ih (fun x hx => h x (List.mem_cons_of_mem _ hx))
    simp only [updateOne, hd, if_false, hrest]

theorem updateOne_match (docs : List mongoDBVersion) (id av rv : String) (now : Nat)
    (first : mongoDBVersion) (others : List mongoDBVersion)
    (h : docs.filter (fun o => o.ID = id) = first :: others) :
    (updateOne docs id av rv now).2 = 1 ∧
      (updateOne docs id av rv now).1.filter (fun o => o.ID = id) =
        { first with AppVersion := av, ResVersion := rv, UpdateDateTime := now } :: others := by
  induction docs with
  | nil => simp at h
  | cons d rest ih =>
    by_cases hd : d.ID = id
    · simp only [List.filter_cons, hd, decide_True, if_true, List.cons.injEq] at h
      obtain ⟨h1, h2⟩ := h
      subst h1
      simp only [updateOne, hd, if_true, List.filter_cons, decide_True, h2, and_self]
    · simp only [List.filter_cons, hd, decide_False] at h
      have hrec := ih h
      simp only [updateOne, hd, if_false, List.filter_cons, decide_False]
      exact hrec

theorem ParseServerCode_known (code : String) (h : code = "" ∨ code = "th" ∨ code = "jp") :
    setting.ParseServerCode code = (code, none) := by
  rcases h with h | h | h <;> subst h <;> decide

theorem ParseServerCode_ok (code c2 : String)
    (h : setting.ParseServerCode code = (c2, none)) : c2 = code := by
  unfold setting.ParseServerCode at h
  simp only at h
  split at h
  · simp at h
  · simp only [Prod.mk.injEq, and_true] at h
    exact h.symm

/-- What a successful `GetByID` says about the collection: it works, the id is
not empty, and the first document with this id converts to the result. -/
theorem GetByID_ok (col : Collection) (appId : String) (g : GameVersion)
    (h : GetByID col appId = (g, none)) :
    col.failing = false ∧ appId ≠ "" ∧ ∃ first others,
      col.docs.filter (fun o => o.ID = appId) = first :: others ∧
      g = { Setting := { ID := appId, ServerCode := first.ServerCode }
            AppVersion := first.AppVersion, ResVersion := first.ResVersion } ∧
      setting.ParseServerCode first.ServerCode = (first.ServerCode, none) := by
  unfold GetByID at h
  split at h
  · simp at h
  · rename_i hlen
    split at h
    · simp at h
    · rename_i hfail
      have hne : appId ≠ "" := fun h0 => hlen ((len_le_zero_iff appId).mpr h0)
      refine ⟨by simpa using hfail, hne, ?_⟩
      simp only at h
      split at h
      · simp at h
      · rename_i first others hfilter
        have hid : first.ID = appId := by
          have hm : first ∈ col.docs.filter (fun o => o.ID = appId) := by
            rw [hfilter]; exact List.mem_cons_self _ _
          simpa using (List.mem_filter.mp hm).2
        unfold ToUseCaseGameVersion at h
        rcases hp : setting.ParseServerCode first.ServerCode with ⟨code, _ | e⟩
        · rw [hp] at h
          simp only [Prod.mk.injEq, and_true] at h
          have hcode := ParseServerCode_ok _ _ hp
          subst hcode
          exact ⟨first, others, hfilter, by rw [← h, hid], hp⟩
        · rw [hp] at h
          simp at h

/-- `GetByID` on a working collection whose first document with the id has a
known server code. -/
theorem GetByID_of_first (col : Collection) (appId : String) (first : mongoDBVersion)
    (others : List mongoDBVersion) (hop : col.failing = false) (hid : appId ≠ "")
    (hfilter : col.docs.filter (fun o => o.ID = appId) = first :: others)
    (hcode : setting.ParseServerCode first.ServerCode = (first.ServerCode, none)) :
    GetByID col appId =
      ({ Setting := { ID := first.ID, ServerCode := first.ServerCode }
         AppVersion := first.AppVersion, ResVersion := first.ResVersion }, none) := by
  have hlen : ¬ len appId ≤ 0 := fun h => hid ((len_le_zero_iff appId).mp h)
  simp only [GetByID, hlen, if_false, hop, Bool.false_eq_true, hfilter, ToUseCaseGameVersion,
    hcode]

/-- What a lookup error that is `ErrVersionNotFound` says about the collection:
it works, the id is not empty, and no document has this id. -/
theorem GetByID_not_found (col : Collection) (appId : String) (g : GameVersion) (e : Err)
    (h : GetByID col appId = (g, some e)) (hnf : errorsIs e ErrVersionNotFound = true) :
    col.failing = false ∧ appId ≠ "" ∧ col.docs.filter (fun o => o.ID = appId) = [] := by
  unfold GetByID at h
  split at h
  · simp only [Prod.mk.injEq, Option.some.injEq] at h
    rw [← h.2] at hnf
    exact absurd hnf (by decide)
  · rename_i hlen
    have hne : appId ≠ "" := fun h0 => hlen ((len_le_zero_iff appId).mpr h0)
    split at h
    · simp only [Prod.mk.injEq, Option.some.injEq] at h
      rw [← h.2] at hnf
      exact absurd hnf (by decide)
    · rename_i hfail
      refine ⟨by simpa using hfail, hne, ?_⟩
      simp only at h
      split at h
      · assumption
      · exfalso
        split at h
        · simp only [Prod.mk.injEq, Option.some.injEq] at h
          rw [← h.2] at hnf
          exact absurd hnf (by decide)
        · simp at h

end version_repository

/-! ## Claims on the version store -/

namespace version_repository

open golang use_case

/-- C15: on a working version collection, `Update` of a `GameVersion` whose
setting id matches no document returns an error wrapping `ErrVersionNotFound`
and leaves the collection as it was (no document is inserted); and in every
run of `UpdateResourceVersion` in which an `Update` failed, the run returns the
`Update` error, the `Update` is its last invocation, and the run holds no
history `Create` and no `PublishVersion`. -/
theorem update_fails_on_missing_row (col : Collection) (now : Nat) (version : GameVersion)
    (hop : col.failing = false) (hmiss : ∀ d ∈ col.docs, d.ID ≠ version.Setting.ID) :
    (∃ e, Update col now version = (some e, col) ∧ errorsIs e ErrVersionNotFound = true) ∧
      ∀ (W : Type) (u : UseCase W) (ID : String) (w : W) (gv : GameVersion) (err : Err),
        Call.VersionUpdate gv (some err) ∈ (UpdateResourceVersion u ID w).calls →
        (UpdateResourceVersion u ID w).err = some err ∧
        (UpdateResourceVersion u ID w).calls.getLast? = some (.VersionUpdate gv (some err)) ∧
        ∀ c ∈ (UpdateResourceVersion u ID w).calls,
          c.isHistoryCreate = false ∧ c.isPublishVersion = false := by
  constructor
  · obtain ⟨docs, failing⟩ := col
    simp only at hop hmiss
    subst hop
    have hu := updateOne_no_match docs version.Setting.ID version.AppVersion
      version.ResVersion now hmiss
    refine ⟨.wrap ("update version: " ++ Sprintf_s_GameVersion version ++ " not found: ")
      ErrVersionNotFound, ?_, by simp [errorsIs, ErrVersionNotFound]⟩
    simp only [Update, Bool.false_eq_true, if_false, hu, if_true]
  · intro W u ID w gv err hc
    exact UpdateResourceVersion_update_failed u ID w gv err hc

/-- C15 witness: a collection holding the row of "s1" only, and an `Update`
for "s2". -/
theorem update_fails_on_missing_row_witness :
    ∃ e, Update { docs := [⟨"s1", "th", "3.4.0", "12345", 1, 1⟩], failing := false } 2
        ⟨⟨"s2", "jp"⟩, "3.4.0", "10000010"⟩ =
        (some e, { docs := [⟨"s1", "th", "3.4.0", "12345", 1, 1⟩], failing := false }) ∧
      errorsIs e ErrVersionNotFound = true :=
  (update_fails_on_missing_row { docs := [⟨"s1", "th", "3.4.0", "12345", 1, 1⟩], failing := false }
    2 ⟨⟨"s2", "jp"⟩, "3.4.0", "10000010"⟩ rfl (by decide)).1

/-- C16 counterexample: three round trips that do not give the version back.
A server code outside the known ones ("kr") is written but cannot be read
(`ErrRetrivingVersion`); an empty setting id is written but `GetByID` refuses
the empty id (`ErrMissingAppID`); and when the collection already holds a
document with the id, `GetByID` returns that older document. -/
theorem create_then_get_not_identity :
    (Create { docs := [], failing := false } 1 ⟨⟨"s1", "kr"⟩, "3.4.0", "12345"⟩).1 = none ∧
      GetByID (Create { docs := [], failing := false } 1 ⟨⟨"s1", "kr"⟩, "3.4.0", "12345"⟩).2
          "s1" = (zeroGameVersion, some (.wrap "" ErrRetrivingVersion)) ∧
      (Create { docs := [], failing := false } 1 ⟨⟨"", "th"⟩, "3.4.0", "12345"⟩).1 = none ∧
      GetByID (Create { docs := [], failing := false } 1 ⟨⟨"", "th"⟩, "3.4.0", "12345"⟩).2
          "" = (zeroGameVersion, some (.wrap "" ErrMissingAppID)) ∧
      (Create { docs := [⟨"s1", "th", "3.3.0", "12000", 1, 1⟩], failing := false } 2
          ⟨⟨"s1", "th"⟩, "3.4.0", "12345"⟩).1 = none ∧
      GetByID (Create { docs := [⟨"s1", "th", "3.3.0", "12000", 1, 1⟩], failing := false } 2
          ⟨⟨"s1", "th"⟩, "3.4.0", "12345"⟩).2 "s1" = (⟨⟨"s1", "th"⟩, "3.3.0", "12000"⟩, none) := by
  refine ⟨by decide, by decide, by decide, by decide, by decide, by decide⟩

/-- C16 (amended): on a working version collection that holds no document with
the setting id of `v`, for a `GameVersion` `v` with a non-empty setting id and
a server code among "", "th" and "jp", `Create` succeeds and `GetByID` of the
setting id then returns `v` itself: same setting id, server code, `appVersion`
and `resVersion`. -/
theorem create_then_get_round_trip (col : Collection) (now : Nat) (v : GameVersion)
    (hop : col.failing = false) (hid : v.Setting.ID ≠ "")
    (hcode : v.Setting.ServerCode = "" ∨ v.Setting.ServerCode = "th" ∨
      v.Setting.ServerCode = "jp")
    (hnew : ∀ d ∈ col.docs, d.ID ≠ v.Setting.ID) :
    (Create col now v).1 = none ∧
      GetByID (Create col now v).2 v.Setting.ID = (v, none) := by
  have hcreate : Create col now v =
      (none, { col with docs := col.docs ++
        [{ newMongoDBVersion v with CreateDateTime := now, UpdateDateTime := now }] }) := by
    simp only [Create, hop, Bool.false_eq_true, if_false]
  rw [hcreate]
  refine ⟨rfl, ?_⟩
  have hfilter : (col.docs ++
      [{ newMongoDBVersion v with CreateDateTime := now, UpdateDateTime := now }]).filter
        (fun o => o.ID = v.Setting.ID) =
      [{ newMongoDBVersion v with CreateDateTime := now, UpdateDateTime := now }] := by
    have h0 : col.docs.filter (fun o => o.ID = v.Setting.ID) = [] := by
      rw [List.filter_eq_nil_iff]
      intro d hd
      simpa using hnew d hd
    simp [List.filter_append, h0, newMongoDBVersion]
  have h := GetByID_of_first
    { col with docs := col.docs ++
      [{ newMongoDBVersion v with CreateDateTime := now, UpdateDateTime := now }] }
    v.Setting.ID _ [] hop hid hfilter (ParseServerCode_known _ hcode)
  rw [h]
  rfl

/-- C16 witness: the first row of "s1". -/
theorem create_then_get_round_trip_witness :
    GetByID (Create { docs := [], failing := false } 1 ⟨⟨"s1", "th"⟩, "3.4.0", ""⟩).2 "s1" =
      (⟨⟨"s1", "th"⟩, "3.4.0", ""⟩, none) :=
  (create_then_get_round_trip { docs := [], failing := false } 1 ⟨⟨"s1", "th"⟩, "3.4.0", ""⟩
    rfl (by decide) (by decide) (by decide)).2

end version_repository

/-! ## Claims on what a run writes -/

namespace pcrd_th_repository

open golang use_case credential

/-- A version returned without error by the TH strategy is not empty. -/
theorem th_GetResourceVersion_ok_ne_empty (lib : Lib) (r : rest) (c : Credential)
    (v : PcrdVersion) (V : String) (h : GetResourceVersion lib r c v = (V, none)) : V ≠ "" := by
  unfold GetResourceVersion at h
  simp only at h
  split at h
  · simp at h
  · split at h
    · simp at h
    · split at h
      · simp at h
      · rename_i hlen
        simp only [Prod.mk.injEq, and_true] at h
        rw [← h]
        exact fun h0 => hlen ((len_le_zero_iff _).mpr h0)

end pcrd_th_repository

namespace pcrd_jp_repository

open golang use_case

/-- A version returned without error by the JP probe is not empty. -/
theorem jp_GetResourceVersion_ok_ne_empty (r : rest) (startVersion : String)
    (h : (GetResourceVersion r startVersion).err = none) :
    (GetResourceVersion r startVersion).value ≠ "" := by
  cases hp : ParseInt startVersion with
  | none => simp [GetResourceVersion, hp] at h
  | some v0 =>
    rw [GetResourceVersion_parsed r startVersion v0 hp]
    simp only
    split
    · intro h0
      rw [h0] at hp
      have hempty : ParseInt "" = none := by decide
      rw [hempty] at hp
      exact absurd hp (by simp)
    · rename_i hlen
      exact fun h0 => hlen ((len_le_zero_iff _).mpr h0)

end pcrd_jp_repository

namespace use_case

open golang

/-- A version the selected strategy of a wired use case returns without error
is not empty. -/
theorem strategyAnswers_ne_empty {W : Type} (u : UseCase W) (hw : wiredStrategies u)
    (s : PCRDSetting) (a : application.Application) (cur : GameVersion) (w w1 : W)
    (res : String) (h : strategyAnswers u s a cur w res none w1) : res ≠ "" := by
  rcases h with ⟨_, hr⟩ | ⟨_, hr⟩
  · obtain ⟨lib, th, w2, hth⟩ := hw.1 s.Credential
      { AppVersion := a.Version, ResVersion := "" } w
    rw [hth] at hr
    simp only [Prod.mk.injEq] at hr
    exact pcrd_th_repository.th_GetResourceVersion_ok_ne_empty lib th _ _ res hr.1
  · obtain ⟨jp, w2, hjp⟩ := hw.2 (guessVersionOf s cur) w
    rw [hjp] at hr
    simp only [Prod.mk.injEq] at hr
    obtain ⟨⟨hval, herr⟩, _⟩ := hr
    rw [← hval]
    exact pcrd_jp_repository.jp_GetResourceVersion_ok_ne_empty jp _ herr

theorem Call.strategyError_of_not_strategy (c : Call) (h : c.isStrategy = false) :
    c.strategyError = none := by
  cases c <;> simp [Call.isStrategy] at h <;> rfl

/-- C17: in every run of `UpdateResourceVersion` whose two strategies are the
TH and JP strategies of this repository, when version `Update` is invoked with
a `GameVersion`, a strategy invocation of the run returned the `resVersion` of
that `GameVersion` without error (and no strategy invocation of the run
failed), this `resVersion` is not empty, and it differs from the `resVersion`
of the row the run loaded and from the one of the row the run created. -/
theorem update_writes_only_new_nonempty {W : Type} (u : UseCase W) (hw : wiredStrategies u)
    (ID : String) (w : W) (gv : GameVersion) (e : Option Err)
    (hc : Call.VersionUpdate gv e ∈ (UpdateResourceVersion u ID w).calls) :
    (∃ sc ∈ (UpdateResourceVersion u ID w).calls, sc.strategyResult = some gv.ResVersion) ∧
      (∀ c ∈ (UpdateResourceVersion u ID w).calls, c.strategyError = none) ∧
      gv.ResVersion ≠ "" ∧
      (∀ id cur, Call.VersionGetByID id cur none ∈ (UpdateResourceVersion u ID w).calls →
        gv.ResVersion ≠ cur.ResVersion) ∧
      (∀ cur, Call.VersionCreate cur none ∈ (UpdateResourceVersion u ID w).calls →
        gv.ResVersion ≠ cur.ResVersion) := by
  rcases UpdateResourceVersion_log u ID w with
    ⟨hno, _⟩ | ⟨s, a, cur, pre, w3, hrun, hpre, hget, hcreate⟩
  · have := (hno _ hc).2
    simp [Call.isCommit, Call.isVersionUpdate] at this
  · rw [hrun] at hc ⊢
    obtain ⟨sc, res, e0, w1, hsc, hse, hans, h⟩ := discoverVersion_log u s a cur pre w3
    have hnotpre : ∀ g x, Call.VersionUpdate g x ∉ pre := by
      intro g x hcp
      have := (hpre _ hcp).2
      simp [Call.isCommit, Call.isVersionUpdate] at this
    have hnotsc : ∀ g x, Call.VersionUpdate g x ≠ sc := by
      intro g x h2
      subst h2
      simp [Call.isStrategy] at hsc
    have key : ∀ tail : List Call,
        (discoverVersion u s a cur pre w3).calls = pre ++ sc :: tail →
        e0 = none → sc.strategyResult = some res → cur.ResVersion ≠ res →
        (∀ c ∈ tail, c.isStrategy = false ∧ (∀ g x, c = Call.VersionUpdate g x →
          g = changedVersion cur a res) ∧ (∀ id g, c ≠ Call.VersionGetByID id g none) ∧
          (∀ g, c ≠ Call.VersionCreate g none)) →
        (∃ sc ∈ (discoverVersion u s a cur pre w3).calls,
            sc.strategyResult = some gv.ResVersion) ∧
          (∀ c ∈ (discoverVersion u s a cur pre w3).calls, c.strategyError = none) ∧
          gv.ResVersion ≠ "" ∧
          (∀ id cur2, Call.VersionGetByID id cur2 none ∈
            (discoverVersion u s a cur pre w3).calls → gv.ResVersion ≠ cur2.ResVersion) ∧
          (∀ cur2, Call.VersionCreate cur2 none ∈ (discoverVersion u s a cur pre w3).calls →
            gv.ResVersion ≠ cur2.ResVersion) := by
      intro tail hcalls he0 hres hne htail
      rw [hcalls] at hc ⊢
      subst he0
      have hgv : gv.ResVersion = res := by
        simp only [List.mem_append, List.mem_cons] at hc
        rcases hc with hc | hc | hc
        · exact absurd hc (hnotpre _ _)
        · exact absurd hc (hnotsc _ _)
        · have := (htail _ hc).2.1 gv e rfl
          rw [this]
          rfl
      rw [hgv]
      refine ⟨⟨sc, by simp, hres⟩, ?_, strategyAnswers_ne_empty u hw s a cur w3 w1 res hans,
        ?_, ?_⟩
      · intro c hcc
        simp only [List.mem_append, List.mem_cons] at hcc
        rcases hcc with hcc | hcc | hcc
        · exact Call.strategyError_of_not_strategy c (hpre c hcc).1
        · subst hcc; exact hse
        · exact Call.strategyError_of_not_strategy c (htail c hcc).1
      · intro id cur2 hcc
        simp only [List.mem_append, List.mem_cons] at hcc
        rcases hcc with hcc | hcc | hcc
        · rw [hget id cur2 hcc]
          exact fun h0 => hne h0.symm
        · subst hcc
          simp [Call.isStrategy] at hsc
        · exact absurd rfl ((htail _ hcc).2.2.1 id cur2)
      · intro cur2 hcc
        simp only [List.mem_append, List.mem_cons] at hcc
        rcases hcc with hcc | hcc | hcc
        · rw [hcreate cur2 hcc]
          exact fun h0 => hne h0.symm
        · subst hcc
          simp [Call.isStrategy] at hsc
        · exact absurd rfl ((htail _ hcc).2.2.2 cur2)
    rcases h with ⟨_, _, _, hcalls⟩ | ⟨_, _, _, _, hcalls⟩ | ⟨he0, hres, hne, ue, _, hcalls⟩ |
      ⟨he0, hres, hne, he, _, hcalls⟩ | ⟨he0, hres, hne, pe, _, hcalls⟩
    · rw [hcalls] at hc
      simp only [List.mem_append, List.mem_singleton] at hc
      rcases hc with hc | hc
      · exact absurd hc (hnotpre _ _)
      · exact absurd hc (hnotsc _ _)
    · rw [hcalls] at hc
      simp only [List.mem_append, List.mem_singleton] at hc
      rcases hc with hc | hc
      · exact absurd hc (hnotpre _ _)
      · exact absurd hc (hnotsc _ _)
    · refine key _ hcalls he0 hres hne ?_
      intro c hcc
      simp only [List.mem_singleton] at hcc
      subst hcc
      exact ⟨rfl, fun g x h0 => by simp only [Call.VersionUpdate.injEq] at h0; exact h0.1.symm,
        fun _ _ h0 => by simp at h0, fun _ h0 => by simp at h0⟩
    · refine key _ hcalls he0 hres hne ?_
      intro c hcc
      simp only [List.mem_cons, List.mem_singleton, List.not_mem_nil, or_false] at hcc
      rcases hcc with hcc | hcc <;> subst hcc
      · exact ⟨rfl, fun g x h0 => by simp only [Call.VersionUpdate.injEq] at h0; exact h0.1.symm,
          fun _ _ h0 => by simp at h0, fun _ h0 => by simp at h0⟩
      · exact ⟨rfl, fun g x h0 => by simp at h0,
          fun _ _ h0 => by simp at h0, fun _ h0 => by simp at h0⟩
    · refine key _ hcalls he0 hres hne ?_
      intro c hcc
      simp only [List.mem_cons, List.mem_singleton, List.not_mem_nil, or_false] at hcc
      rcases hcc with hcc | hcc | hcc <;> subst hcc
      · exact ⟨rfl, fun g x h0 => by simp only [Call.VersionUpdate.injEq] at h0; exact h0.1.symm,
          fun _ _ h0 => by simp at h0, fun _ h0 => by simp at h0⟩
      · exact ⟨rfl, fun g x h0 => by simp at h0,
          fun _ _ h0 => by simp at h0, fun _ h0 => by simp at h0⟩
      · exact ⟨rfl, fun g x h0 => by simp at h0,
          fun _ _ h0 => by simp at h0, fun _ h0 => by simp at h0⟩

theorem newUseCase_wired (lib : pcrd_th_repository.Lib) (th : pcrd_th_repository.rest)
    (jp : pcrd_jp_repository.rest) : wiredStrategies (wiring.newUseCase lib th jp) :=
  ⟨fun _ _ w => ⟨lib, th, w, rfl⟩, fun _ w => ⟨jp, w, rfl⟩⟩

set_option maxRecDepth 1000000 in
/-- C17 witness: scenario A (setting "s1" on TH, no row yet, backend answer
"12345"): the `Update` writes "12345", which the TH strategy returned. -/
theorem update_writes_only_new_nonempty_witness :
    ∃ sc ∈ (UpdateResourceVersion
        (wiring.newUseCase pcrd_th_repository.demoLib wiring.thAnswering12345
          (pcrd_jp_repository.serverWith []))
        "s1" wiring.freshWorld).calls, sc.strategyResult = some "12345" :=
  (update_writes_only_new_nonempty
    (wiring.newUseCase pcrd_th_repository.demoLib wiring.thAnswering12345
      (pcrd_jp_repository.serverWith []))
    (newUseCase_wired _ _ _) "s1" wiring.freshWorld ⟨⟨"s1", "th"⟩, "3.4.0", "12345"⟩ none
    (by decide)).1

end use_case

/-! ## Two runs on the explicit stores -/

namespace version_repository

open golang use_case

/-- After a successful `Update` for the id, `GetByID` reads the row back with
the written `appVersion` and `resVersion`. -/
theorem GetByID_after_Update (col col2 : Collection) (now : Nat) (appId : String)
    (cur gv : GameVersion) (hget : GetByID col appId = (cur, none))
    (hid : gv.Setting.ID = appId) (hupd : Update col now gv = (none, col2)) :
    GetByID col2 appId =
      ({ cur with AppVersion := gv.AppVersion, ResVersion := gv.ResVersion }, none) := by
  obtain ⟨hop, hne, first, others, hfilter, hcur, hcode⟩ := GetByID_ok col appId cur hget
  obtain ⟨hcount, hfilter2⟩ := updateOne_match col.docs appId gv.AppVersion gv.ResVersion now
    first others hfilter
  have hupd2 : Update col now gv =
      (none, { col with docs := (updateOne col.docs appId gv.AppVersion gv.ResVersion now).1 }) := by
    simp only [Update, hop, Bool.false_eq_true, if_false, hid, hcount, Nat.one_ne_zero]
  rw [hupd2] at hupd
  simp only [Prod.mk.injEq, true_and] at hupd
  subst hupd
  have h := GetByID_of_first
    { col with docs := (updateOne col.docs appId gv.AppVersion gv.ResVersion now).1 } appId
    { first with AppVersion := gv.AppVersion, ResVersion := gv.ResVersion, UpdateDateTime := now }
    others hop hne hfilter2 hcode
  rw [h, hcur]
  have hfid : first.ID = appId := by
    have hm : first ∈ col.docs.filter (fun o => o.ID = appId) := by
      rw [hfilter]; exact List.mem_cons_self _ _
    simpa using (List.mem_filter.mp hm).2
  simp only [hfid]

/-- After a successful `Create` of the first row of an id, `GetByID` reads that
row back. -/
theorem GetByID_after_Create (col col2 : Collection) (now : Nat) (gv g : GameVersion) (e : Err)
    (hget : GetByID col gv.Setting.ID = (g, some e))
    (hnf : errorsIs e ErrVersionNotFound = true)
    (hcode : gv.Setting.ServerCode = "" ∨ gv.Setting.ServerCode = "th" ∨
      gv.Setting.ServerCode = "jp")
    (hcreate : Create col now gv = (none, col2)) :
    GetByID col2 gv.Setting.ID = (gv, none) := by
  obtain ⟨hop, hne, hfilter⟩ := GetByID_not_found col gv.Setting.ID g e hget hnf
  have hcreate2 : Create col now gv =
      (none, { col with docs := col.docs ++
        [{ newMongoDBVersion gv with CreateDateTime := now, UpdateDateTime := now }] }) := by
    simp only [Create, hop, Bool.false_eq_true, if_false]
  rw [hcreate2] at hcreate
  simp only [Prod.mk.injEq, true_and] at hcreate
  subst hcreate
  have hfilter2 : (col.docs ++
      [{ newMongoDBVersion gv with CreateDateTime := now, UpdateDateTime := now }]).filter
        (fun o => o.ID = gv.Setting.ID) =
      [{ newMongoDBVersion gv with CreateDateTime := now, UpdateDateTime := now }] := by
    simp [List.filter_append, hfilter, newMongoDBVersion]
  have h := GetByID_of_first
    { col with docs := col.docs ++
      [{ newMongoDBVersion gv with CreateDateTime := now, UpdateDateTime := now }] }
    gv.Setting.ID _ [] hop hne hfilter2 (ParseServerCode_known _ hcode)
  rw [h]
  rfl

end version_repository

namespace use_case

open golang

/-- The path of an unchanged version, for any collaborators. -/
theorem UpdateResourceVersion_unchanged_path {W : Type} (u : UseCase W) (ID : String)
    (w w1 w2 w3 w4 : W) (s : PCRDSetting) (a : application.Application) (cur : GameVersion)
    (hs : u.settingRepository.GetSettingByID ID w = ((s, none), w1))
    (ha : u.applicationRepository.GetAndroidAppByID s.Setting.ID w1 = ((a, none), w2))
    (hv : u.versionRepository.GetByID s.Setting.ID w2 = ((cur, none), w3))
    (hstrat : strategyAnswers u s a cur w3 cur.ResVersion none w4) :
    (UpdateResourceVersion u ID w).err = none ∧
      (UpdateResourceVersion u ID w).world = w4 ∧
      ∀ c ∈ (UpdateResourceVersion u ID w).calls, c.isWrite = false := by
  obtain ⟨sc, hsc, _, _, hdisc⟩ := discoverVersion_of_answer u s a cur
    [.GetSettingByID ID s none, .GetAndroidAppByID s.Setting.ID a none,
      .VersionGetByID s.Setting.ID cur none] w3 w4 cur.ResVersion hstrat
  have hrun : UpdateResourceVersion u ID w =
      { err := none
        calls := [.GetSettingByID ID s none, .GetAndroidAppByID s.Setting.ID a none,
          .VersionGetByID s.Setting.ID cur none, sc]
        world := w4 } := by
    simp only [UpdateResourceVersion, hs, ha, hv, List.singleton_append, List.cons_append,
      List.nil_append]
    rw [hdisc]
    simp only [commitVersion, if_true, List.cons_append, List.nil_append]
  rw [hrun]
  refine ⟨rfl, rfl, ?_⟩
  intro c hc
  simp only [List.mem_cons, List.mem_singleton, List.not_mem_nil, or_false] at hc
  rcases hc with hc | hc | hc | hc <;> subst hc
  · rfl
  · rfl
  · rfl
  · exact hsc

/-- On the explicit stores, a `commitVersion` that returns nil leaves a row of
the id that reads back with the discovered version, and touches neither the
settings nor the application service. -/
theorem commitVersion_settles (lib : pcrd_th_repository.Lib) (th : pcrd_th_repository.rest)
    (jp : pcrd_jp_repository.rest) (a : application.Application) (cur : GameVersion)
    (V : String) (calls : List Call) (w : wiring.World) (appId : String)
    (hget : version_repository.GetByID w.versions appId = (cur, none))
    (herr : (commitVersion (wiring.newUseCase lib th jp) a cur V calls w).err = none) :
    (∃ g, version_repository.GetByID
        (commitVersion (wiring.newUseCase lib th jp) a cur V calls w).world.versions appId =
          (g, none) ∧ g.ResVersion = V) ∧
      (commitVersion (wiring.newUseCase lib th jp) a cur V calls w).world.settings = w.settings ∧
      (commitVersion (wiring.newUseCase lib th jp) a cur V calls w).world.applications =
        w.applications := by
  have hcid : cur.Setting.ID = appId := by
    obtain ⟨_, _, first, others, _, hcur, _⟩ := version_repository.GetByID_ok _ _ _ hget
    rw [hcur]
  rcases commitVersion_cases (wiring.newUseCase lib th jp) a cur V calls w with
    ⟨heq, hc⟩ | ⟨_, e, v1, _, hc⟩ | ⟨_, e, v1, v2, _, _, hc⟩ |
    ⟨_, pe, v1, v2, v3, hu, hh, hp, hc⟩
  · rw [hc]
    exact ⟨⟨cur, hget, heq⟩, rfl, rfl⟩
  · rw [hc] at herr; simp at herr
  · rw [hc] at herr; simp at herr
  · rw [hc]
    simp only [wiring.newUseCase, Prod.mk.injEq] at hu hh hp
    obtain ⟨hu1, hu2⟩ := hu
    obtain ⟨_, hh2⟩ := hh
    obtain ⟨_, hp2⟩ := hp
    subst hu2 hh2 hp2
    have hread := version_repository.GetByID_after_Update w.versions
      (version_repository.Update w.versions w.now (changedVersion cur a V)).2 w.now appId cur
      (changedVersion cur a V) hget hcid (by rw [← hu1])
    exact ⟨⟨_, hread, rfl⟩, rfl, rfl⟩

end use_case

namespace use_case

open golang

/-- On the explicit stores, a TH run that goes on from a readable current row
and returns nil leaves a row that reads back with the answered version. -/
theorem discoverVersion_settles (lib : pcrd_th_repository.Lib) (th : pcrd_th_repository.rest)
    (jp : pcrd_jp_repository.rest) (s : PCRDSetting) (a : application.Application)
    (cur : GameVersion) (V : String) (pre : List Call) (w : wiring.World)
    (hth : s.Setting.ServerCode = setting.ServerCodeTH)
    (hV : pcrd_th_repository.GetResourceVersion lib th s.Credential
      { AppVersion := a.Version, ResVersion := "" } = (V, none))
    (hget : version_repository.GetByID w.versions s.Setting.ID = (cur, none))
    (herr : (discoverVersion (wiring.newUseCase lib th jp) s a cur pre w).err = none) :
    (∃ g, version_repository.GetByID
        (discoverVersion (wiring.newUseCase lib th jp) s a cur pre w).world.versions
          s.Setting.ID = (g, none) ∧ g.ResVersion = V) ∧
      (discoverVersion (wiring.newUseCase lib th jp) s a cur pre w).world.settings =
        w.settings ∧
      (discoverVersion (wiring.newUseCase lib th jp) s a cur pre w).world.applications =
        w.applications := by
  have hstrat : strategyAnswers (wiring.newUseCase lib th jp) s a cur w V none w :=
    Or.inl ⟨hth, by simp only [wiring.newUseCase, hV]⟩
  obtain ⟨sc, _, _, _, hdisc⟩ :=
    discoverVersion_of_answer (wiring.newUseCase lib th jp) s a cur pre w w V hstrat
  rw [hdisc] at herr ⊢
  exact commitVersion_settles lib th jp a cur V (pre ++ [sc]) w s.Setting.ID hget herr

/-- On the explicit stores, a TH run that returns nil with the backend
answering `V` leaves a row of the setting that reads back with `resVersion`
`V`; the application lookup of the run succeeded, and the settings and the
application service are as before. -/
theorem first_run_settles (lib : pcrd_th_repository.Lib) (th : pcrd_th_repository.rest)
    (jp : pcrd_jp_repository.rest) (ID : String) (w : wiring.World) (s : PCRDSetting)
    (V : String)
    (hs : setting_repository.GetSettingByID w.settings ID = (s, none))
    (hth : s.Setting.ServerCode = setting.ServerCodeTH)
    (hV : pcrd_th_repository.GetResourceVersion lib th s.Credential
      { AppVersion := (w.applications s.Setting.ID).1.Version, ResVersion := "" } = (V, none))
    (hrun : (UpdateResourceVersion (wiring.newUseCase lib th jp) ID w).err = none) :
    (∃ g, version_repository.GetByID
        (UpdateResourceVersion (wiring.newUseCase lib th jp) ID w).world.versions
          s.Setting.ID = (g, none) ∧ g.ResVersion = V) ∧
      (UpdateResourceVersion (wiring.newUseCase lib th jp) ID w).world.settings = w.settings ∧
      (UpdateResourceVersion (wiring.newUseCase lib th jp) ID w).world.applications =
        w.applications ∧
      (w.applications s.Setting.ID).2 = none := by
  have hS : ∀ s2 e2 w2, (wiring.newUseCase lib th jp).settingRepository.GetSettingByID ID w =
      ((s2, e2), w2) → s = s2 ∧ e2 = none ∧ w = w2 := by
    intro s2 e2 w2 h
    simp only [wiring.newUseCase, hs, Prod.mk.injEq] at h
    exact ⟨h.1.1, h.1.2.symm, h.2⟩
  have hA : ∀ a2 e2 w2,
      (wiring.newUseCase lib th jp).applicationRepository.GetAndroidAppByID s.Setting.ID w =
        ((a2, e2), w2) → w.applications s.Setting.ID = (a2, e2) ∧ w = w2 := by
    intro a2 e2 w2 h
    simp only [wiring.newUseCase, Prod.mk.injEq] at h
    exact ⟨h.1, h.2⟩
  have hG : ∀ g2 e2 w2,
      (wiring.newUseCase lib th jp).versionRepository.GetByID s.Setting.ID w = ((g2, e2), w2) →
        version_repository.GetByID w.versions s.Setting.ID = (g2, e2) ∧ w = w2 := by
    intro g2 e2 w2 h
    simp only [wiring.newUseCase, Prod.mk.injEq] at h
    exact ⟨h.1, h.2⟩
  rcases UpdateResourceVersion_cases (wiring.newUseCase lib th jp) ID w with
    ⟨s2, e, w1, h1, hr⟩ | ⟨s2, w1, a, e, w2, h1, _, hr⟩ |
    ⟨s2, w1, a, w2, g, e, w3, h1, _, _, _, hr⟩ |
    ⟨s2, w1, a, w2, g, e, w3, e2, w4, h1, _, _, _, _, hr⟩ |
    ⟨s2, w1, a, w2, g, e, w3, w4, h1, h2, h3, hnf, hcr, hr⟩ |
    ⟨s2, w1, a, w2, cur, w3, h1, h2, h3, hr⟩
  · rw [hr] at hrun; simp at hrun
  · rw [hr] at hrun; simp at hrun
  · rw [hr] at hrun; simp at hrun
  · rw [hr] at hrun; simp at hrun
  · obtain ⟨hs2, _, hw1⟩ := hS s2 none w1 h1
    subst hs2 hw1
    obtain ⟨ha, hw2⟩ := hA a none w2 h2
    subst hw2
    obtain ⟨hg, hw3⟩ := hG g (some e) w3 h3
    subst hw3
    simp only [wiring.newUseCase, Prod.mk.injEq] at hcr
    obtain ⟨hcr1, hcr2⟩ := hcr
    subst hcr2
    rw [ha] at hV
    simp only at hV
    have hread := version_repository.GetByID_after_Create w.versions
      (version_repository.Create w.versions w.now (firstVersion s a)).2 w.now
      (firstVersion s a) g e hg hnf (Or.inr (Or.inl hth)) (by rw [← hcr1])
    rw [hr] at hrun ⊢
    obtain ⟨hgot, hset, happ⟩ := discoverVersion_settles lib th jp s a (firstVersion s a) V _
      { w with versions := (version_repository.Create w.versions w.now (firstVersion s a)).2 }
      hth hV hread hrun
    exact ⟨hgot, hset, happ, by rw [ha]⟩
  · obtain ⟨hs2, _, hw1⟩ := hS s2 none w1 h1
    subst hs2 hw1
    obtain ⟨ha, hw2⟩ := hA a none w2 h2
    subst hw2
    obtain ⟨hg, hw3⟩ := hG cur none w3 h3
    subst hw3
    rw [ha] at hV
    simp only at hV
    rw [hr] at hrun ⊢
    obtain ⟨hgot, hset, happ⟩ := discoverVersion_settles lib th jp s a cur V _ w hth hV hg hrun
    exact ⟨hgot, hset, happ, by rw [ha]⟩

/-- C12: on the explicit stores, when a first run for a TH setting returns nil
with the TH backend answering `V`, a second run against the state the first
run left, with the backend answering `V` again, returns nil, leaves the
`versions` collection, the `histories` collection and the event topic as they
were, and makes no write invocation (no version `Create` or `Update`, no
history `Create`, no `PublishVersion`). -/
theorem th_second_run_is_noop (lib lib2 : pcrd_th_repository.Lib)
    (th th2 : pcrd_th_repository.rest) (jp jp2 : pcrd_jp_repository.rest) (ID : String)
    (w : wiring.World) (s : PCRDSetting) (V : String)
    (hs : setting_repository.GetSettingByID w.settings ID = (s, none))
    (hth : s.Setting.ServerCode = setting.ServerCodeTH)
    (hV : pcrd_th_repository.GetResourceVersion lib th s.Credential
      { AppVersion := (w.applications s.Setting.ID).1.Version, ResVersion := "" } = (V, none))
    (hrun : (UpdateResourceVersion (wiring.newUseCase lib th jp) ID w).err = none)
    (hV2 : pcrd_th_repository.GetResourceVersion lib2 th2 s.Credential
      { AppVersion := (w.applications s.Setting.ID).1.Version, ResVersion := "" } = (V, none)) :
    (UpdateResourceVersion (wiring.newUseCase lib2 th2 jp2) ID
        (UpdateResourceVersion (wiring.newUseCase lib th jp) ID w).world).err = none ∧
      (UpdateResourceVersion (wiring.newUseCase lib2 th2 jp2) ID
        (UpdateResourceVersion (wiring.newUseCase lib th jp) ID w).world).world.versions =
        (UpdateResourceVersion (wiring.newUseCase lib th jp) ID w).world.versions ∧
      (UpdateResourceVersion (wiring.newUseCase lib2 th2 jp2) ID
        (UpdateResourceVersion (wiring.newUseCase lib th jp) ID w).world).world.histories =
        (UpdateResourceVersion (wiring.newUseCase lib th jp) ID w).world.histories ∧
      (UpdateResourceVersion (wiring.newUseCase lib2 th2 jp2) ID
        (UpdateResourceVersion (wiring.newUseCase lib th jp) ID w).world).world.topic =
        (UpdateResourceVersion (wiring.newUseCase lib th jp) ID w).world.topic ∧
      ∀ c ∈ (UpdateResourceVersion (wiring.newUseCase lib2 th2 jp2) ID
        (UpdateResourceVersion (wiring.newUseCase lib th jp) ID w).world).calls,
        c.isWrite = false := by
  obtain ⟨⟨g, hget, hgV⟩, hset, happ, haok⟩ := first_run_settles lib th jp ID w s V hs hth hV hrun
  generalize (UpdateResourceVersion (wiring.newUseCase lib th jp) ID w).world = w1 at *
  have h := UpdateResourceVersion_unchanged_path (wiring.newUseCase lib2 th2 jp2) ID w1 w1 w1 w1 w1
    s (w.applications s.Setting.ID).1 g
    (by simp only [wiring.newUseCase, hset, hs])
    (by
      simp only [wiring.newUseCase, happ, Prod.mk.injEq, and_true]
      exact Prod.ext rfl haok)
    (by simp only [wiring.newUseCase, hget])
    (Or.inl ⟨hth, by simp only [wiring.newUseCase, hV2, hgV]⟩)
  obtain ⟨h1, h2, h3⟩ := h
  rw [h2]
  exact ⟨h1, rfl, rfl, rfl, h3⟩

set_option maxRecDepth 1000000 in
/-- C12 witness (scenario B): setting "s1", V = "12345". After the first run on
the fresh world the second run returns nil and the stores still hold the one
row, the one history record and the one event of the first run. -/
theorem th_second_run_is_noop_witness :
    (UpdateResourceVersion
        (wiring.newUseCase pcrd_th_repository.demoLib wiring.thAnswering12345
          (pcrd_jp_repository.serverWith []))
        "s1"
        (UpdateResourceVersion
          (wiring.newUseCase pcrd_th_repository.demoLib wiring.thAnswering12345
            (pcrd_jp_repository.serverWith []))
          "s1" wiring.freshWorld).world).err = none ∧
      (UpdateResourceVersion
        (wiring.newUseCase pcrd_th_repository.demoLib wiring.thAnswering12345
          (pcrd_jp_repository.serverWith []))
        "s1"
        (UpdateResourceVersion
          (wiring.newUseCase pcrd_th_repository.demoLib wiring.thAnswering12345
            (pcrd_jp_repository.serverWith []))
          "s1" wiring.freshWorld).world).world.versions.docs =
        [⟨"s1", "th", "3.4.0", "12345", 1, 1⟩] ∧
      (UpdateResourceVersion
        (wiring.newUseCase pcrd_th_repository.demoLib wiring.thAnswering12345
          (pcrd_jp_repository.serverWith []))
        "s1"
        (UpdateResourceVersion
          (wiring.newUseCase pcrd_th_repository.demoLib wiring.thAnswering12345
            (pcrd_jp_repository.serverWith []))
          "s1" wiring.freshWorld).world).world.histories.docs.length = 1 ∧
      (UpdateResourceVersion
        (wiring.newUseCase pcrd_th_repository.demoLib wiring.thAnswering12345
          (pcrd_jp_repository.serverWith []))
        "s1"
        (UpdateResourceVersion
          (wiring.newUseCase pcrd_th_repository.demoLib wiring.thAnswering12345
            (pcrd_jp_repository.serverWith []))
          "s1" wiring.freshWorld).world).world.topic.messages.length = 1 := by
  have h := th_second_run_is_noop pcrd_th_repository.demoLib pcrd_th_repository.demoLib
    wiring.thAnswering12345 wiring.thAnswering12345 (pcrd_jp_repository.serverWith [])
    (pcrd_jp_repository.serverWith []) "s1" wiring.freshWorld
    ⟨⟨"s1", "th"⟩, ⟨"dev", 1, 7, ""⟩, "10000000"⟩ "12345" rfl rfl (by decide) (by decide)
    (by decide)
  obtain ⟨h1, h2, h3, h4, _⟩ := h
  refine ⟨h1, ?_, ?_, ?_⟩
  · rw [h2]; decide
  · rw [h3]; decide
  · rw [h4]; decide

end use_case

/-! ## Claims on the strategy dispatch -/

namespace use_case

open golang

end use_case

/-! ## Claims on the first JP run -/

namespace pcrd_jp_repository

open golang use_case

/-- With a parseable start and no candidate reported as existing, the probe
returns the start string and a nil error. -/
theorem GetResourceVersion_nothing_found (r : rest) (startVersion : String) (v0 : Int)
    (hparse : ParseInt startVersion = some v0)
    (hnone : ∀ i, 1 ≤ i → i ≤ 19 → call r (candidate v0 i) ≠ (true, none)) :
    (GetResourceVersion r startVersion).value = startVersion ∧
      (GetResourceVersion r startVersion).err = none := by
  rw [GetResourceVersion_parsed r startVersion v0 hparse]
  rcases loopAfter_newVersion r v0 19 with ⟨_, hnv⟩ | ⟨i, hi1, hi19, hex, _, _⟩
  · have hle : len (loopAfter r v0 19).newVersion ≤ 0 := by
      rw [len_le_zero_iff, hnv]
    exact ⟨by simp only [hle, if_true], rfl⟩
  · exact absurd hex (hnone i hi1 hi19)

end pcrd_jp_repository

namespace use_case

open golang

/-- C22: in a run for a setting whose server code is not `th`, whose current
row (loaded, or just created) has an empty `resVersion` and whose guess-start
version `g` parses as an integer, when the JP strategy is this repository's
probe and no probed candidate reports "exists": the probe returns `g` with a
nil error, `g` is not empty, the run invokes version `Update` with
`resVersion = g`, and when `Update` and history `Create` succeed the run
returns nil after `Update`, history `Create` and `PublishVersion`, all three
carrying `resVersion = g`. -/
theorem jp_first_run_announces_guess {W : Type} (u : UseCase W) (ID : String)
    (w w1 w2 w3 w4 : W) (s : PCRDSetting) (a : application.Application) (cur : GameVersion)
    (jp : pcrd_jp_repository.rest) (v0 : Int)
    (hs : u.settingRepository.GetSettingByID ID w = ((s, none), w1))
    (ha : u.applicationRepository.GetAndroidAppByID s.Setting.ID w1 = ((a, none), w2))
    (hload : currentVersionObtained u s a w2 cur w3)
    (hnth : s.Setting.ServerCode ≠ setting.ServerCodeTH)
    (hempty : cur.ResVersion = "")
    (hparse : ParseInt s.GuessStartVersion = some v0)
    (hjp : u.pcrdJPRepository.GetResourceVersion s.GuessStartVersion w3 =
      (((pcrd_jp_repository.GetResourceVersion jp s.GuessStartVersion).value,
        (pcrd_jp_repository.GetResourceVersion jp s.GuessStartVersion).err), w4))
    (hnone : ∀ i, 1 ≤ i → i ≤ 19 →
      pcrd_jp_repository.call jp (pcrd_jp_repository.candidate v0 i) ≠ (true, none)) :
    (pcrd_jp_repository.GetResourceVersion jp s.GuessStartVersion).value =
        s.GuessStartVersion ∧
      (pcrd_jp_repository.GetResourceVersion jp s.GuessStartVersion).err = none ∧
      s.GuessStartVersion ≠ "" ∧
      (changedVersion cur a s.GuessStartVersion).ResVersion = s.GuessStartVersion ∧
      (∃ ue, Call.VersionUpdate (changedVersion cur a s.GuessStartVersion) ue ∈
        (UpdateResourceVersion u ID w).calls) ∧
      (∀ w5 w6 w7 pe,
        u.versionRepository.Update (changedVersion cur a s.GuessStartVersion) w4 = (none, w5) →
        u.historyRepository.Create (changedVersion cur a s.GuessStartVersion) w5 = (none, w6) →
        u.versionEventRepository.PublishVersion (changedVersion cur a s.GuessStartVersion) w6 =
          (pe, w7) →
        (UpdateResourceVersion u ID w).err = none ∧
        (UpdateResourceVersion u ID w).world = w7 ∧
        (UpdateResourceVersion u ID w).calls.filter Call.isCommit =
          [.VersionUpdate (changedVersion cur a s.GuessStartVersion) none,
           .HistoryCreate (changedVersion cur a s.GuessStartVersion) none,
           .PublishVersion (changedVersion cur a s.GuessStartVersion) pe]) := by
  obtain ⟨hval, herr⟩ :=
    pcrd_jp_repository.GetResourceVersion_nothing_found jp s.GuessStartVersion v0 hparse hnone
  have hg : s.GuessStartVersion ≠ "" := by
    intro h0
    rw [h0] at hparse
    have hempty2 : ParseInt "" = none := by decide
    rw [hempty2] at hparse
    exact absurd hparse (by simp)
  have hguess : guessVersionOf s cur = s.GuessStartVersion := by
    unfold guessVersionOf
    rw [if_pos ((len_le_zero_iff _).mpr hempty)]
  have hstrat : strategyAnswers u s a cur w3 s.GuessStartVersion none w4 := by
    refine Or.inr ⟨hnth, ?_⟩
    rw [hguess, hjp, hval, herr]
  have hne : cur.ResVersion ≠ s.GuessStartVersion := by
    rw [hempty]
    exact fun h0 => hg h0.symm
  refine ⟨hval, herr, hg, rfl, ?_, ?_⟩
  · obtain ⟨pre, _, hrun⟩ := UpdateResourceVersion_of_obtained u ID w w1 w2 w3 s a cur hs ha hload
    obtain ⟨sc, _, _, _, hdisc⟩ :=
      discoverVersion_of_answer u s a cur pre w3 w4 s.GuessStartVersion hstrat
    rw [hrun, hdisc]
    rcases commitVersion_cases u a cur s.GuessStartVersion (pre ++ [sc]) w4 with
      ⟨heq, _⟩ | ⟨_, ue, v1, _, hc⟩ | ⟨_, he, v1, v2, _, _, hc⟩ |
      ⟨_, pe, v1, v2, v3, _, _, _, hc⟩
    · exact absurd heq hne
    · exact ⟨some ue, by rw [hc]; simp⟩
    · exact ⟨none, by rw [hc]; simp⟩
    · exact ⟨none, by rw [hc]; simp⟩
  · intro w5 w6 w7 pe hupd hhist hpub
    exact UpdateResourceVersion_changed_path u ID w w1 w2 w3 w4 w5 w6 w7 s a cur
      s.GuessStartVersion pe hs ha hload hstrat hne hupd hhist hpub

set_option maxRecDepth 1000000 in
/-- C22 witness: setting "s2" on JP with guess-start "10000000", no row yet,
and a server on which no version exists. The run creates the row, updates it
to "10000000", writes one history record and publishes one event with
"10000000". -/
theorem jp_first_run_announces_guess_witness :
    (UpdateResourceVersion
        (wiring.newUseCase pcrd_th_repository.demoLib wiring.thAnswering12345
          (pcrd_jp_repository.serverWith []))
        "s2" wiring.freshWorldJP).calls.filter Call.isCommit =
        [.VersionUpdate ⟨⟨"s2", "jp"⟩, "3.4.0", "10000000"⟩ none,
         .HistoryCreate ⟨⟨"s2", "jp"⟩, "3.4.0", "10000000"⟩ none,
         .PublishVersion ⟨⟨"s2", "jp"⟩, "3.4.0", "10000000"⟩ none] ∧
      (UpdateResourceVersion
        (wiring.newUseCase pcrd_th_repository.demoLib wiring.thAnswering12345
          (pcrd_jp_repository.serverWith []))
        "s2" wiring.freshWorldJP).world.versions.docs =
        [⟨"s2", "jp", "3.4.0", "10000000", 1, 1⟩] ∧
      (UpdateResourceVersion
        (wiring.newUseCase pcrd_th_repository.demoLib wiring.thAnswering12345
          (pcrd_jp_repository.serverWith []))
        "s2" wiring.freshWorldJP).world.topic.messages =
        [("s2", ⟨"s2", "jp", "3.4.0", "10000000", 1⟩)] := by
  refine ⟨?_, by decide, by decide⟩
  exact ((jp_first_run_announces_guess
    (wiring.newUseCase pcrd_th_repository.demoLib wiring.thAnswering12345
      (pcrd_jp_repository.serverWith []))
    "s2" wiring.freshWorldJP _ _ _ _
    ⟨⟨"s2", "jp"⟩, ⟨"dev", 1, 7, ""⟩, "10000000"⟩
    ⟨"s2", "s2", "game", "3.4.0", "", "", 0, 0⟩
    ⟨⟨"s2", "jp"⟩, "3.4.0", ""⟩ (pcrd_jp_repository.serverWith []) 10000000
    rfl rfl (Or.inr ⟨_, _, _, rfl, by decide, rfl, rfl⟩) (by decide) rfl (by decide) rfl
    (fun i _ _ => by simp [pcrd_jp_repository.call, pcrd_jp_repository.serverWith])).2.2.2.2.2
    _ _ _ none rfl rfl rfl).2.2

end use_case

/-! ## Claims on a failed history write -/

namespace history_repository

open golang use_case

/-- A history `Create` that returns an error leaves the collection as it was. -/
theorem Create_failed (col col2 : version_repository.Collection) (now : Nat)
    (version : GameVersion) (e : Err) (h : Create col now version = (some e, col2)) :
    col2 = col := by
  unfold Create at h
  simp only at h
  split at h
  · simp only [Prod.mk.injEq] at h
    exact h.2.symm
  · simp at h

end history_repository

namespace setting_repository

open golang use_case

/-- The server code of a setting returned by `GetSettingByID` is a known one. -/
theorem GetSettingByID_ok_code (col : Option (List mongoDBSetting)) (ID : String)
    (s : PCRDSetting) (h : GetSettingByID col ID = (s, none)) :
    s.Setting.ServerCode = "" ∨ s.Setting.ServerCode = "th" ∨ s.Setting.ServerCode = "jp" := by
  unfold GetSettingByID at h
  split at h
  · simp at h
  · simp only at h
    split at h
    · simp at h
    · rename_i first others _
      unfold toUsecasePCRDSetting at h
      rcases hp : setting.ParseServerCode first.ServerCode with ⟨code, _ | e⟩
      · rw [hp] at h
        simp only [Prod.mk.injEq, and_true] at h
        rw [← h]
        simp only
        unfold setting.ParseServerCode at hp
        simp only at hp
        split at hp
        · simp at hp
        · rename_i hmem
          simp only [Prod.mk.injEq, and_true] at hp
          rw [← hp]
          have hm : first.ServerCode = "" ∨ first.ServerCode = "th" ∨
              first.ServerCode = "jp" := by
            by_cases h1 : first.ServerCode = ""
            · exact Or.inl h1
            · by_cases h2 : first.ServerCode = "th"
              · exact Or.inr (Or.inl h2)
              · by_cases h3 : first.ServerCode = "jp"
                · exact Or.inr (Or.inr h3)
                · exfalso
                  apply hmem
                  simp [setting.ServerCodeNone, setting.ServerCodeTH, setting.ServerCodeJP,
                    h1, h2, h3]
          exact hm
      · rw [hp] at h
        simp at h

end setting_repository

namespace use_case

open golang

/-- The path of a failed history write, for any collaborators: the run returns
the history error after `Update` and history `Create`, without
`PublishVersion`. -/
theorem UpdateResourceVersion_history_failed_path {W : Type} (u : UseCase W) (ID : String)
    (w w1 w2 w3 w4 w5 w6 : W) (s : PCRDSetting) (a : application.Application)
    (cur : GameVersion) (V : String) (herr : Err)
    (hs : u.settingRepository.GetSettingByID ID w = ((s, none), w1))
    (ha : u.applicationRepository.GetAndroidAppByID s.Setting.ID w1 = ((a, none), w2))
    (hload : currentVersionObtained u s a w2 cur w3)
    (hstrat : strategyAnswers u s a cur w3 V none w4)
    (hne : cur.ResVersion ≠ V)
    (hupd : u.versionRepository.Update (changedVersion cur a V) w4 = (none, w5))
    (hhist : u.historyRepository.Create (changedVersion cur a V) w5 = (some herr, w6)) :
    (UpdateResourceVersion u ID w).err = some herr ∧
      (UpdateResourceVersion u ID w).world = w6 ∧
      (UpdateResourceVersion u ID w).calls.filter Call.isCommit =
        [.VersionUpdate (changedVersion cur a V) none,
         .HistoryCreate (changedVersion cur a V) (some herr)] := by
  obtain ⟨pre, hpre, hrun⟩ := UpdateResourceVersion_of_obtained u ID w w1 w2 w3 s a cur hs ha hload
  obtain ⟨sc, _, hsc, _, hdisc⟩ := discoverVersion_of_answer u s a cur pre w3 w4 V hstrat
  rw [hrun, hdisc]
  rcases commitVersion_cases u a cur V (pre ++ [sc]) w4 with
    ⟨heq, _⟩ | ⟨_, e, v1, hu, _⟩ | ⟨_, e, v1, v2, hu, hh, hc⟩ | ⟨_, pe2, v1, v2, v3, hu, hh, _, _⟩
  · exact absurd heq hne
  · rw [hupd] at hu; simp at hu
  · rw [hupd] at hu
    simp only [Prod.mk.injEq, true_and] at hu
    subst hu
    rw [hhist] at hh
    simp only [Prod.mk.injEq, Option.some.injEq] at hh
    obtain ⟨hh1, hh2⟩ := hh
    subst hh1 hh2
    rw [hc]
    refine ⟨rfl, rfl, ?_⟩
    have hfpre : (pre ++ [sc]).filter Call.isCommit = [] := by
      rw [List.filter_eq_nil_iff]
      intro c hcm
      simp only [List.mem_append, List.mem_singleton] at hcm
      rcases hcm with hcm | hcm
      · simp [(hpre c hcm).1]
      · subst hcm; simp [hsc]
    simp only [List.filter_append, hfpre, List.nil_append]
    rfl
  · rw [hupd] at hu
    simp only [Prod.mk.injEq, true_and] at hu
    subst hu
    rw [hhist] at hh
    simp at hh

/-- A run that leaves the state as it found it does so however often it is
repeated. -/
theorem stateAfterRuns_fixed {W : Type} (u : UseCase W) (ID : String) (w : W)
    (h : (UpdateResourceVersion u ID w).world = w) (n : Nat) : stateAfterRuns u ID n w = w := by
  induction n with
  | zero => rfl
  | succ n ih =>
    simp only [stateAfterRuns, h]
    exact ih

/-- On the explicit stores, once the current version is obtained the row of the
setting reads back as that version, and nothing but the `versions` collection
has changed. -/
theorem obtained_reads_back (lib : pcrd_th_repository.Lib) (th : pcrd_th_repository.rest)
    (jp : pcrd_jp_repository.rest) (s : PCRDSetting) (a : application.Application)
    (cur : GameVersion) (w w3 : wiring.World)
    (hcode : s.Setting.ServerCode = "" ∨ s.Setting.ServerCode = "th" ∨
      s.Setting.ServerCode = "jp")
    (hload : currentVersionObtained (wiring.newUseCase lib th jp) s a w cur w3) :
    version_repository.GetByID w3.versions s.Setting.ID = (cur, none) ∧
      w3.settings = w.settings ∧ w3.applications = w.applications ∧
      w3.histories = w.histories ∧ w3.topic = w.topic ∧ w3.now = w.now := by
  rcases hload with hv | ⟨g, e, w0, hv, hnf, hcur, hcr⟩
  · simp only [wiring.newUseCase, Prod.mk.injEq] at hv
    obtain ⟨hv1, hv2⟩ := hv
    subst hv2
    exact ⟨hv1, rfl, rfl, rfl, rfl, rfl⟩
  · simp only [wiring.newUseCase, Prod.mk.injEq] at hv hcr
    obtain ⟨hv1, hv2⟩ := hv
    subst hv2
    obtain ⟨hcr1, hcr2⟩ := hcr
    subst hcr2
    have hid : cur.Setting.ID = s.Setting.ID := by rw [hcur]; rfl
    have hcode2 : cur.Setting.ServerCode = "" ∨ cur.Setting.ServerCode = "th" ∨
        cur.Setting.ServerCode = "jp" := by rw [hcur]; exact hcode
    rw [← hid] at hv1
    have hread := version_repository.GetByID_after_Create w.versions
      (version_repository.Create w.versions w.now cur).2 w.now cur g e hv1 hnf hcode2
      (by rw [← hcr1])
    rw [hid] at hread
    exact ⟨hread, rfl, rfl, rfl, rfl, rfl⟩

end use_case

namespace use_case

open golang

/-- C23: on the explicit stores, when in a run the version `Update` succeeds
and the history `Create` fails, the run returns the history error without any
`PublishVersion`, the `histories` collection and the topic are as before, and
the row of the setting already reads back with the new `resVersion`; and any
later run that starts from a state with this `versions` collection and in
which the strategy returns that same version returns nil without any write and
leaves the state as it found it, however often it is repeated: no history
record and no event is produced for that version. -/
theorem history_failure_loses_change (lib : pcrd_th_repository.Lib)
    (th : pcrd_th_repository.rest) (jp : pcrd_jp_repository.rest) (ID : String)
    (w w3 w4 w5 w6 : wiring.World) (s : PCRDSetting) (a : application.Application)
    (cur : GameVersion) (V : String) (herr : Err)
    (hs : setting_repository.GetSettingByID w.settings ID = (s, none))
    (ha : w.applications s.Setting.ID = (a, none))
    (hload : currentVersionObtained (wiring.newUseCase lib th jp) s a w cur w3)
    (hstrat : strategyAnswers (wiring.newUseCase lib th jp) s a cur w3 V none w4)
    (hne : cur.ResVersion ≠ V)
    (hupd : (wiring.newUseCase lib th jp).versionRepository.Update (changedVersion cur a V) w4 =
      (none, w5))
    (hhist : (wiring.newUseCase lib th jp).historyRepository.Create (changedVersion cur a V) w5 =
      (some herr, w6)) :
    (UpdateResourceVersion (wiring.newUseCase lib th jp) ID w).err = some herr ∧
      (UpdateResourceVersion (wiring.newUseCase lib th jp) ID w).world = w6 ∧
      (∀ c ∈ (UpdateResourceVersion (wiring.newUseCase lib th jp) ID w).calls,
        c.isPublishVersion = false) ∧
      w6.histories = w.histories ∧ w6.topic = w.topic ∧
      ∃ g, version_repository.GetByID w6.versions s.Setting.ID = (g, none) ∧
        g.ResVersion = V ∧
        ∀ (lib2 : pcrd_th_repository.Lib) (th2 : pcrd_th_repository.rest)
          (jp2 : pcrd_jp_repository.rest) (w7 : wiring.World) (a2 : application.Application),
          w7.settings = w.settings → w7.applications s.Setting.ID = (a2, none) →
          w7.versions = w6.versions →
          strategyAnswers (wiring.newUseCase lib2 th2 jp2) s a2 g w7 V none w7 →
          (UpdateResourceVersion (wiring.newUseCase lib2 th2 jp2) ID w7).err = none ∧
          (UpdateResourceVersion (wiring.newUseCase lib2 th2 jp2) ID w7).world = w7 ∧
          (∀ c ∈ (UpdateResourceVersion (wiring.newUseCase lib2 th2 jp2) ID w7).calls,
            c.isWrite = false) ∧
          ∀ n, stateAfterRuns (wiring.newUseCase lib2 th2 jp2) ID n w7 = w7 := by
  have hs1 : (wiring.newUseCase lib th jp).settingRepository.GetSettingByID ID w =
      ((s, none), w) := by simp only [wiring.newUseCase, hs]
  have ha1 : (wiring.newUseCase lib th jp).applicationRepository.GetAndroidAppByID s.Setting.ID w =
      ((a, none), w) := by simp only [wiring.newUseCase, ha]
  obtain ⟨h1, h2, h3⟩ := UpdateResourceVersion_history_failed_path
    (wiring.newUseCase lib th jp) ID w w w w3 w4 w5 w6 s a cur V herr hs1 ha1 hload hstrat hne
    hupd hhist
  have hcode := setting_repository.GetSettingByID_ok_code w.settings ID s hs
  obtain ⟨hread3, hset3, happ3, hhis3, htop3, hnow3⟩ :=
    obtained_reads_back lib th jp s a cur w w3 hcode hload
  have hw4 : w4 = w3 := by
    rcases hstrat with ⟨_, hr⟩ | ⟨_, hr⟩
    · simp only [wiring.newUseCase, Prod.mk.injEq] at hr
      exact hr.2.symm
    · simp only [wiring.newUseCase, Prod.mk.injEq] at hr
      exact hr.2.symm
  subst hw4
  simp only [wiring.newUseCase, Prod.mk.injEq] at hupd hhist
  obtain ⟨hupd1, hupd2⟩ := hupd
  obtain ⟨hhist1, hhist2⟩ := hhist
  have hcid : cur.Setting.ID = s.Setting.ID := by
    obtain ⟨_, _, first, others, _, hcur, _⟩ := version_repository.GetByID_ok _ _ _ hread3
    rw [hcur]
  have hread5 := version_repository.GetByID_after_Update w4.versions
    (version_repository.Update w4.versions w4.now (changedVersion cur a V)).2 w4.now
    s.Setting.ID cur (changedVersion cur a V) hread3 hcid (by rw [← hupd1])
  have hhcol := history_repository.Create_failed w5.histories
    (history_repository.Create w5.histories w5.now (changedVersion cur a V)).2 w5.now
    (changedVersion cur a V) herr (by rw [← hhist1])
  have hv6 : w6.versions =
      (version_repository.Update w4.versions w4.now (changedVersion cur a V)).2 := by
    rw [← hhist2, ← hupd2]
  have hh6 : w6.histories = w.histories := by
    rw [← hhist2]
    simp only
    rw [hhcol, ← hupd2]
    exact hhis3
  have ht6 : w6.topic = w.topic := by
    rw [← hhist2, ← hupd2]
    exact htop3
  refine ⟨h1, h2, ?_, hh6, ht6, _, by rw [hv6]; exact hread5, rfl, ?_⟩
  · intro c hc
    have hmem : c ∈ (UpdateResourceVersion (wiring.newUseCase lib th jp) ID w).calls.filter
        Call.isCommit ∨ c.isCommit = false := by
      by_cases hcm : c.isCommit = true
      · exact Or.inl (List.mem_filter.mpr ⟨hc, hcm⟩)
      · exact Or.inr (by simpa using hcm)
    rcases hmem with hmem | hmem
    · rw [h3] at hmem
      simp only [List.mem_cons, List.mem_singleton, List.not_mem_nil, or_false] at hmem
      rcases hmem with hmem | hmem <;> subst hmem <;> rfl
    · simp only [Call.isCommit, Bool.or_eq_false_iff] at hmem
      exact hmem.2
  · intro lib2 th2 jp2 w7 a2 hset7 happ7 hver7 hstrat7
    have hrun2 := UpdateResourceVersion_unchanged_path (wiring.newUseCase lib2 th2 jp2) ID
      w7 w7 w7 w7 w7 s a2
      { cur with AppVersion := (changedVersion cur a V).AppVersion,
                 ResVersion := (changedVersion cur a V).ResVersion }
      (by simp only [wiring.newUseCase, hset7, hs])
      (by simp only [wiring.newUseCase, happ7])
      (by simp only [wiring.newUseCase, hver7, hv6, hread5])
      hstrat7
    obtain ⟨r1, r2, r3⟩ := hrun2
    exact ⟨r1, r2, r3, stateAfterRuns_fixed _ ID w7 r2⟩

set_option maxRecDepth 1000000 in
/-- C23 witness: setting "s1" on TH, no row yet, backend answer "12345", and a
`histories` collection that fails. The first run returns the history error
with the row at "12345"; a second run from that state, the history collection
working again, returns nil and leaves `histories` and the topic empty. -/
theorem history_failure_loses_change_witness :
    (UpdateResourceVersion
        (wiring.newUseCase pcrd_th_repository.demoLib wiring.thAnswering12345
          (pcrd_jp_repository.serverWith []))
        "s1" { wiring.freshWorld with histories := { docs := [], failing := true } }).err =
        some (.wrap "" ErrSavingVersion) ∧
      (UpdateResourceVersion
        (wiring.newUseCase pcrd_th_repository.demoLib wiring.thAnswering12345
          (pcrd_jp_repository.serverWith []))
        "s1" { wiring.freshWorld with histories := { docs := [], failing := true } }
        ).world.versions.docs = [⟨"s1", "th", "3.4.0", "12345", 1, 1⟩] ∧
      (UpdateResourceVersion
        (wiring.newUseCase pcrd_th_repository.demoLib wiring.thAnswering12345
          (pcrd_jp_repository.serverWith []))
        "s1" wiring.settledWorld).err = none ∧
      (UpdateResourceVersion
        (wiring.newUseCase pcrd_th_repository.demoLib wiring.thAnswering12345
          (pcrd_jp_repository.serverWith []))
        "s1" wiring.settledWorld).world.histories.docs = [] ∧
      (UpdateResourceVersion
        (wiring.newUseCase pcrd_th_repository.demoLib wiring.thAnswering12345
          (pcrd_jp_repository.serverWith []))
        "s1" wiring.settledWorld).world.topic.messages = [] := by
  have h := history_failure_loses_change pcrd_th_repository.demoLib wiring.thAnswering12345
    (pcrd_jp_repository.serverWith []) "s1"
    { wiring.freshWorld with histories := { docs := [], failing := true } } _ _ _ _
    ⟨⟨"s1", "th"⟩, ⟨"dev", 1, 7, ""⟩, "10000000"⟩
    ⟨"s1", "s1", "game", "3.4.0", "", "", 0, 0⟩
    ⟨⟨"s1", "th"⟩, "3.4.0", ""⟩ "12345" (.wrap "" ErrSavingVersion)
    rfl rfl (Or.inr ⟨_, _, _, rfl, by decide, rfl, rfl⟩) (Or.inl ⟨rfl, rfl⟩) (by decide)
    rfl rfl
  obtain ⟨h1, _, _, _, _, g, hg, hgV, hlater⟩ := h
  have hg2 : g = ⟨⟨"s1", "th"⟩, "3.4.0", "12345"⟩ := by
    have hread : version_repository.GetByID
        { docs := [⟨"s1", "th", "3.4.0", "12345", 1, 1⟩], failing := false } "s1" =
        ((⟨⟨"s1", "th"⟩, "3.4.0", "12345"⟩ : GameVersion), none) := by decide
    have hg3 : version_repository.GetByID
        { docs := [⟨"s1", "th", "3.4.0", "12345", 1, 1⟩], failing := false } "s1" = (g, none) :=
      hg
    rw [hread] at hg3
    simp only [Prod.mk.injEq, and_true] at hg3
    exact hg3.symm
  subst hg2
  obtain ⟨l1, l2, _, _⟩ := hlater pcrd_th_repository.demoLib wiring.thAnswering12345
    (pcrd_jp_repository.serverWith []) wiring.settledWorld
    ⟨"s1", "s1", "game", "3.4.0", "", "", 0, 0⟩ rfl rfl rfl (Or.inl ⟨rfl, rfl⟩)
  refine ⟨h1, by decide, l1, ?_, ?_⟩
  · rw [l2]; decide
  · rw [l2]; decide

end use_case
